import Mathlib

/-!
# Endpoint-slice cache of the network proxy

A shallow embedding of `pkg/proxy/endpointslicecache.go` (the cache of
endpoint slices and the construction of the per-port endpoint lists) together
with the API types of `k8s.io/api/discovery/v1alpha1` that the cache reads,
of the validation of slices (`pkg/apis/discovery/validation/validation.go`)
and of the generation bookkeeping of the registry strategy
(`pkg/registry/discovery/endpointslice/strategy.go`).

Conventions of the embedding:

* a Go `map` is an association list with pairwise distinct keys (`GoMap`);
  reading a missing key gives `none`, writing replaces the binding in place;
* a Go pointer to an optional field is an `Option`; dereferencing `nil` is a
  run-time panic, rendered as the result `none` of the enclosing operation;
* `int32` port numbers are `Int` (no arithmetic is performed on them); the
  `int64` generation is an `Int`, incremented with wrap-around;
* the order in which Go enumerates a map is unspecified: the construction of
  the endpoint lists takes the enumeration of the stored slices as an explicit
  list, and statements quantify over every permutation of the stored slices;
* log lines and recorded events are not part of the state and are left out,
  but the evaluation of their arguments (which can panic) is kept.
-/

/-! ## Go maps -/

/-- A Go map: association list, first binding of a key wins on lookup. -/
abbrev GoMap (κ ν : Type) := List (κ × ν)

namespace GoMap

variable {κ ν : Type} [DecidableEq κ]

/-- Lookup: `m[k]` with the `ok` flag of the two-valued form. -/
def get : GoMap κ ν → κ → Option ν
  | [], _ => none
  | (k', v) :: m, k => if k' = k then some v else get m k

/-- Assignment `m[k] = v`. -/
def set : GoMap κ ν → κ → ν → GoMap κ ν
  | [], k, v => [(k, v)]
  | (k', v') :: m, k, v => if k' = k then (k, v) :: m else (k', v') :: set m k v

/-- Builtin `delete(m, k)`; deleting a missing key does nothing. -/
def delete : GoMap κ ν → κ → GoMap κ ν
  | [], _ => []
  | (k', v') :: m, k => if k' = k then delete m k else (k', v') :: delete m k

/-- The values of the map, in one enumeration. -/
def values (m : GoMap κ ν) : List ν := m.map Prod.snd

/-- The keys of the map, in one enumeration. -/
def keys (m : GoMap κ ν) : List κ := m.map Prod.fst

/-- Well-formed map: no key is bound twice. -/
def WF (m : GoMap κ ν) : Prop := m.keys.Nodup

end GoMap

/-! ## API types (`k8s.io/apimachinery`, `k8s.io/api/discovery/v1alpha1`) -/

namespace types

/-- The pair `types.NamespacedName`. -/
structure NamespacedName where
  Namespace : String
  Name : String
  deriving DecidableEq

end types

namespace metav1

/-- The part of `metav1.OwnerReference` used by the cache. -/
structure OwnerReference where
  Kind : String
  Name : String
  deriving DecidableEq

end metav1

namespace api

/-- The type `api.ObjectReference` (declared outside the given sources), a
reference to the object that provides an endpoint; the model keeps the fields
that identify the object. -/
structure ObjectReference where
  Kind : String
  Namespace : String
  Name : String
  UID : String
  deriving DecidableEq

end api

namespace discovery

/-- Type `discovery.EndpointPort`: all three fields are optional pointers. -/
structure EndpointPort where
  Name : Option String
  Protocol : Option String
  Port : Option Int
  deriving DecidableEq

/-- Type `discovery.EndpointConditions`. -/
structure EndpointConditions where
  Ready : Bool
  deriving DecidableEq

/-- Type `discovery.Endpoint`; `TargetRef` is optional and unset unless given
(the cache does not read it, the comparison of endpoints on update does). -/
structure Endpoint where
  Targets : List String
  Conditions : EndpointConditions
  Hostname : Option String
  TargetRef : Option api.ObjectReference := none
  Topology : GoMap String String
  deriving DecidableEq

/-- Type `discovery.EndpointSlice` with the fields of `ObjectMeta` that are used. -/
structure EndpointSlice where
  Name : String
  Namespace : String
  OwnerReferences : List metav1.OwnerReference
  Generation : Int
  Ports : List EndpointPort
  TargetType : Option String
  Endpoints : List Endpoint
  deriving DecidableEq

end discovery

/-! ## The proxy package -/

namespace proxy

/-- Modelled from the spec: `ServicePortName` (declared outside the given
sources) is the PortIdentity, a service key together with a port name. -/
structure ServicePortName where
  NamespacedName : types.NamespacedName
  Port : String
  deriving DecidableEq

/-- Modelled from the spec: the `Endpoint` interface and its implementation
`BaseEndpointInfo` are declared outside the given sources.  A materialized
endpoint exposes its "address:port" string (`Endpoint`, the field the tests
compare), its locality flag and the raw address (method `IP()`); a value of
the interface is the record of these three observations. -/
structure BaseEndpointInfo where
  Endpoint : String
  IsLocal : Bool
  IP : String
  deriving DecidableEq

/-- A value of the interface `Endpoint`. -/
abbrev Endpoint := BaseEndpointInfo

/-- Modelled from the spec: `newBaseEndpointInfo` (declared outside the given
sources) builds the base record from the primary target address and the
numeric port: the string is the address, a colon and the decimal port. -/
def newBaseEndpointInfo (IP : String) (port : Int) (isLocal : Bool) : Endpoint :=
  { Endpoint := IP ++ ":" ++ toString port, IsLocal := isLocal, IP := IP }

/-- The hook `makeEndpointFunc`. -/
abbrev makeEndpointFunc := Endpoint → Endpoint

/-- The result type `EndpointsMap`. -/
abbrev EndpointsMap := GoMap ServicePortName (List Endpoint)

/-- Type `EndpointInfo`: the cached attributes of one endpoint. -/
structure EndpointInfo where
  Targets : List String
  Topology : GoMap String String
  deriving DecidableEq

/-- Type `EndpointSliceInfo`: the cached attributes of one slice. -/
structure EndpointSliceInfo where
  Ports : List discovery.EndpointPort
  Endpoints : List EndpointInfo
  deriving DecidableEq

/-- Type `EndpointSliceCache`; the event recorder only receives events and is left
out. `isIPv6Mode` is the nullable flag of the address-family filter. -/
structure EndpointSliceCache where
  slicesByService : GoMap types.NamespacedName (GoMap String EndpointSliceInfo)
  makeEndpointInfo : Option makeEndpointFunc
  hostname : String
  isIPv6Mode : Option Bool

/-- Function `NewEndpointSliceCache`. -/
def NewEndpointSliceCache (hostname : String) (isIPv6Mode : Option Bool)
    (makeEndpointInfo : Option makeEndpointFunc) : EndpointSliceCache :=
  { slicesByService := [], hostname := hostname, isIPv6Mode := isIPv6Mode,
    makeEndpointInfo := makeEndpointInfo }

/-- Function `EndpointSliceCacheKeys`. -/
def EndpointSliceCacheKeys (endpointSlice : discovery.EndpointSlice) :
    types.NamespacedName × String :=
  match endpointSlice.OwnerReferences with
  | ownerRef :: _ =>
      ({ Namespace := endpointSlice.Namespace, Name := ownerRef.Name }, endpointSlice.Name)
  | [] => ({ Namespace := "", Name := "" }, endpointSlice.Name)

/-- The projection computed at the start of `Update`: the ports unchanged and
the ready endpoints, reduced to targets and topology. -/
def esInfoOf (endpointSlice : discovery.EndpointSlice) : EndpointSliceInfo :=
  { Ports := endpointSlice.Ports
    Endpoints := (endpointSlice.Endpoints.filter (fun endpoint => endpoint.Conditions.Ready)).map
      (fun endpoint => { Targets := endpoint.Targets, Topology := endpoint.Topology }) }

/-- Method `EndpointSliceCache.Update`. -/
def EndpointSliceCache.Update (e : EndpointSliceCache)
    (endpointSlice : discovery.EndpointSlice) : EndpointSliceCache :=
  let serviceKey := (EndpointSliceCacheKeys endpointSlice).1
  let sliceKey := (EndpointSliceCacheKeys endpointSlice).2
  let esInfo := esInfoOf endpointSlice
  let slices :=
    if (e.slicesByService.get serviceKey).isSome then e.slicesByService
    else e.slicesByService.set serviceKey []
  { e with
    slicesByService :=
      slices.set serviceKey (((slices.get serviceKey).getD []).set sliceKey esInfo) }

/-- Method `EndpointSliceCache.Delete`; `delete` on the nil map of a service that has
no entry does nothing. -/
def EndpointSliceCache.Delete (e : EndpointSliceCache)
    (endpointSlice : discovery.EndpointSlice) : EndpointSliceCache :=
  let serviceKey := (EndpointSliceCacheKeys endpointSlice).1
  let sliceKey := (EndpointSliceCacheKeys endpointSlice).2
  match e.slicesByService.get serviceKey with
  | none => e
  | some slices => { e with slicesByService := e.slicesByService.set serviceKey (slices.delete sliceKey) }

/-- The intermediate map of `GetEndpointsMap`: per port identity, the
endpoints found so far, keyed by address. -/
abbrev EndpointInfoByServicePort := GoMap ServicePortName (GoMap String Endpoint)

/-- The address-family test of `GetEndpointsMap`: with a mode configured, an
endpoint is kept when the family of its first target is the configured one.
`IsIPv6String` is the predicate of `k8s.io/utils/net`, a parameter of the
development. -/
def admits (IsIPv6String : String → Bool) (e : EndpointSliceCache) (target : String) : Bool :=
  !(e.isIPv6Mode.any (fun mode => IsIPv6String target != mode))

/-- The locality test of `GetEndpointsMap`. -/
def isLocalEndpoint (e : EndpointSliceCache) (endpoint : EndpointInfo) : Bool :=
  decide (0 < e.hostname.length) &&
    decide ((endpoint.Topology.get "kubernetes.io/hostname").getD "" = e.hostname)

/-- Body of the innermost loop of `GetEndpointsMap` (one retained endpoint of
a slice, for one declared port). -/
def addEndpoint (IsIPv6String : String → Bool) (e : EndpointSliceCache)
    (port : discovery.EndpointPort) (portNum : Int) (svcPortName : ServicePortName)
    (m : EndpointInfoByServicePort) (endpoint : EndpointInfo) :
    Option EndpointInfoByServicePort :=
  match endpoint.Targets with
  | [] =>
      -- the warning formats `*port.Name`
      match port.Name with
      | none => none
      | some _ => some m
  | target :: _ =>
      if admits IsIPv6String e target = false then some m
      else
        let isLocal := isLocalEndpoint e endpoint
        let endpointInfo := newBaseEndpointInfo target portNum isLocal
        let byIP := (m.get svcPortName).getD []
        if (byIP.get endpointInfo.IP).isNone || isLocal then
          match e.makeEndpointInfo with
          | some f => some (m.set svcPortName (byIP.set endpointInfo.IP (f endpointInfo)))
          | none => some (m.set svcPortName (byIP.set endpointInfo.IP endpointInfo))
        else some m

/-- Body of the loop over the declared ports of one slice. -/
def addPort (IsIPv6String : String → Bool) (e : EndpointSliceCache)
    (serviceNN : types.NamespacedName) (endpointSlice : EndpointSliceInfo)
    (m : EndpointInfoByServicePort) (port : discovery.EndpointPort) :
    Option EndpointInfoByServicePort :=
  match port.Port with
  | none => none  -- `*port.Port` on a nil pointer
  | some portNum =>
      if portNum = 0 then
        -- the warning formats `*port.Name`
        match port.Name with
        | none => none
        | some _ => some m
      else
        let svcPortName : ServicePortName :=
          { NamespacedName := serviceNN, Port := port.Name.getD "" }
        let m := if (m.get svcPortName).isSome then m else m.set svcPortName []
        endpointSlice.Endpoints.foldlM (addEndpoint IsIPv6String e port portNum svcPortName) m

/-- Body of the loop over the slices of the service. -/
def addSlice (IsIPv6String : String → Bool) (e : EndpointSliceCache)
    (serviceNN : types.NamespacedName) (m : EndpointInfoByServicePort)
    (endpointSlice : EndpointSliceInfo) : Option EndpointInfoByServicePort :=
  endpointSlice.Ports.foldlM (addPort IsIPv6String e serviceNN endpointSlice) m

/-- Go's `<` on strings: lexicographic comparison, character by character. -/
def stringLess (a b : String) : Prop := List.Lex (· < ·) a.toList b.toList

instance (a b : String) : Decidable (stringLess a b) :=
  inferInstanceAs (Decidable (List.Lex (· < ·) a.toList b.toList))

/-- Method `byIP.Less` on two elements: comparison of the addresses as strings. -/
def byIP.Less (a b : Endpoint) : Bool := decide (stringLess a.IP b.IP)

/-- The order that `sort.Sort(byIP(..))` establishes: no later element is
`Less` than an earlier one. -/
def byIP.le (a b : Endpoint) : Prop := byIP.Less b a = false

instance : DecidableRel byIP.le := fun a b => inferInstanceAs (Decidable (byIP.Less b a = false))

/-- The call `sort.Sort(byIP(l))`: the sorted list is determined by the order
whenever the addresses are pairwise distinct; otherwise the model takes the
result of an insertion sort. -/
def sortByIP (l : List Endpoint) : List Endpoint := l.insertionSort byIP.le

/-- One pass of the loop that fills the result: a port identity with at least
one address is given the sorted list of its endpoints. -/
def materializeStep (endpointsMap : EndpointsMap)
    (entry : ServicePortName × GoMap String Endpoint) : EndpointsMap :=
  if 0 < entry.2.length then GoMap.set endpointsMap entry.1 (sortByIP (GoMap.values entry.2))
  else endpointsMap

/-- Second part of `GetEndpointsMap`: the loop over `endpointInfoByServicePort`
that fills the result. -/
def materialize (m : EndpointInfoByServicePort) : EndpointsMap :=
  m.foldl materializeStep []

/-- First part of `GetEndpointsMap` for a given enumeration `endpointSlices` of
the slices stored under `serviceNN`: the map `endpointInfoByServicePort` after
the loops; `none` is a run-time panic. -/
def endpointInfoByServicePortOver (IsIPv6String : String → Bool) (e : EndpointSliceCache)
    (serviceNN : types.NamespacedName) (endpointSlices : List EndpointSliceInfo) :
    Option EndpointInfoByServicePort :=
  endpointSlices.foldlM (addSlice IsIPv6String e serviceNN) []

/-- Method `GetEndpointsMap` for a given enumeration `endpointSlices` of the slices
stored under `serviceNN`; `none` is a run-time panic. -/
def GetEndpointsMapOver (IsIPv6String : String → Bool) (e : EndpointSliceCache)
    (serviceNN : types.NamespacedName) (endpointSlices : List EndpointSliceInfo) :
    Option EndpointsMap :=
  (endpointInfoByServicePortOver IsIPv6String e serviceNN endpointSlices).map materialize

/-- The map `e.slicesByService[serviceNN]` (empty when the service has no
entry). -/
def EndpointSliceCache.storedUnder (e : EndpointSliceCache) (serviceNN : types.NamespacedName) :
    GoMap String EndpointSliceInfo :=
  (e.slicesByService.get serviceNN).getD []

/-- The slices stored under a service key, in the enumeration of the model. -/
def EndpointSliceCache.slicesOf (e : EndpointSliceCache) (serviceNN : types.NamespacedName) :
    List EndpointSliceInfo :=
  (e.storedUnder serviceNN).values

/-- Method `EndpointSliceCache.GetEndpointsMap`, enumerating the slices in the order
of the model. -/
def EndpointSliceCache.GetEndpointsMap (IsIPv6String : String → Bool) (e : EndpointSliceCache)
    (serviceNN : types.NamespacedName) : Option EndpointsMap :=
  GetEndpointsMapOver IsIPv6String e serviceNN (e.slicesOf serviceNN)

/-- The record stored for a base record: the hook applied to it when a hook is
configured, the base record itself otherwise (lines 137 to 141). -/
def applyHook (e : EndpointSliceCache) (x : Endpoint) : Endpoint :=
  match e.makeEndpointInfo with
  | some f => f x
  | none => x

/-- The binding `endpointInfoByServicePort[key][A]`: the entry kept for address
`A` under a port identity, if any. -/
def entry (m : EndpointInfoByServicePort) (key : ServicePortName) (A : String) : Option Endpoint :=
  GoMap.get ((GoMap.get m key).getD []) A

/-- Well-formedness of the intermediate map: no port identity and, under a
port identity, no address is bound twice. -/
def StateWF (m : EndpointInfoByServicePort) : Prop :=
  GoMap.WF m ∧ ∀ key byIP, GoMap.get m key = some byIP → GoMap.WF byIP

/-- A declared port that the loops of `GetEndpointsMap` pass without a nil
dereference: its number is set, and its name is set whenever the warnings that
format the name are reached (number 0, or an endpoint without targets). -/
def portSafe (info : EndpointSliceInfo) (port : discovery.EndpointPort) : Prop :=
  ∃ portNum, port.Port = some portNum ∧
    (port.Name = none → portNum ≠ 0 ∧ ∀ ep ∈ info.Endpoints, ep.Targets ≠ [])

/-- A stored slice all of whose declared ports are passed without a nil
dereference. -/
def derefSafe (info : EndpointSliceInfo) : Prop := ∀ port ∈ info.Ports, portSafe info port

/-- Some enumerated slice declares, for the port identity `key` of the service,
a port with a non-zero number `portNum` and retains an endpoint satisfying `D`. -/
def Contributes (serviceNN : types.NamespacedName) (slices : List EndpointSliceInfo)
    (key : ServicePortName) (D : Int → EndpointInfo → Prop) : Prop :=
  ∃ info ∈ slices, ∃ port ∈ info.Ports, ∃ portNum, port.Port = some portNum ∧ portNum ≠ 0 ∧
    key = ⟨serviceNN, port.Name.getD ""⟩ ∧ ∃ ep ∈ info.Endpoints, D portNum ep

/-- The cache has no hook, or a hook that returns a record with the address
it was given. -/
def HookPreservesIP (e : EndpointSliceCache) : Prop :=
  ∀ f, e.makeEndpointInfo = some f → ∀ x, (f x).IP = x.IP

/-- The cache has no hook, or a hook that returns a record with the locality
flag it was given. -/
def HookPreservesIsLocal (e : EndpointSliceCache) : Prop :=
  ∀ f, e.makeEndpointInfo = some f → ∀ x, (f x).IsLocal = x.IsLocal

/-- The cache obtained from a new cache by a sequence of `Update` calls. -/
def cacheOf (hostname : String) (isIPv6Mode : Option Bool)
    (makeEndpointInfo : Option makeEndpointFunc) (updates : List discovery.EndpointSlice) :
    EndpointSliceCache :=
  updates.foldl EndpointSliceCache.Update
    (NewEndpointSliceCache hostname isIPv6Mode makeEndpointInfo)

/-- The slice last passed to `Update` under a pair of keys, if any. -/
def lastUpdate : List discovery.EndpointSlice → types.NamespacedName × String →
    Option discovery.EndpointSlice
  | [], _ => none
  | s :: rest, key =>
    match lastUpdate rest key with
    | some s' => some s'
    | none => if EndpointSliceCacheKeys s = key then some s else none

/-- Some shard stored under `k` declares a port whose name is `n` (an unset
name counting as the empty name) with a non-zero number and retains an
endpoint whose first target is `A` and which satisfies `P`. -/
def Contribution (e : EndpointSliceCache) (k : types.NamespacedName) (n A : String)
    (P : EndpointInfo → Prop) : Prop :=
  ∃ info ∈ e.slicesOf k, ∃ port ∈ info.Ports, port.Name.getD "" = n ∧
    (∃ portNum, port.Port = some portNum ∧ portNum ≠ 0) ∧
    ∃ ep ∈ info.Endpoints, ep.Targets.head? = some A ∧ P ep

/-- A stored shard without its endpoints that have no targets. -/
def dropTargetless (info : EndpointSliceInfo) : EndpointSliceInfo :=
  { info with Endpoints := info.Endpoints.filter (fun endpoint => !endpoint.Targets.isEmpty) }

/-! ## Concrete slices -/

/-- The service of the examples. -/
def svc1 : types.NamespacedName := { Namespace := "ns1", Name := "svc1" }

/-- A slice of service `svc1` in namespace `ns1`. -/
def sliceOf (name : String) (ports : List discovery.EndpointPort)
    (endpoints : List discovery.Endpoint) : discovery.EndpointSlice :=
  { Name := name, Namespace := "ns1",
    OwnerReferences := [{ Kind := "Service", Name := "svc1" }],
    Generation := 1, Ports := ports, TargetType := some "IP", Endpoints := endpoints }

/-- A declared port with name and number set. -/
def namedPort (name : String) (number : Int) : discovery.EndpointPort :=
  { Name := some name, Protocol := some "TCP", Port := some number }

/-- An endpoint with the given targets, hosted on the given node. -/
def endpointOn (targets : List String) (ready : Bool) (node : String) : discovery.Endpoint :=
  { Targets := targets, Conditions := { Ready := ready }, Hostname := none,
    Topology := [("kubernetes.io/hostname", node)] }

/-- One slice with two ports and four endpoints, one of them not ready. -/
def sliceA : discovery.EndpointSlice :=
  sliceOf "svc1-1" [namedPort "port-0" 80, namedPort "port-1" 443]
    [endpointOn ["10.0.1.1"] true "host2", endpointOn ["10.0.1.2"] true "host1",
     endpointOn ["10.0.1.10"] true "host2", endpointOn ["10.0.1.4"] false "host1"]

/-- A second slice of the same service that repeats `10.0.1.2`, on another
node, and adds `10.0.1.3`. -/
def sliceB : discovery.EndpointSlice :=
  sliceOf "svc1-2" [namedPort "port-0" 80]
    [endpointOn ["10.0.1.2"] true "host2", endpointOn ["10.0.1.3"] true "host2"]

/-- The view of `svc1` for the cache holding `sliceA` and `sliceB` on node
`host1`. -/
def viewAB : EndpointsMap :=
  [(⟨svc1, "port-0"⟩,
      [⟨"10.0.1.1:80", false, "10.0.1.1"⟩, ⟨"10.0.1.10:80", false, "10.0.1.10"⟩,
       ⟨"10.0.1.2:80", true, "10.0.1.2"⟩, ⟨"10.0.1.3:80", false, "10.0.1.3"⟩]),
   (⟨svc1, "port-1"⟩,
      [⟨"10.0.1.1:443", false, "10.0.1.1"⟩, ⟨"10.0.1.10:443", false, "10.0.1.10"⟩,
       ⟨"10.0.1.2:443", true, "10.0.1.2"⟩])]

/-- The cache of the examples: node `host1`, no filter, no hook, `sliceA` and
`sliceB` stored. -/
def cacheAB : EndpointSliceCache := cacheOf "host1" none none [sliceA, sliceB]

/-- An earlier version of `sliceA` (same keys) in which `10.0.1.4` was ready. -/
def sliceA0 : discovery.EndpointSlice :=
  sliceOf "svc1-1" [namedPort "port-0" 80]
    [endpointOn ["10.0.1.4"] true "host1"]

/-- Two slices of `svc1` that declare the port `http` with different numbers
and both carry `10.0.0.1`. -/
def sliceP1 : discovery.EndpointSlice :=
  sliceOf "svc1-1" [namedPort "http" 80] [endpointOn ["10.0.0.1"] true "host1"]

/-- See `sliceP1`. -/
def sliceP2 : discovery.EndpointSlice :=
  sliceOf "svc1-2" [namedPort "http" 8080] [endpointOn ["10.0.0.1"] true "host1"]

/-- A slice whose first port has no number (the field is optional in
`EndpointPort`). -/
def sliceNoNumber : discovery.EndpointSlice :=
  sliceOf "svc1-1"
    [{ Name := some "http", Protocol := some "TCP", Port := none }, namedPort "https" 443]
    [endpointOn ["10.0.0.1"] true "host1"]

/-- A slice with a port of number 0 and no name. -/
def sliceZeroNoName : discovery.EndpointSlice :=
  sliceOf "svc1-1"
    [{ Name := none, Protocol := some "TCP", Port := some 0 }, namedPort "https" 443]
    [endpointOn ["10.0.0.1"] true "host1"]

/-- A slice with an unnamed port 80, a ready endpoint without targets and a
ready endpoint `10.0.0.1`. -/
def sliceTargetless : discovery.EndpointSlice :=
  sliceOf "svc1-1" [{ Name := none, Protocol := some "TCP", Port := some 80 }]
    [endpointOn [] true "host1", endpointOn ["10.0.0.1"] true "host1"]

/-- The slice `sliceTargetless` without its endpoint that has no targets. -/
def sliceTargetlessRemoved : discovery.EndpointSlice :=
  sliceOf "svc1-1" [{ Name := none, Protocol := some "TCP", Port := some 80 }]
    [endpointOn ["10.0.0.1"] true "host1"]

end proxy

namespace GoMap

variable {κ ν ν' : Type} [DecidableEq κ]

/-- The map with a function applied to every value. -/
def mapValues (g : ν → ν') (m : GoMap κ ν) : GoMap κ ν' := m.map (fun p => (p.1, g p.2))

end GoMap

namespace proxy

/-- The binding that `Update` stores for a slice. -/
def storedBinding (s : discovery.EndpointSlice) : String × EndpointSliceInfo :=
  ((EndpointSliceCacheKeys s).2, esInfoOf s)

/-- A stored shard without its declared ports of number 0. -/
def dropZeroPorts (info : EndpointSliceInfo) : EndpointSliceInfo :=
  { info with Ports := info.Ports.filter (fun port => decide (port.Port ≠ some 0)) }

/-- A stored shard without the endpoints whose first target is not of the
family `mode` (endpoints without targets have no first target and stay). -/
def keepFamily (IsIPv6String : String → Bool) (mode : Bool) (info : EndpointSliceInfo) :
    EndpointSliceInfo :=
  { info with
    Endpoints := info.Endpoints.filter (fun endpoint =>
      match endpoint.Targets with
      | [] => true
      | target :: _ => IsIPv6String target == mode) }

/-- The slice `sliceZeroNoName` without its port of number 0. -/
def sliceZeroRemoved : discovery.EndpointSlice :=
  sliceOf "svc1-1" [namedPort "https" 443] [endpointOn ["10.0.0.1"] true "host1"]

/-- The intermediate map with a transform applied to every entry. -/
def mapState (f : Endpoint → Endpoint) (m : EndpointInfoByServicePort) :
    EndpointInfoByServicePort :=
  GoMap.mapValues (GoMap.mapValues f) m

/-- The view with a transform applied to every entry of every sequence. -/
def mapView (f : Endpoint → Endpoint) (view : EndpointsMap) : EndpointsMap :=
  GoMap.mapValues (List.map f) view

/-- A slice named like `sliceA` that belongs to another service. -/
def sliceOther : discovery.EndpointSlice :=
  { sliceA with OwnerReferences := [{ Kind := "Service", Name := "svc2" }] }

/-- The slice `sliceA` without owner reference. -/
def sliceOwnerless : discovery.EndpointSlice :=
  { sliceA with OwnerReferences := [] }

/-- A slice with one IPv4 and one IPv6 endpoint. -/
def sliceMixed : discovery.EndpointSlice :=
  sliceOf "svc1-1" [namedPort "http" 80]
    [endpointOn ["10.0.0.1"] true "host1", endpointOn ["fd00::1"] true "host1"]

/-- A stand-in for `IsIPv6String` on the addresses of the examples. -/
def isV6Example (target : String) : Bool := decide (target = "fd00::1")

/-- A transform that keeps the address and marks every record local. -/
def markLocal (x : Endpoint) : Endpoint := { x with IsLocal := true }

end proxy

/-! ## Validation (`pkg/apis/discovery/validation`) -/

namespace field

/-- One step of a field path: a named child or an index. -/
inductive PathElement where
  | child (name : String)
  | index (i : Nat)
  deriving DecidableEq

/-- A field path of `k8s.io/apimachinery/pkg/util/validation/field` (outside
the given sources), as the list of its steps from the root. -/
abbrev Path := List PathElement

/-- The method `Path.Child`. -/
def Path.Child (p : Path) (name : String) : Path := p ++ [PathElement.child name]

/-- The method `Path.Index`. -/
def Path.Index (p : Path) (i : Nat) : Path := p ++ [PathElement.index i]

/-- The kinds of validation error that the validation of endpoint slices
produces. -/
inductive ErrorType where
  | ErrorTypeRequired
  | ErrorTypeDuplicate
  | ErrorTypeInvalid
  | ErrorTypeNotSupported
  deriving DecidableEq

/-- A validation error `field.Error` (declared outside the given sources),
recorded by its kind (the Go field `Type`, here `ErrType`), the path of the
field, the offending value and the detail message. -/
structure Error where
  ErrType : ErrorType
  Field : Path
  BadValue : String
  Detail : String
  deriving DecidableEq

/-- A list of validation errors. -/
abbrev ErrorList := List Error

/-- The constructor `field.Required`. -/
def Required (p : Path) (detail : String) : Error :=
  { ErrType := ErrorType.ErrorTypeRequired, Field := p, BadValue := "", Detail := detail }

/-- The constructor `field.Duplicate`. -/
def Duplicate (p : Path) (value : String) : Error :=
  { ErrType := ErrorType.ErrorTypeDuplicate, Field := p, BadValue := value, Detail := "" }

/-- The constructor `field.Invalid`. -/
def Invalid (p : Path) (value : String) (detail : String) : Error :=
  { ErrType := ErrorType.ErrorTypeInvalid, Field := p, BadValue := value, Detail := detail }

/-- The constructor `field.NotSupported`; the detail lists the supported
values. -/
def NotSupported (p : Path) (value : String) (validValues : List String) : Error :=
  { ErrType := ErrorType.ErrorTypeNotSupported, Field := p, BadValue := value,
    Detail := String.intercalate ", " validValues }

end field

namespace validation

/-- The protocols `v1.ProtocolTCP`, `v1.ProtocolUDP` and `v1.ProtocolSCTP`
(constants declared outside the given sources; the comment on
`EndpointPort.Protocol` names their values). -/
def supportedPortProtocols : List String := ["TCP", "UDP", "SCTP"]

/-- The state of the loop of `ValidateEndpointSlicePorts`: the errors found and
the set of port names seen. -/
abbrev PortsState := field.ErrorList × List String

/-- Body of the loop of `ValidateEndpointSlicePorts` for the port at index `i`;
`none` is the panic of dereferencing an unset `Name` or `Protocol`.
`IsValidPortName` is the function of `k8s.io/apimachinery/pkg/util/validation`
(outside the given sources), a parameter: it returns the list of the reasons
why a name is not a valid port name. -/
def validatePort (IsValidPortName : String → List String) (fldPath : field.Path)
    (i : Nat) (st : PortsState) (endpointPort : discovery.EndpointPort) : Option PortsState :=
  let idxPath := fldPath.Index i
  match endpointPort.Name with
  | none => none
  | some name =>
    let allErrs :=
      if name ≠ "" then
        st.1 ++ (IsValidPortName name).map (fun msg => field.Invalid (idxPath.Child "name") name msg)
      else st.1
    let st' : PortsState :=
      if name ∈ st.2 then (allErrs ++ [field.Duplicate (idxPath.Child "name") name], st.2)
      else (allErrs, name :: st.2)
    match endpointPort.Protocol with
    | none => none
    | some protocol =>
      if protocol = "" then
        some (st'.1 ++ [field.Required (idxPath.Child "protocol") ""], st'.2)
      else if protocol ∉ supportedPortProtocols then
        some (st'.1 ++ [field.NotSupported (idxPath.Child "protocol") protocol
          supportedPortProtocols], st'.2)
      else some st'

/-- The loop of `ValidateEndpointSlicePorts` from index `i` on. -/
def validatePortsFrom (IsValidPortName : String → List String) (fldPath : field.Path) :
    Nat → List discovery.EndpointPort → PortsState → Option PortsState
  | _, [], st => some st
  | i, endpointPort :: rest, st =>
    match validatePort IsValidPortName fldPath i st endpointPort with
    | none => none
    | some st' => validatePortsFrom IsValidPortName fldPath (i + 1) rest st'

/-- The function `ValidateEndpointSlicePorts`; `none` is a run-time panic. -/
def ValidateEndpointSlicePorts (IsValidPortName : String → List String)
    (endpointPorts : List discovery.EndpointPort) (fldPath : field.Path) :
    Option field.ErrorList :=
  (validatePortsFrom IsValidPortName fldPath 0 endpointPorts ([], [])).map Prod.fst

/-- The ports of a list have their name and their protocol set. -/
def portsSet (endpointPorts : List discovery.EndpointPort) : Prop :=
  ∀ port ∈ endpointPorts, port.Name ≠ none ∧ port.Protocol ≠ none

/-- The conditions under which a list of ports is accepted: the names are
pairwise distinct, every non-empty name is a valid port name and every
protocol is supported. -/
def portsAccepted (IsValidPortName : String → List String)
    (endpointPorts : List discovery.EndpointPort) : Prop :=
  (endpointPorts.map (fun port => port.Name)).Nodup ∧
  (∀ port ∈ endpointPorts, ∀ name, port.Name = some name → name ≠ "" →
    IsValidPortName name = []) ∧
  (∀ port ∈ endpointPorts, ∀ protocol, port.Protocol = some protocol →
    protocol ∈ supportedPortProtocols)

/-- A port with the given name and protocol, for the examples. -/
def examplePort (name protocol : String) : discovery.EndpointPort :=
  { Name := some name, Protocol := some protocol, Port := none }

end validation

/-! ## Validation of the endpoints, the strategy of the registry, more examples -/

namespace metav1

/-- The part of `metav1.ObjectMeta` (declared outside the given sources) that
the slices of this development carry. -/
structure ObjectMeta where
  Name : String
  Namespace : String
  OwnerReferences : List OwnerReference
  Generation : Int
  deriving DecidableEq

end metav1

namespace discovery

/-- The embedded field `ObjectMeta` of a slice. -/
def EndpointSlice.ObjectMeta (endpointSlice : EndpointSlice) : metav1.ObjectMeta :=
  { Name := endpointSlice.Name, Namespace := endpointSlice.Namespace,
    OwnerReferences := endpointSlice.OwnerReferences, Generation := endpointSlice.Generation }

end discovery

namespace field

/-- The function `field.NewPath` with a single name. -/
def NewPath (name : String) : Path := [PathElement.child name]

end field

namespace validation

/-- The loop of `ValidateEndpointSliceEndpoints` from index `i` on. -/
def validateEndpointsFrom (fldPath : field.Path) :
    Nat → List discovery.Endpoint → field.ErrorList → field.ErrorList
  | _, [], allErrs => allErrs
  | i, endpoint :: rest, allErrs =>
    let idxPath := fldPath.Index i
    validateEndpointsFrom fldPath (i + 1) rest
      (if endpoint.Targets.length < 1 then
        allErrs ++ [field.Required (idxPath.Child "targets") "At least 1 target required"]
      else allErrs)

/-- The function `ValidateEndpointSliceEndpoints`. -/
def ValidateEndpointSliceEndpoints (endpoints : List discovery.Endpoint)
    (fldPath : field.Path) : field.ErrorList :=
  validateEndpointsFrom fldPath 0 endpoints []

/-- The function `ValidateEndpointSlice`; `none` is a run-time panic of the
validation of the ports. `ValidateObjectMeta` stands for the call of
`apivalidation.ValidateObjectMeta` (outside the given sources) on the metadata
of the slice, with the arguments of line 29. -/
def ValidateEndpointSlice (ValidateObjectMeta : metav1.ObjectMeta → field.ErrorList)
    (IsValidPortName : String → List String) (endpointSlice : discovery.EndpointSlice) :
    Option field.ErrorList :=
  let allErrs := ValidateObjectMeta endpointSlice.ObjectMeta
  let allErrs := allErrs ++
    ValidateEndpointSliceEndpoints endpointSlice.Endpoints (field.NewPath "endpoints")
  (ValidateEndpointSlicePorts IsValidPortName endpointSlice.Ports (field.NewPath "ports")).map
    (fun errs => allErrs ++ errs)

/-- The error reported for the endpoint at index `i`. -/
def targetsRequired (fldPath : field.Path) (i : Nat) : field.Error :=
  field.Required ((fldPath.Index i).Child "targets") "At least 1 target required"

/-- An endpoint with the given targets and nothing else set, for the examples. -/
def exampleEndpoint (targets : List String) : discovery.Endpoint :=
  { Targets := targets, Conditions := { Ready := false }, Hostname := none, Topology := [] }

/-- The slice of the test case `good-slice`. -/
def sliceGood : discovery.EndpointSlice :=
  { Name := "hello", Namespace := "world", OwnerReferences := [], Generation := 0,
    Ports := [{ Name := some "http", Protocol := some "TCP", Port := none }],
    TargetType := some "IP", Endpoints := [exampleEndpoint ["1.2.3.4"]] }

/-- The slice `sliceGood` with the target type `Other`. -/
def sliceBadTargetType : discovery.EndpointSlice :=
  { sliceGood with TargetType := some "Other" }

end validation

namespace endpointslice

/-- The value of an `int64` expression whose mathematical value is `n`
(two's-complement wrap-around). -/
def wrapInt64 (n : Int) : Int := (n + 2 ^ 63) % 2 ^ 64 - 2 ^ 63

/-- Method `endpointSliceStrategy.PrepareForCreate`, as the slice after the
call. -/
def PrepareForCreate (endpointSlice : discovery.EndpointSlice) : discovery.EndpointSlice :=
  { endpointSlice with Generation := 1 }

/-- Method `endpointSliceStrategy.PrepareForUpdate`, as the new slice after the
call. `DeepEqual` is `apiequality.Semantic.DeepEqual` (outside the given
sources) on two lists of endpoints. -/
def PrepareForUpdate
    (DeepEqual : List discovery.Endpoint → List discovery.Endpoint → Bool)
    (newEndpointSlice oldEndpointSlice : discovery.EndpointSlice) : discovery.EndpointSlice :=
  if !DeepEqual oldEndpointSlice.Endpoints newEndpointSlice.Endpoints then
    { newEndpointSlice with Generation := wrapInt64 (oldEndpointSlice.Generation + 1) }
  else newEndpointSlice

/-- Structural equality of two lists of endpoints, the instance of `DeepEqual`
used in the examples. -/
def endpointsEqual (a b : List discovery.Endpoint) : Bool := decide (a = b)

/-- The stored object of the examples: `sliceA` at generation 5. -/
def sliceOld : discovery.EndpointSlice := { proxy.sliceA with Generation := 5 }

/-- An update of `sliceOld` that keeps the endpoints and supplies the
generation 42. -/
def sliceSameEndpoints : discovery.EndpointSlice := { proxy.sliceA with Generation := 42 }

/-- An update of `sliceOld` that changes the ports only and supplies the
generation of the stored object. -/
def slicePortsChanged : discovery.EndpointSlice :=
  { sliceOld with Ports := [proxy.namedPort "port-0" 8080] }

/-- An update of `sliceOld` whose only change is the `TargetRef` of an
endpoint; the generation supplied is the one of the stored object. -/
def sliceTargetRefChanged : discovery.EndpointSlice :=
  { sliceOld with
    Endpoints := sliceOld.Endpoints.map (fun endpoint =>
      { endpoint with
        TargetRef := some { Kind := "Pod", Namespace := "ns1", Name := "pod-1", UID := "" } }) }

/-- An update of `sliceOld` that changes the endpoints. -/
def sliceEndpointsChanged : discovery.EndpointSlice :=
  { sliceOld with Endpoints := [proxy.endpointOn ["10.0.1.9"] true "host1"], Generation := 42 }

end endpointslice

namespace proxy

/-- The record that `Update` stores for an endpoint of the slice. -/
def endpointInfoOf (endpoint : discovery.Endpoint) : EndpointInfo :=
  { Targets := endpoint.Targets, Topology := endpoint.Topology }

/-- A slice whose endpoints have an empty hostname attribute and none. -/
def sliceNoNode : discovery.EndpointSlice :=
  sliceOf "svc1-1" [namedPort "http" 80]
    [endpointOn ["10.0.0.1"] true "",
     { Targets := ["10.0.0.2"], Conditions := { Ready := true }, Hostname := none, Topology := [] }]

/-- The intermediate map after the shard of `sliceP1` has been processed on
node `host1`: the address `10.0.0.1` is bound to a local entry with port 80. -/
def stateP1 : EndpointInfoByServicePort :=
  [(⟨svc1, "http"⟩, [("10.0.0.1", ⟨"10.0.0.1:80", true, "10.0.0.1"⟩)])]

/-- The endpoint that the shard of `sliceP2` retains. -/
def endpointP2 : EndpointInfo :=
  { Targets := ["10.0.0.1"], Topology := [("kubernetes.io/hostname", "host1")] }

end proxy

/-! ## Shards that differ in the targets after the first -/

namespace proxy

/-- A slice without owner reference named like `sliceOwnerless`, in another
namespace and with other content. -/
def sliceOwnerlessOther : discovery.EndpointSlice :=
  { sliceB with Name := "svc1-1", Namespace := "ns2", OwnerReferences := [] }

/-- The endpoint `ep'` is the endpoint `ep`, or `ep` with its targets replaced
by the one-element list holding its first target. -/
def TruncatedEndpoint (ep ep' : EndpointInfo) : Prop :=
  ep' = ep ∨ ∃ target rest, ep.Targets = target :: rest ∧ ep' = { ep with Targets := [target] }

/-- The shard `info'` is the shard `info` in which the targets of some of the
endpoints that have a target are replaced by their first target alone. -/
def TruncatedShard (info info' : EndpointSliceInfo) : Prop :=
  info'.Ports = info.Ports ∧ List.Forall₂ TruncatedEndpoint info.Endpoints info'.Endpoints

/-- A stored shard with the targets of every endpoint cut after the first. -/
def firstTargetOnly (info : EndpointSliceInfo) : EndpointSliceInfo :=
  { info with Endpoints := info.Endpoints.map (fun ep => { ep with Targets := ep.Targets.take 1 }) }

/-- A slice whose endpoints have several targets. -/
def sliceManyTargets : discovery.EndpointSlice :=
  sliceOf "svc1-1" [namedPort "http" 80]
    [endpointOn ["10.0.0.1", "10.0.0.7", "fd00::1"] true "host1",
     endpointOn ["10.0.0.2", "10.0.0.1"] true "host2"]

end proxy

/-! # Theorems -/

/-! ## Facts about Go maps -/

namespace GoMap

theorem WF_nil {κ ν : Type} : WF ([] : GoMap κ ν) := by simp [WF, keys]

variable {κ ν : Type} [DecidableEq κ]

theorem get_nil (k : κ) : get ([] : GoMap κ ν) k = none := rfl

theorem get_set (m : GoMap κ ν) (k k' : κ) (v : ν) :
    (m.set k v).get k' = if k = k' then some v else m.get k' := by
  induction m with
  | nil => simp [set, get]
  | cons p m ih =>
    obtain ⟨k₀, v₀⟩ := p
    by_cases h : k₀ = k
    · subst h
      by_cases h' : k₀ = k' <;> simp [set, get, h']
    · by_cases h' : k = k'
      · subst h'
        simp [set, get, h, ih]
      · simp [set, get, h, ih, h']

theorem get_set_self (m : GoMap κ ν) (k : κ) (v : ν) : (m.set k v).get k = some v := by
  simp [get_set]

theorem get_set_of_ne (m : GoMap κ ν) {k k' : κ} (v : ν) (h : k ≠ k') :
    (m.set k v).get k' = m.get k' := by
  simp [get_set, h]

theorem mem_of_get {m : GoMap κ ν} {k : κ} {v : ν} (h : m.get k = some v) : (k, v) ∈ m := by
  induction m with
  | nil => simp [get] at h
  | cons p m ih =>
    obtain ⟨k₀, v₀⟩ := p
    by_cases h' : k₀ = k
    · simp [get, h'] at h
      simp [h', h]
    · simp [get, h'] at h
      exact List.mem_cons_of_mem _ (ih h)

theorem get_isSome_iff (m : GoMap κ ν) (k : κ) : (m.get k).isSome ↔ k ∈ m.keys := by
  induction m with
  | nil => simp [get, keys]
  | cons p m ih =>
    obtain ⟨k₀, v₀⟩ := p
    by_cases h' : k₀ = k
    · simp [get, keys, h']
    · have : ¬ k = k₀ := fun h => h' h.symm
      simpa [get, keys, h', this] using ih

theorem get_of_mem {m : GoMap κ ν} (hm : m.WF) {k : κ} {v : ν} (h : (k, v) ∈ m) :
    m.get k = some v := by
  induction m with
  | nil => simp at h
  | cons p m ih =>
    obtain ⟨k₀, v₀⟩ := p
    have hnd : k₀ ∉ keys m ∧ (keys m).Nodup := by simpa [WF, keys] using hm
    rcases List.mem_cons.1 h with h | h
    · cases h
      simp [get]
    · have hk : k ∈ keys m := List.mem_map.2 ⟨(k, v), h, rfl⟩
      have hne : k₀ ≠ k := fun hkk => hnd.1 (hkk ▸ hk)
      simpa [get, hne] using ih hnd.2 h

theorem mem_iff_get {m : GoMap κ ν} (hm : m.WF) (k : κ) (v : ν) :
    (k, v) ∈ m ↔ m.get k = some v :=
  ⟨get_of_mem hm, mem_of_get⟩

theorem keys_set (m : GoMap κ ν) (k : κ) (v : ν) :
    (m.set k v).keys = if k ∈ m.keys then m.keys else m.keys ++ [k] := by
  induction m with
  | nil => simp [set, keys]
  | cons p m ih =>
    obtain ⟨k₀, v₀⟩ := p
    by_cases h : k₀ = k
    · subst h
      simp [set, keys]
    · have h' : ¬ k = k₀ := fun hk => h hk.symm
      have ih' := ih
      simp only [keys] at ih' ⊢
      simp only [set, h, if_false, List.map_cons, ih', List.mem_cons, h', false_or]
      split <;> simp

theorem WF_set {m : GoMap κ ν} (hm : m.WF) (k : κ) (v : ν) : (m.set k v).WF := by
  unfold WF at *
  rw [keys_set]
  split
  · exact hm
  · rename_i h
    exact List.Nodup.append hm (List.nodup_singleton k) (by simpa using h)

theorem mem_delete {m : GoMap κ ν} {k : κ} {p : κ × ν} :
    p ∈ m.delete k ↔ p ∈ m ∧ p.1 ≠ k := by
  induction m with
  | nil => simp [delete]
  | cons q m ih =>
    obtain ⟨k₀, v₀⟩ := q
    by_cases h : k₀ = k
    · subst h
      simp only [delete, if_true, ih, List.mem_cons]
      constructor
      · rintro ⟨h1, h2⟩; exact ⟨Or.inr h1, h2⟩
      · rintro ⟨h1 | h1, h2⟩
        · subst h1; exact absurd rfl h2
        · exact ⟨h1, h2⟩
    · simp only [delete, h, if_false, List.mem_cons, ih]
      constructor
      · rintro (h1 | ⟨h1, h2⟩)
        · subst h1; exact ⟨Or.inl rfl, h⟩
        · exact ⟨Or.inr h1, h2⟩
      · rintro ⟨h1 | h1, h2⟩
        · exact Or.inl h1
        · exact Or.inr ⟨h1, h2⟩

theorem get_delete (m : GoMap κ ν) (k k' : κ) :
    (m.delete k).get k' = if k = k' then none else m.get k' := by
  induction m with
  | nil => simp [delete, get]
  | cons p m ih =>
    obtain ⟨k₀, v₀⟩ := p
    by_cases h : k₀ = k
    · subst h
      by_cases h' : k₀ = k'
      · subst h'
        simpa [delete, get] using ih
      · simp [delete, get, ih, h']
    · by_cases h' : k = k'
      · subst h'
        simp [delete, get, h, ih]
      · by_cases h'' : k₀ = k'
        · subst h''
          simp [delete, get, h, h']
        · simp [delete, get, h, ih, h', h'']

theorem WF_delete {m : GoMap κ ν} (hm : m.WF) (k : κ) : (m.delete k).WF := by
  induction m with
  | nil => simpa [delete] using hm
  | cons p m ih =>
    obtain ⟨k₀, v₀⟩ := p
    have hnd : k₀ ∉ keys m ∧ (keys m).Nodup := by simpa [WF, keys] using hm
    by_cases h : k₀ = k
    · simpa [delete, h] using ih hnd.2
    · have h3 : k₀ ∉ keys (delete m k) := by
        intro hmem
        obtain ⟨q, hq, hq1⟩ := List.mem_map.1 hmem
        exact hnd.1 (List.mem_map.2 ⟨q, (mem_delete.1 hq).1, hq1⟩)
      have := ih hnd.2
      simp only [WF, keys] at this h3 ⊢
      simp only [delete, h, if_false, List.map_cons, List.nodup_cons]
      exact ⟨h3, this⟩

end GoMap

/-! ## Facts about loops that may panic -/

theorem foldlM_nil_eq {σ α : Type} (f : σ → α → Option σ) (s : σ) :
    List.foldlM f s [] = some s := rfl

theorem foldlM_cons_eq {σ α : Type} (f : σ → α → Option σ) (s : σ) (a : α) (l : List α) :
    List.foldlM f s (a :: l) = (f s a).bind (fun s₁ => List.foldlM f s₁ l) := rfl

/-- A property that each step either keeps or establishes under a condition on
the visited element holds at the end iff it held at the start or some element
satisfied the condition. -/
theorem foldlM_or {σ α : Type} (f : σ → α → Option σ) (Q : σ → Prop) (C : α → Prop)
    (hstep : ∀ s a s', f s a = some s' → (Q s' ↔ Q s ∨ C a)) :
    ∀ (l : List α) (s s' : σ), List.foldlM f s l = some s' → (Q s' ↔ Q s ∨ ∃ a ∈ l, C a) := by
  intro l
  induction l with
  | nil =>
    intro s s' h
    simp [foldlM_nil_eq] at h
    simp [h]
  | cons a l ih =>
    intro s s' h
    rw [foldlM_cons_eq] at h
    cases hfa : f s a with
    | none => simp [hfa] at h
    | some s₁ =>
      simp only [hfa, Option.bind_some] at h
      rw [ih s₁ s' h, hstep s a s₁ hfa]
      simp only [List.mem_cons, exists_eq_or_imp]
      tauto

/-- An invariant of every step is an invariant of the loop. -/
theorem foldlM_inv {σ α : Type} (f : σ → α → Option σ) (I : σ → Prop)
    (hstep : ∀ s a s', I s → f s a = some s' → I s') :
    ∀ (l : List α) (s s' : σ), I s → List.foldlM f s l = some s' → I s' := by
  intro l
  induction l with
  | nil =>
    intro s s' hI h
    simp [foldlM_nil_eq] at h
    exact h ▸ hI
  | cons a l ih =>
    intro s s' hI h
    rw [foldlM_cons_eq] at h
    cases hfa : f s a with
    | none => simp [hfa] at h
    | some s₁ =>
      simp only [hfa, Option.bind_some] at h
      exact ih s₁ s' (hstep s a s₁ hI hfa) h

/-- A loop whose steps panic only depending on the visited element returns iff
no element makes its step panic. -/
theorem foldlM_isSome {σ α : Type} (f : σ → α → Option σ) (G : α → Prop)
    (hstep : ∀ s a, (f s a).isSome ↔ G a) :
    ∀ (l : List α) (s : σ), (List.foldlM f s l).isSome ↔ ∀ a ∈ l, G a := by
  intro l
  induction l with
  | nil => intro s; simp [foldlM_nil_eq]
  | cons a l ih =>
    intro s
    rw [foldlM_cons_eq]
    cases hfa : f s a with
    | none =>
      have : ¬ G a := fun hG => by simpa [hfa] using (hstep s a).2 hG
      simp [this]
    | some s₁ =>
      have : G a := (hstep s a).1 (by simp [hfa])
      simp [ih s₁, this]

namespace proxy

theorem entry_set (m : EndpointInfoByServicePort) (key₀ key : ServicePortName)
    (byIP : GoMap String Endpoint) (A : String) :
    entry (GoMap.set m key₀ byIP) key A = if key₀ = key then GoMap.get byIP A else entry m key A := by
  unfold entry
  rw [GoMap.get_set]
  split <;> simp

theorem entry_nil (key : ServicePortName) (A : String) : entry [] key A = none := rfl

/-- The innermost loop body on an endpoint without targets. -/
theorem addEndpoint_nil {IsIPv6String : String → Bool} {e : EndpointSliceCache}
    {port : discovery.EndpointPort} {portNum : Int} {key₀ : ServicePortName}
    {m : EndpointInfoByServicePort} {ep : EndpointInfo} (hT : ep.Targets = []) :
    addEndpoint IsIPv6String e port portNum key₀ m ep = port.Name.map (fun _ => m) := by
  unfold addEndpoint
  rw [hT]
  cases port.Name <;> rfl

/-- The innermost loop body on an endpoint with a first target. -/
theorem addEndpoint_cons {IsIPv6String : String → Bool} {e : EndpointSliceCache}
    {port : discovery.EndpointPort} {portNum : Int} {key₀ : ServicePortName}
    {m : EndpointInfoByServicePort} {ep : EndpointInfo} {target : String} {rest : List String}
    (hT : ep.Targets = target :: rest) :
    addEndpoint IsIPv6String e port portNum key₀ m ep =
      some (if admits IsIPv6String e target = true ∧
              ((entry m key₀ target).isNone = true ∨ isLocalEndpoint e ep = true) then
            GoMap.set m key₀ (GoMap.set ((GoMap.get m key₀).getD []) target
              (applyHook e (newBaseEndpointInfo target portNum (isLocalEndpoint e ep))))
          else m) := by
  unfold addEndpoint
  rw [hT]
  have hIP : (newBaseEndpointInfo target portNum (isLocalEndpoint e ep)).IP = target := rfl
  simp only [hIP]
  cases hadm : admits IsIPv6String e target
  · simp
  · have happ : ∀ x, applyHook e x =
        (match e.makeEndpointInfo with | some f => f x | none => x) := fun _ => rfl
    by_cases hc : (entry m key₀ target).isNone = true ∨ isLocalEndpoint e ep = true
    · have hc' : ((GoMap.get ((GoMap.get m key₀).getD []) target).isNone ||
          isLocalEndpoint e ep) = true := by simpa [entry, Bool.or_eq_true] using hc
      rw [if_neg (by simp), if_pos hc', if_pos ⟨rfl, hc⟩, happ]
      cases e.makeEndpointInfo <;> rfl
    · have hc' : ¬ ((GoMap.get ((GoMap.get m key₀).getD []) target).isNone ||
          isLocalEndpoint e ep) = true := by simpa [entry, Bool.or_eq_true] using hc
      rw [if_neg (by simp), if_neg hc', if_neg (fun hh => hc hh.2)]

/-- Effect of one pass of the innermost loop on the binding of an address. -/
theorem entry_addEndpoint {IsIPv6String : String → Bool} {e : EndpointSliceCache}
    {port : discovery.EndpointPort} {portNum : Int} {key₀ : ServicePortName}
    {m m' : EndpointInfoByServicePort} {ep : EndpointInfo}
    (h : addEndpoint IsIPv6String e port portNum key₀ m ep = some m')
    (key : ServicePortName) (A : String) :
    entry m' key A =
      if key = key₀ ∧ ep.Targets.head? = some A ∧ admits IsIPv6String e A = true ∧
          ((entry m key A).isNone = true ∨ isLocalEndpoint e ep = true) then
        some (applyHook e (newBaseEndpointInfo A portNum (isLocalEndpoint e ep)))
      else entry m key A := by
  cases hT : ep.Targets with
  | nil =>
    rw [addEndpoint_nil hT] at h
    cases hN : port.Name with
    | none => simp [hN] at h
    | some n =>
      simp only [hN, Option.map_some', Option.some.injEq] at h
      subst h
      simp
  | cons target rest =>
    rw [addEndpoint_cons hT, Option.some.injEq] at h
    subst h
    simp only [List.head?_cons, Option.some.injEq]
    by_cases hc : admits IsIPv6String e target = true ∧
        ((entry m key₀ target).isNone = true ∨ isLocalEndpoint e ep = true)
    · rw [if_pos hc, entry_set]
      by_cases hk : key₀ = key
      · subst hk
        rw [if_pos rfl, GoMap.get_set]
        by_cases hA : target = A
        · subst hA
          rw [if_pos rfl, if_pos ⟨rfl, rfl, hc.1, hc.2⟩]
        · rw [if_neg hA, if_neg (fun hh => hA hh.2.1)]
          rfl
      · rw [if_neg hk, if_neg (fun hh => hk hh.1.symm)]
    · rw [if_neg hc, if_neg]
      rintro ⟨rfl, rfl, h3, h4⟩
      exact hc ⟨h3, h4⟩

/-- Making sure that a port identity has a (possibly empty) map of endpoints
does not change any binding. -/
theorem entry_ensure (m : EndpointInfoByServicePort) (key₀ key : ServicePortName) (A : String) :
    entry (if (GoMap.get m key₀).isSome then m else GoMap.set m key₀ []) key A = entry m key A := by
  cases hg : GoMap.get m key₀ with
  | some b => simp
  | none =>
    simp only [Option.isSome_none, Bool.false_eq_true, if_false]
    rw [entry_set]
    split
    · rename_i hk
      subst hk
      simp [entry, hg, GoMap.get]
    · rfl

/-- The loop over the declared ports of a slice, unfolded on one port. -/
theorem addPort_eq (IsIPv6String : String → Bool) (e : EndpointSliceCache)
    (serviceNN : types.NamespacedName) (info : EndpointSliceInfo)
    (m : EndpointInfoByServicePort) (port : discovery.EndpointPort) :
    addPort IsIPv6String e serviceNN info m port =
      match port.Port with
      | none => none
      | some portNum =>
        if portNum = 0 then port.Name.map (fun _ => m)
        else
          List.foldlM
            (addEndpoint IsIPv6String e port portNum ⟨serviceNN, port.Name.getD ""⟩)
            (if (GoMap.get m ⟨serviceNN, port.Name.getD ""⟩).isSome then m
              else GoMap.set m ⟨serviceNN, port.Name.getD ""⟩ [])
            info.Endpoints := by
  unfold addPort
  cases port.Port with
  | none => rfl
  | some portNum =>
    by_cases h0 : portNum = 0
    · simp only [h0, if_true]
      cases port.Name <;> rfl
    · simp only [h0, if_false]

section loops

variable (IsIPv6String : String → Bool) (e : EndpointSliceCache)
  (serviceNN : types.NamespacedName) (key : ServicePortName) (A : String)
  (R : Option Endpoint → Prop) (D : Int → EndpointInfo → Prop)

/-- A property of the binding of one address that every pass of the innermost
loop keeps or establishes (under a condition `D` on the port number and the
endpoint) holds after the loops iff it held before or some slice declares a
port with a non-zero number for that identity and has an endpoint satisfying
the condition. -/
theorem loops_or
    (hstep : ∀ (port : discovery.EndpointPort) (portNum : Int) (key₀ : ServicePortName)
      (m m' : EndpointInfoByServicePort) (ep : EndpointInfo),
      addEndpoint IsIPv6String e port portNum key₀ m ep = some m' →
      (R (entry m' key A) ↔ R (entry m key A) ∨ (key = key₀ ∧ D portNum ep)))
    (slices : List EndpointSliceInfo) (m m' : EndpointInfoByServicePort)
    (h : List.foldlM (addSlice IsIPv6String e serviceNN) m slices = some m') :
    R (entry m' key A) ↔ R (entry m key A) ∨
      ∃ info ∈ slices, ∃ port ∈ info.Ports, ∃ portNum, port.Port = some portNum ∧ portNum ≠ 0 ∧
        key = ⟨serviceNN, port.Name.getD ""⟩ ∧ ∃ ep ∈ info.Endpoints, D portNum ep := by
  refine foldlM_or (addSlice IsIPv6String e serviceNN) (fun m => R (entry m key A)) _ ?_ slices m m' h
  intro s info s' hs
  refine foldlM_or (addPort IsIPv6String e serviceNN info) (fun m => R (entry m key A)) _ ?_
    info.Ports s s' hs
  intro s port s' hp
  rw [addPort_eq] at hp
  cases hport : port.Port with
  | none => simp [hport] at hp
  | some portNum =>
    simp only [hport] at hp
    by_cases h0 : portNum = 0
    · simp only [h0, if_true] at hp
      cases hN : port.Name with
      | none => simp [hN] at hp
      | some nm =>
        simp only [hN, Option.map_some', Option.some.injEq] at hp
        subst hp
        simp [h0]
    · simp only [h0, if_false] at hp
      have := foldlM_or (addEndpoint IsIPv6String e port portNum ⟨serviceNN, port.Name.getD ""⟩)
        (fun m => R (entry m key A)) (fun ep => key = ⟨serviceNN, port.Name.getD ""⟩ ∧ D portNum ep)
        (fun s a s' hh => hstep port portNum _ s s' a hh) info.Endpoints _ s' hp
      simp only [entry_ensure] at this
      show R (entry s' key A) ↔ R (entry s key A) ∨ _
      rw [this]
      constructor
      · rintro (h1 | ⟨ep, hep, hk, hD⟩)
        · exact Or.inl h1
        · exact Or.inr ⟨portNum, rfl, h0, hk, ep, hep, hD⟩
      · rintro (h1 | ⟨pn, hpn, -, hk, ep, hep, hD⟩)
        · exact Or.inl h1
        · cases hpn
          exact Or.inr ⟨ep, hep, hk, hD⟩

end loops

/-! ## When the loops return -/

theorem addEndpoint_isSome (IsIPv6String : String → Bool) (e : EndpointSliceCache)
    (port : discovery.EndpointPort) (portNum : Int) (key₀ : ServicePortName)
    (m : EndpointInfoByServicePort) (ep : EndpointInfo) :
    (addEndpoint IsIPv6String e port portNum key₀ m ep).isSome ↔
      (port.Name = none → ep.Targets ≠ []) := by
  cases hT : ep.Targets with
  | nil =>
    rw [addEndpoint_nil hT]
    cases port.Name <;> simp
  | cons target rest =>
    rw [addEndpoint_cons hT]
    simp

theorem addPort_isSome (IsIPv6String : String → Bool) (e : EndpointSliceCache)
    (serviceNN : types.NamespacedName) (info : EndpointSliceInfo)
    (m : EndpointInfoByServicePort) (port : discovery.EndpointPort) :
    (addPort IsIPv6String e serviceNN info m port).isSome ↔ portSafe info port := by
  rw [addPort_eq]
  unfold portSafe
  cases hport : port.Port with
  | none => simp
  | some portNum =>
    by_cases h0 : portNum = 0
    · subst h0
      cases port.Name <;> simp
    · simp only [h0, if_false, Option.some.injEq, exists_eq_left', ne_eq, not_false_eq_true,
        true_and]
      rw [foldlM_isSome _ (fun ep => port.Name = none → ep.Targets ≠ [])
        (fun s a => addEndpoint_isSome IsIPv6String e port portNum _ s a)]
      constructor
      · intro h hN ep hep; exact h ep hep hN
      · intro h ep hep hN; exact h hN ep hep

theorem addSlice_isSome (IsIPv6String : String → Bool) (e : EndpointSliceCache)
    (serviceNN : types.NamespacedName) (m : EndpointInfoByServicePort)
    (info : EndpointSliceInfo) :
    (addSlice IsIPv6String e serviceNN m info).isSome ↔ derefSafe info :=
  foldlM_isSome _ _ (fun s a => addPort_isSome IsIPv6String e serviceNN info s a) info.Ports m

/-- The loops of `GetEndpointsMap` return iff every enumerated slice is safe to
dereference. -/
theorem endpointInfoByServicePortOver_isSome (IsIPv6String : String → Bool)
    (e : EndpointSliceCache) (serviceNN : types.NamespacedName)
    (slices : List EndpointSliceInfo) :
    (endpointInfoByServicePortOver IsIPv6String e serviceNN slices).isSome ↔
      ∀ info ∈ slices, derefSafe info :=
  foldlM_isSome _ _ (fun s a => addSlice_isSome IsIPv6String e serviceNN s a) slices []

/-- The call of `GetEndpointsMap` returns iff every enumerated slice is safe to
dereference. -/
theorem GetEndpointsMapOver_isSome (IsIPv6String : String → Bool)
    (e : EndpointSliceCache) (serviceNN : types.NamespacedName)
    (slices : List EndpointSliceInfo) :
    (GetEndpointsMapOver IsIPv6String e serviceNN slices).isSome ↔
      ∀ info ∈ slices, derefSafe info := by
  unfold GetEndpointsMapOver
  rw [Option.isSome_map']
  exact endpointInfoByServicePortOver_isSome IsIPv6String e serviceNN slices

/-! ## Invariants of the loops -/

/-- An invariant of the innermost loop body that the step "make sure the port
identity has a map" also keeps is an invariant of all the loops. -/
theorem loops_inv (IsIPv6String : String → Bool) (e : EndpointSliceCache)
    (serviceNN : types.NamespacedName) (I : EndpointInfoByServicePort → Prop)
    (hens : ∀ m key₀, I m → GoMap.get m key₀ = none → I (GoMap.set m key₀ []))
    (hstep : ∀ (port : discovery.EndpointPort) (portNum : Int) (key₀ : ServicePortName)
      (m m' : EndpointInfoByServicePort) (ep : EndpointInfo),
      I m → addEndpoint IsIPv6String e port portNum key₀ m ep = some m' → I m')
    (slices : List EndpointSliceInfo) (m m' : EndpointInfoByServicePort) (hI : I m)
    (h : List.foldlM (addSlice IsIPv6String e serviceNN) m slices = some m') : I m' := by
  refine foldlM_inv (addSlice IsIPv6String e serviceNN) I ?_ slices m m' hI h
  intro s info s' hs hsl
  refine foldlM_inv (addPort IsIPv6String e serviceNN info) I ?_ info.Ports s s' hs hsl
  intro s port s' hs hp
  rw [addPort_eq] at hp
  cases hport : port.Port with
  | none => simp [hport] at hp
  | some portNum =>
    simp only [hport] at hp
    by_cases h0 : portNum = 0
    · simp only [h0, if_true] at hp
      cases hN : port.Name with
      | none => simp [hN] at hp
      | some nm =>
        simp only [hN, Option.map_some', Option.some.injEq] at hp
        exact hp ▸ hs
    · simp only [h0, if_false] at hp
      refine foldlM_inv _ I (fun s a s' hIs hh => hstep port portNum _ s s' a hIs hh)
        info.Endpoints _ s' ?_ hp
      cases hg : GoMap.get s ⟨serviceNN, port.Name.getD ""⟩ with
      | none => simpa using hens s _ hs hg
      | some b => simpa using hs

theorem StateWF_nil : StateWF [] :=
  ⟨GoMap.WF_nil, fun _ _ h => by simp [GoMap.get] at h⟩

theorem StateWF_set {m : EndpointInfoByServicePort} (hm : StateWF m) (key₀ : ServicePortName)
    (byIP : GoMap String Endpoint) (hb : GoMap.WF byIP) : StateWF (GoMap.set m key₀ byIP) := by
  refine ⟨GoMap.WF_set hm.1 _ _, ?_⟩
  intro key b hget
  rw [GoMap.get_set] at hget
  by_cases hk : key₀ = key
  · simp only [hk, if_true, Option.some.injEq] at hget
    exact hget ▸ hb
  · simp only [hk, if_false] at hget
    exact hm.2 key b hget

theorem StateWF_getD {m : EndpointInfoByServicePort} (hm : StateWF m) (key : ServicePortName) :
    GoMap.WF ((GoMap.get m key).getD []) := by
  cases hg : GoMap.get m key with
  | none => exact GoMap.WF_nil
  | some b => exact hm.2 key b hg

/-- The map built by the loops is well formed. -/
theorem StateWF_loops (IsIPv6String : String → Bool) (e : EndpointSliceCache)
    (serviceNN : types.NamespacedName) (slices : List EndpointSliceInfo)
    (m : EndpointInfoByServicePort)
    (h : endpointInfoByServicePortOver IsIPv6String e serviceNN slices = some m) : StateWF m := by
  refine loops_inv IsIPv6String e serviceNN StateWF ?_ ?_ slices [] m StateWF_nil h
  · intro m key₀ hm _
    exact StateWF_set hm key₀ [] GoMap.WF_nil
  · intro port portNum key₀ m m' ep hm hstep
    cases hT : ep.Targets with
    | nil =>
      rw [addEndpoint_nil hT] at hstep
      cases hN : port.Name with
      | none => simp [hN] at hstep
      | some nm =>
        simp only [hN, Option.map_some', Option.some.injEq] at hstep
        exact hstep ▸ hm
    | cons target rest =>
      rw [addEndpoint_cons hT, Option.some.injEq] at hstep
      subst hstep
      split
      · exact StateWF_set hm key₀ _ (GoMap.WF_set (StateWF_getD hm key₀) _ _)
      · exact hm

/-- Every entry of the map built by the loops is the stored form of a base
record built for the address it is bound to. -/
theorem entry_loops (IsIPv6String : String → Bool) (e : EndpointSliceCache)
    (serviceNN : types.NamespacedName) (slices : List EndpointSliceInfo)
    (m : EndpointInfoByServicePort)
    (h : endpointInfoByServicePortOver IsIPv6String e serviceNN slices = some m)
    (key : ServicePortName) (A : String) (v : Endpoint) (hv : entry m key A = some v) :
    ∃ portNum isLocal, v = applyHook e (newBaseEndpointInfo A portNum isLocal) := by
  refine loops_inv IsIPv6String e serviceNN
    (fun m => ∀ key A v, entry m key A = some v →
      ∃ portNum isLocal, v = applyHook e (newBaseEndpointInfo A portNum isLocal))
    ?_ ?_ slices [] m ?_ h key A v hv
  · intro m key₀ hm hg key A v hv
    have := entry_ensure m key₀ key A
    simp only [hg, Option.isSome_none, Bool.false_eq_true, if_false] at this
    rw [this] at hv
    exact hm key A v hv
  · intro port portNum key₀ m m' ep hm hstep key A v hv
    rw [entry_addEndpoint hstep key A] at hv
    split at hv
    · exact ⟨portNum, isLocalEndpoint e ep, (Option.some.inj hv).symm⟩
    · exact hm key A v hv
  · intro key A v hv
    simp [entry, GoMap.get] at hv

/-! ## The sort -/

theorem stringLess_iff_lt (a b : String) : stringLess a b ↔ a < b := by
  rw [String.lt_iff_toList_lt]; rfl

theorem byIP_le_iff (a b : Endpoint) : byIP.le a b ↔ a.IP ≤ b.IP := by
  unfold byIP.le byIP.Less
  rw [decide_eq_false_iff_not, stringLess_iff_lt, not_lt]

theorem byIP_le_total (a b : Endpoint) : byIP.le a b ∨ byIP.le b a := by
  simp only [byIP_le_iff]; exact le_total _ _

theorem byIP_le_trans (a b c : Endpoint) (hab : byIP.le a b) (hbc : byIP.le b c) :
    byIP.le a c := by
  simp only [byIP_le_iff] at *; exact le_trans hab hbc

theorem sortByIP_perm (l : List Endpoint) : (sortByIP l).Perm l :=
  List.perm_insertionSort _ l

theorem sortByIP_sorted (l : List Endpoint) : List.Sorted byIP.le (sortByIP l) := by
  haveI : IsTotal Endpoint byIP.le := ⟨byIP_le_total⟩
  haveI : IsTrans Endpoint byIP.le := ⟨byIP_le_trans⟩
  exact List.sorted_insertionSort _ l

theorem mem_sortByIP (l : List Endpoint) (ep : Endpoint) : ep ∈ sortByIP l ↔ ep ∈ l :=
  (sortByIP_perm l).mem_iff

theorem sortByIP_length (l : List Endpoint) : (sortByIP l).length = l.length :=
  (sortByIP_perm l).length_eq

/-! ## The second part of `GetEndpointsMap` -/

theorem materialize_eq (m : EndpointInfoByServicePort) :
    materialize m = m.foldl materializeStep [] := rfl

theorem get_foldl_materializeStep (m : EndpointInfoByServicePort) (hm : GoMap.WF m)
    (acc : EndpointsMap) (key : ServicePortName) :
    GoMap.get (m.foldl materializeStep acc) key =
      match GoMap.get m key with
      | some byIP =>
        if 0 < byIP.length then some (sortByIP (GoMap.values byIP)) else GoMap.get acc key
      | none => GoMap.get acc key := by
  induction m generalizing acc with
  | nil => simp [GoMap.get]
  | cons p m ih =>
    obtain ⟨k₀, b₀⟩ := p
    have hnd : k₀ ∉ GoMap.keys m ∧ (GoMap.keys m).Nodup := by
      simpa [GoMap.WF, GoMap.keys] using hm
    rw [List.foldl_cons, ih hnd.2]
    by_cases hk : k₀ = key
    · subst hk
      have hnone : GoMap.get m k₀ = none := by
        cases hg : GoMap.get m k₀ with
        | none => rfl
        | some b =>
          exact absurd ((GoMap.get_isSome_iff m k₀).1 (by simp [hg])) hnd.1
      simp only [hnone, GoMap.get, if_true, materializeStep]
      split
      · rw [GoMap.get_set_self]
      · rfl
    · have hacc : GoMap.get (materializeStep acc (k₀, b₀)) key = GoMap.get acc key := by
        unfold materializeStep
        split
        · exact GoMap.get_set_of_ne _ _ hk
        · rfl
      simp only [GoMap.get, hk, if_false, hacc]

/-- The sequence of a port identity in the result: the sorted endpoints of the
identity when it has at least one address, nothing otherwise. -/
theorem get_materialize (m : EndpointInfoByServicePort) (hm : GoMap.WF m)
    (key : ServicePortName) :
    GoMap.get (materialize m) key =
      match GoMap.get m key with
      | some byIP => if 0 < byIP.length then some (sortByIP (GoMap.values byIP)) else none
      | none => none := by
  rw [materialize_eq, get_foldl_materializeStep m hm [] key]
  rfl

theorem mem_foldl_materializeStep (m : EndpointInfoByServicePort) (acc : EndpointsMap)
    (p : ServicePortName × List Endpoint) (hp : p ∈ m.foldl materializeStep acc) :
    p ∈ acc ∨ ∃ byIP, (p.1, byIP) ∈ m ∧ 0 < byIP.length ∧ p.2 = sortByIP (GoMap.values byIP) := by
  induction m generalizing acc with
  | nil => exact Or.inl hp
  | cons q m ih =>
    rw [List.foldl_cons] at hp
    rcases ih _ hp with h | ⟨byIP, h1, h2, h3⟩
    · unfold materializeStep at h
      split at h
      · rename_i hlen
        by_cases hacc : p ∈ acc
        · exact Or.inl hacc
        · right
          have hWFkey : p = (q.1, sortByIP (GoMap.values q.2)) := by
            clear hp ih
            induction acc with
            | nil => simpa [GoMap.set] using h
            | cons a acc iha =>
              obtain ⟨ka, va⟩ := a
              by_cases hka : ka = q.1
              · simp only [GoMap.set, hka, if_true, List.mem_cons] at h
                rcases h with h | h
                · exact h
                · exact absurd (List.mem_cons_of_mem _ h) hacc
              · simp only [GoMap.set, hka, if_false, List.mem_cons] at h
                rcases h with h | h
                · exact absurd (h ▸ List.mem_cons_self _ _) hacc
                · exact iha h (fun hh => hacc (List.mem_cons_of_mem _ hh))
          refine ⟨q.2, ?_, hlen, ?_⟩
          · rw [hWFkey]; exact List.mem_cons_self _ _
          · rw [hWFkey]
      · exact Or.inl h
    · exact Or.inr ⟨byIP, List.mem_cons_of_mem _ h1, h2, h3⟩

/-- Every binding of the result is the sorted, non-empty list of the endpoints
of a port identity. -/
theorem mem_materialize (m : EndpointInfoByServicePort)
    (p : ServicePortName × List Endpoint) (hp : p ∈ materialize m) :
    ∃ byIP, (p.1, byIP) ∈ m ∧ 0 < byIP.length ∧ p.2 = sortByIP (GoMap.values byIP) := by
  rcases mem_foldl_materializeStep m [] p hp with h | h
  · simp at h
  · exact h

theorem WF_foldl_materializeStep (m : EndpointInfoByServicePort) (acc : EndpointsMap)
    (hacc : GoMap.WF acc) : GoMap.WF (m.foldl materializeStep acc) := by
  induction m generalizing acc with
  | nil => exact hacc
  | cons q m ih =>
    rw [List.foldl_cons]
    apply ih
    unfold materializeStep
    split
    · exact GoMap.WF_set hacc _ _
    · exact hacc

/-- The result binds no port identity twice. -/
theorem WF_materialize (m : EndpointInfoByServicePort) : GoMap.WF (materialize m) :=
  WF_foldl_materializeStep m [] GoMap.WF_nil

/-! ## The result in terms of the intermediate map -/

theorem GetEndpointsMapOver_eq_some {IsIPv6String : String → Bool} {e : EndpointSliceCache}
    {serviceNN : types.NamespacedName} {slices : List EndpointSliceInfo} {view : EndpointsMap}
    (hv : GetEndpointsMapOver IsIPv6String e serviceNN slices = some view) :
    ∃ m, endpointInfoByServicePortOver IsIPv6String e serviceNN slices = some m ∧
      view = materialize m ∧ StateWF m := by
  unfold GetEndpointsMapOver at hv
  cases hm : endpointInfoByServicePortOver IsIPv6String e serviceNN slices with
  | none => simp [hm] at hv
  | some m =>
    simp only [hm, Option.map_some', Option.some.injEq] at hv
    exact ⟨m, rfl, hv.symm, StateWF_loops IsIPv6String e serviceNN slices m hm⟩

/-- The members of the sequence of a port identity are the entries kept for the
addresses under that identity. -/
theorem mem_view_iff {m : EndpointInfoByServicePort} (hm : StateWF m) (key : ServicePortName)
    (ep : Endpoint) :
    (∃ l, GoMap.get (materialize m) key = some l ∧ ep ∈ l) ↔ ∃ A, entry m key A = some ep := by
  rw [get_materialize m hm.1 key]
  constructor
  · rintro ⟨l, hl, hep⟩
    cases hg : GoMap.get m key with
    | none => simp [hg] at hl
    | some byIP =>
      simp only [hg] at hl
      split at hl
      · simp only [Option.some.injEq] at hl
        subst hl
        rw [mem_sortByIP] at hep
        obtain ⟨⟨A, v⟩, hmem, hv⟩ := List.mem_map.1 hep
        simp only at hv
        subst hv
        refine ⟨A, ?_⟩
        unfold entry
        rw [hg]
        exact GoMap.get_of_mem (hm.2 key byIP hg) hmem
      · simp at hl
  · rintro ⟨A, hA⟩
    unfold entry at hA
    cases hg : GoMap.get m key with
    | none => simp [hg, GoMap.get] at hA
    | some byIP =>
      simp only [hg, Option.getD_some] at hA
      have hmem := GoMap.mem_of_get hA
      have hlen : 0 < byIP.length := List.length_pos_of_mem hmem
      refine ⟨sortByIP (GoMap.values byIP), by simp [hlen], ?_⟩
      rw [mem_sortByIP]
      exact List.mem_map.2 ⟨(A, ep), hmem, rfl⟩

/-! ## Which addresses are bound, and with which locality -/

theorem applyHook_IP {e : EndpointSliceCache} (h : HookPreservesIP e) (x : Endpoint) :
    (applyHook e x).IP = x.IP := by
  unfold applyHook
  cases hf : e.makeEndpointInfo with
  | none => rfl
  | some f => exact h f hf x

theorem applyHook_IsLocal {e : EndpointSliceCache} (h : HookPreservesIsLocal e) (x : Endpoint) :
    (applyHook e x).IsLocal = x.IsLocal := by
  unfold applyHook
  cases hf : e.makeEndpointInfo with
  | none => rfl
  | some f => exact h f hf x

/-- An address is bound under a port identity after the loops iff some slice
declares a port with a non-zero number for the identity and retains an
endpoint whose first target is the address and passes the family filter. -/
theorem entry_isSome_iff (IsIPv6String : String → Bool) (e : EndpointSliceCache)
    (serviceNN : types.NamespacedName) (slices : List EndpointSliceInfo)
    (m : EndpointInfoByServicePort)
    (h : endpointInfoByServicePortOver IsIPv6String e serviceNN slices = some m)
    (key : ServicePortName) (A : String) :
    (entry m key A).isSome = true ↔
      Contributes serviceNN slices key
        (fun _ ep => ep.Targets.head? = some A ∧ admits IsIPv6String e A = true) := by
  have := loops_or IsIPv6String e serviceNN key A (fun o => o.isSome = true)
    (fun _ ep => ep.Targets.head? = some A ∧ admits IsIPv6String e A = true) ?_ slices [] m h
  · simpa [entry, GoMap.get, Contributes] using this
  · intro port portNum key₀ s s' ep hstep
    rw [entry_addEndpoint hstep key A]
    by_cases hc : key = key₀ ∧ ep.Targets.head? = some A ∧ admits IsIPv6String e A = true
    · by_cases hn : (entry s key A).isNone = true ∨ isLocalEndpoint e ep = true
      · rw [if_pos ⟨hc.1, hc.2.1, hc.2.2, hn⟩]
        simp [hc]
      · rw [if_neg (fun hh => hn hh.2.2.2)]
        have : (entry s key A).isSome = true := by
          have := not_or.1 hn
          cases hs : entry s key A <;> simp [hs] at this ⊢
        simp [this]
    · rw [if_neg (fun hh => hc ⟨hh.1, hh.2.1, hh.2.2.1⟩)]
      constructor
      · exact Or.inl
      · rintro (h1 | h1)
        · exact h1
        · exact absurd h1 hc

/-- With a hook that keeps the locality flag (or none), the entry of an address
is local after the loops iff some contributing endpoint is local. -/
theorem entry_isLocal_iff (IsIPv6String : String → Bool) (e : EndpointSliceCache)
    (hloc : HookPreservesIsLocal e)
    (serviceNN : types.NamespacedName) (slices : List EndpointSliceInfo)
    (m : EndpointInfoByServicePort)
    (h : endpointInfoByServicePortOver IsIPv6String e serviceNN slices = some m)
    (key : ServicePortName) (A : String) :
    (∃ v, entry m key A = some v ∧ v.IsLocal = true) ↔
      Contributes serviceNN slices key
        (fun _ ep => ep.Targets.head? = some A ∧ admits IsIPv6String e A = true ∧
          isLocalEndpoint e ep = true) := by
  have := loops_or IsIPv6String e serviceNN key A (fun o => ∃ v, o = some v ∧ v.IsLocal = true)
    (fun _ ep => ep.Targets.head? = some A ∧ admits IsIPv6String e A = true ∧
      isLocalEndpoint e ep = true) ?_ slices [] m h
  · simpa [entry, GoMap.get, Contributes] using this
  · intro port portNum key₀ s s' ep hstep
    rw [entry_addEndpoint hstep key A]
    by_cases hc : key = key₀ ∧ ep.Targets.head? = some A ∧ admits IsIPv6String e A = true
    · by_cases hl : isLocalEndpoint e ep = true
      · rw [if_pos ⟨hc.1, hc.2.1, hc.2.2, Or.inr hl⟩]
        have : (applyHook e (newBaseEndpointInfo A portNum (isLocalEndpoint e ep))).IsLocal = true := by
          rw [applyHook_IsLocal hloc]; exact hl
        constructor
        · intro _; exact Or.inr ⟨hc.1, hc.2.1, hc.2.2, hl⟩
        · intro _; exact ⟨_, rfl, this⟩
      · by_cases hn : (entry s key A).isNone = true
        · rw [if_pos ⟨hc.1, hc.2.1, hc.2.2, Or.inl hn⟩]
          have hloc' : (applyHook e (newBaseEndpointInfo A portNum (isLocalEndpoint e ep))).IsLocal
              = false := by
            rw [applyHook_IsLocal hloc]; simpa [newBaseEndpointInfo] using hl
          have hnone : entry s key A = none := by simpa using hn
          constructor
          · rintro ⟨v, hv, hvl⟩
            cases hv
            rw [hloc'] at hvl
            exact absurd hvl (by simp)
          · rintro (⟨v, hv, -⟩ | ⟨-, -, -, h4⟩)
            · rw [hnone] at hv; exact absurd hv (by simp)
            · exact absurd h4 hl
        · rw [if_neg (fun hh => hh.2.2.2.elim hn hl)]
          constructor
          · exact Or.inl
          · rintro (h1 | ⟨-, -, -, h4⟩)
            · exact h1
            · exact absurd h4 hl
    · rw [if_neg (fun hh => hc ⟨hh.1, hh.2.1, hh.2.2.1⟩)]
      constructor
      · exact Or.inl
      · rintro (h1 | ⟨h1, h2, h3, -⟩)
        · exact h1
        · exact absurd ⟨h1, h2, h3⟩ hc

/-! ## The shard store -/

theorem storedUnder_Update (e : EndpointSliceCache) (s : discovery.EndpointSlice)
    (k : types.NamespacedName) :
    (e.Update s).storedUnder k =
      if (EndpointSliceCacheKeys s).1 = k then
        GoMap.set (e.storedUnder k) (EndpointSliceCacheKeys s).2 (esInfoOf s)
      else e.storedUnder k := by
  unfold EndpointSliceCache.Update EndpointSliceCache.storedUnder
  simp only
  rw [GoMap.get_set]
  by_cases hk : (EndpointSliceCacheKeys s).1 = k
  · subst hk
    simp only [if_true, Option.getD_some]
    cases hg : GoMap.get e.slicesByService (EndpointSliceCacheKeys s).1 with
    | none => simp [GoMap.get_set_self]
    | some b => simp [hg]
  · simp only [hk, if_false]
    cases hg : GoMap.get e.slicesByService (EndpointSliceCacheKeys s).1 with
    | none => simp [GoMap.get_set_of_ne _ _ hk]
    | some b => simp

theorem Update_makeEndpointInfo (e : EndpointSliceCache) (s : discovery.EndpointSlice) :
    (e.Update s).makeEndpointInfo = e.makeEndpointInfo := rfl

theorem Update_hostname (e : EndpointSliceCache) (s : discovery.EndpointSlice) :
    (e.Update s).hostname = e.hostname := rfl

theorem Update_isIPv6Mode (e : EndpointSliceCache) (s : discovery.EndpointSlice) :
    (e.Update s).isIPv6Mode = e.isIPv6Mode := rfl

theorem foldl_Update_config (updates : List discovery.EndpointSlice) (e : EndpointSliceCache) :
    (updates.foldl EndpointSliceCache.Update e).makeEndpointInfo = e.makeEndpointInfo ∧
    (updates.foldl EndpointSliceCache.Update e).hostname = e.hostname ∧
    (updates.foldl EndpointSliceCache.Update e).isIPv6Mode = e.isIPv6Mode := by
  induction updates generalizing e with
  | nil => exact ⟨rfl, rfl, rfl⟩
  | cons s rest ih =>
    rw [List.foldl_cons]
    exact ih (e.Update s)

theorem cacheOf_makeEndpointInfo (hostname : String) (mode : Option Bool)
    (hook : Option makeEndpointFunc) (updates : List discovery.EndpointSlice) :
    (cacheOf hostname mode hook updates).makeEndpointInfo = hook :=
  (foldl_Update_config updates _).1

theorem cacheOf_hostname (hostname : String) (mode : Option Bool)
    (hook : Option makeEndpointFunc) (updates : List discovery.EndpointSlice) :
    (cacheOf hostname mode hook updates).hostname = hostname :=
  (foldl_Update_config updates _).2.1

theorem cacheOf_isIPv6Mode (hostname : String) (mode : Option Bool)
    (hook : Option makeEndpointFunc) (updates : List discovery.EndpointSlice) :
    (cacheOf hostname mode hook updates).isIPv6Mode = mode :=
  (foldl_Update_config updates _).2.2

theorem lastUpdate_mem {updates : List discovery.EndpointSlice}
    {key : types.NamespacedName × String} {s : discovery.EndpointSlice}
    (h : lastUpdate updates key = some s) : s ∈ updates ∧ EndpointSliceCacheKeys s = key := by
  induction updates with
  | nil => simp [lastUpdate] at h
  | cons s₀ rest ih =>
    unfold lastUpdate at h
    cases hr : lastUpdate rest key with
    | some s' =>
      simp only [hr, Option.some.injEq] at h
      subst h
      exact ⟨List.mem_cons_of_mem _ (ih hr).1, (ih hr).2⟩
    | none =>
      simp only [hr] at h
      split at h
      · rename_i hk
        simp only [Option.some.injEq] at h
        subst h
        exact ⟨List.mem_cons_self _ _, hk⟩
      · simp at h

/-- A record of the store after a sequence of `Update` calls is the projection
of the slice last passed under its keys, or the record that was there before. -/
theorem stored_foldl_Update (updates : List discovery.EndpointSlice) (e : EndpointSliceCache)
    (k : types.NamespacedName) (name : String) :
    GoMap.get ((updates.foldl EndpointSliceCache.Update e).storedUnder k) name =
      match lastUpdate updates (k, name) with
      | some s => some (esInfoOf s)
      | none => GoMap.get (e.storedUnder k) name := by
  induction updates generalizing e with
  | nil => rfl
  | cons s rest ih =>
    have hcons : lastUpdate (s :: rest) (k, name) =
        (match lastUpdate rest (k, name) with
          | some s' => some s'
          | none => if EndpointSliceCacheKeys s = (k, name) then some s else none) := rfl
    rw [List.foldl_cons, ih (e.Update s), hcons]
    cases hr : lastUpdate rest (k, name) with
    | some s' => rfl
    | none =>
      simp only
      rw [storedUnder_Update]
      by_cases hk : EndpointSliceCacheKeys s = (k, name)
      · have h1 : (EndpointSliceCacheKeys s).1 = k := by rw [hk]
        have h2 : (EndpointSliceCacheKeys s).2 = name := by rw [hk]
        simp only [hk, if_true]
        exact GoMap.get_set_self _ _ _
      · simp only [hk, if_false]
        by_cases h1 : (EndpointSliceCacheKeys s).1 = k
        · have h2 : (EndpointSliceCacheKeys s).2 ≠ name := by
            intro h2
            exact hk (Prod.ext h1 h2)
          simp only [h1, if_true]
          exact GoMap.get_set_of_ne _ _ h2
        · simp only [h1, if_false]

theorem WF_storedUnder_foldl_Update (updates : List discovery.EndpointSlice)
    (e : EndpointSliceCache) (he : ∀ k, GoMap.WF (e.storedUnder k)) (k : types.NamespacedName) :
    GoMap.WF ((updates.foldl EndpointSliceCache.Update e).storedUnder k) := by
  induction updates generalizing e with
  | nil => exact he k
  | cons s rest ih =>
    rw [List.foldl_cons]
    apply ih
    intro k'
    rw [storedUnder_Update]
    split
    · exact GoMap.WF_set (he k') _ _
    · exact he k'

/-- Every slice stored under a service key after a sequence of `Update` calls
on a new cache is the projection of the slice last passed under its keys. -/
theorem mem_slicesOf_cacheOf {hostname : String} {mode : Option Bool}
    {hook : Option makeEndpointFunc} {updates : List discovery.EndpointSlice}
    {k : types.NamespacedName} {info : EndpointSliceInfo}
    (h : info ∈ (cacheOf hostname mode hook updates).slicesOf k) :
    ∃ s ∈ updates, (EndpointSliceCacheKeys s).1 = k ∧
      lastUpdate updates (EndpointSliceCacheKeys s) = some s ∧ info = esInfoOf s := by
  unfold EndpointSliceCache.slicesOf GoMap.values at h
  obtain ⟨⟨name, info'⟩, hmem, hinfo⟩ := List.mem_map.1 h
  simp only at hinfo
  subst hinfo
  have hWF := WF_storedUnder_foldl_Update updates
    (NewEndpointSliceCache hostname mode hook) (fun _ => GoMap.WF_nil) k
  have hget := GoMap.get_of_mem hWF hmem
  rw [stored_foldl_Update] at hget
  cases hl : lastUpdate updates (k, name) with
  | none =>
    simp only [hl] at hget
    simp [NewEndpointSliceCache, EndpointSliceCache.storedUnder, GoMap.get] at hget
  | some s =>
    simp only [hl, Option.some.injEq] at hget
    obtain ⟨hs, hkeys⟩ := lastUpdate_mem hl
    refine ⟨s, hs, by rw [hkeys], by rw [hkeys]; exact hl, hget.symm⟩

/-! ## From the enumeration to the stored shards -/

theorem mem_getD_iff {view : EndpointsMap} {key : ServicePortName} {ep : Endpoint} :
    ep ∈ (GoMap.get view key).getD [] ↔ ∃ l, GoMap.get view key = some l ∧ ep ∈ l := by
  cases GoMap.get view key <;> simp

theorem admits_of_no_mode {IsIPv6String : String → Bool} {e : EndpointSliceCache}
    (h : e.isIPv6Mode = none) (A : String) : admits IsIPv6String e A = true := by
  simp [admits, h]

theorem contributes_iff {e : EndpointSliceCache} {k : types.NamespacedName}
    {order : List EndpointSliceInfo} (hperm : order.Perm (e.slicesOf k)) (n A : String)
    (Q : Prop) (P : EndpointInfo → Prop) :
    Contributes k order ⟨k, n⟩ (fun _ ep => ep.Targets.head? = some A ∧ Q ∧ P ep) ↔
      Q ∧ Contribution e k n A P := by
  unfold Contributes Contribution
  constructor
  · rintro ⟨info, hinfo, port, hport, portNum, hnum, h0, hkey, ep, hep, hA, hQ, hP⟩
    refine ⟨hQ, info, hperm.mem_iff.1 hinfo, port, hport, ?_, ⟨portNum, hnum, h0⟩, ep, hep, hA, hP⟩
    have := congrArg ServicePortName.Port hkey
    exact this.symm
  · rintro ⟨hQ, info, hinfo, port, hport, hname, ⟨portNum, hnum, h0⟩, ep, hep, hA, hP⟩
    exact ⟨info, hperm.mem_iff.2 hinfo, port, hport, portNum, hnum, h0, by rw [hname],
      ep, hep, hA, hQ, hP⟩

/-- With no hook or a hook that keeps the address, an address occurs in the
sequence of a port identity iff it is bound under that identity. -/
theorem occurs_iff_entry {IsIPv6String : String → Bool} {e : EndpointSliceCache}
    {serviceNN : types.NamespacedName} {slices : List EndpointSliceInfo}
    {m : EndpointInfoByServicePort}
    (hm : endpointInfoByServicePortOver IsIPv6String e serviceNN slices = some m)
    (hIP : HookPreservesIP e) (key : ServicePortName) (A : String) :
    (∃ ep ∈ (GoMap.get (materialize m) key).getD [], ep.IP = A) ↔
      (entry m key A).isSome = true := by
  have hWF := StateWF_loops IsIPv6String e serviceNN slices m hm
  constructor
  · rintro ⟨ep, hep, hA⟩
    obtain ⟨A', hA'⟩ := (mem_view_iff hWF key ep).1 (mem_getD_iff.1 hep)
    obtain ⟨portNum, isLocal, hv⟩ := entry_loops IsIPv6String e serviceNN slices m hm key A' ep hA'
    have : ep.IP = A' := by rw [hv, applyHook_IP hIP]; rfl
    rw [← hA, this, hA']
    rfl
  · intro h
    cases hv : entry m key A with
    | none => simp [hv] at h
    | some v =>
      obtain ⟨portNum, isLocal, hv'⟩ :=
        entry_loops IsIPv6String e serviceNN slices m hm key A v hv
      refine ⟨v, mem_getD_iff.2 ((mem_view_iff hWF key v).2 ⟨A, hv⟩), ?_⟩
      rw [hv', applyHook_IP hIP]; rfl

/-- Union, on every returned view: with no hook or a hook that keeps the
address, an address occurs in the sequence of a port identity of the service
iff some stored shard contributes it and the family filter admits it. -/
theorem GetEndpointsMapOver_union {IsIPv6String : String → Bool} {e : EndpointSliceCache}
    {k : types.NamespacedName} {order : List EndpointSliceInfo}
    (hperm : order.Perm (e.slicesOf k)) (hIP : HookPreservesIP e) {view : EndpointsMap}
    (hv : GetEndpointsMapOver IsIPv6String e k order = some view) (n A : String) :
    (∃ ep ∈ (GoMap.get view ⟨k, n⟩).getD [], ep.IP = A) ↔
      admits IsIPv6String e A = true ∧ Contribution e k n A (fun _ => True) := by
  obtain ⟨m, hm, rfl, -⟩ := GetEndpointsMapOver_eq_some hv
  rw [occurs_iff_entry hm hIP, entry_isSome_iff IsIPv6String e k order m hm,
    ← contributes_iff hperm n A (admits IsIPv6String e A = true) (fun _ => True)]
  unfold Contributes
  simp

/-! ## Endpoints without targets, when the call returns -/

theorem foldlM_filter {σ α : Type} (f : σ → α → Option σ) (p : α → Bool)
    (hskip : ∀ s a s', p a = false → f s a = some s' → s' = s) :
    ∀ (l : List α) (s s' : σ), List.foldlM f s l = some s' →
      List.foldlM f s (l.filter p) = some s' := by
  intro l
  induction l with
  | nil => intro s s' h; exact h
  | cons a l ih =>
    intro s s' h
    rw [foldlM_cons_eq] at h
    cases hfa : f s a with
    | none => simp [hfa] at h
    | some s₁ =>
      simp only [hfa, Option.bind_some] at h
      cases hp : p a with
      | true =>
        rw [List.filter_cons_of_pos (by simpa using hp), foldlM_cons_eq, hfa]
        exact ih s₁ s' h
      | false =>
        rw [List.filter_cons_of_neg (by simp [hp])]
        have := hskip s a s₁ hp hfa
        subst this
        exact ih s₁ s' h

theorem foldlM_imp {σ α : Type} (f g : σ → α → Option σ)
    (hfg : ∀ s a s', f s a = some s' → g s a = some s') :
    ∀ (l : List α) (s s' : σ), List.foldlM f s l = some s' → List.foldlM g s l = some s' := by
  intro l
  induction l with
  | nil => intro s s' h; exact h
  | cons a l ih =>
    intro s s' h
    rw [foldlM_cons_eq] at h ⊢
    cases hfa : f s a with
    | none => simp [hfa] at h
    | some s₁ =>
      simp only [hfa, Option.bind_some] at h
      rw [hfg s a s₁ hfa]
      exact ih s₁ s' h

theorem addPort_dropTargetless {IsIPv6String : String → Bool} {e : EndpointSliceCache}
    {serviceNN : types.NamespacedName} {info : EndpointSliceInfo}
    {m m' : EndpointInfoByServicePort} {port : discovery.EndpointPort}
    (h : addPort IsIPv6String e serviceNN info m port = some m') :
    addPort IsIPv6String e serviceNN (dropTargetless info) m port = some m' := by
  rw [addPort_eq] at h ⊢
  cases hport : port.Port with
  | none => simp [hport] at h
  | some portNum =>
    simp only [hport] at h ⊢
    by_cases h0 : portNum = 0
    · simpa only [h0, if_true] using h
    · simp only [h0, if_false] at h ⊢
      refine foldlM_filter _ _ ?_ info.Endpoints _ m' h
      intro s a s' hp hstep
      have hT : a.Targets = [] := by simpa using hp
      rw [addEndpoint_nil hT] at hstep
      cases hN : port.Name with
      | none => simp [hN] at hstep
      | some nm =>
        simp only [hN, Option.map_some', Option.some.injEq] at hstep
        exact hstep.symm

/-- When `GetEndpointsMap` returns, it returns the same view after the
endpoints without targets are removed from the enumerated shards. -/
theorem GetEndpointsMapOver_dropTargetless {IsIPv6String : String → Bool}
    {e : EndpointSliceCache} {serviceNN : types.NamespacedName}
    {slices : List EndpointSliceInfo} {view : EndpointsMap}
    (h : GetEndpointsMapOver IsIPv6String e serviceNN slices = some view) :
    GetEndpointsMapOver IsIPv6String e serviceNN (slices.map dropTargetless) = some view := by
  unfold GetEndpointsMapOver endpointInfoByServicePortOver at h ⊢
  cases hm : List.foldlM (addSlice IsIPv6String e serviceNN) [] slices with
  | none => simp [hm] at h
  | some m =>
    simp only [hm, Option.map_some', Option.some.injEq] at h
    have key : ∀ (l : List EndpointSliceInfo) (s s' : EndpointInfoByServicePort),
        List.foldlM (addSlice IsIPv6String e serviceNN) s l = some s' →
        List.foldlM (addSlice IsIPv6String e serviceNN) s (l.map dropTargetless) = some s' := by
      intro l
      induction l with
      | nil => intro s s' hh; exact hh
      | cons a l ih =>
        intro s s' hh
        rw [foldlM_cons_eq] at hh
        rw [List.map_cons, foldlM_cons_eq]
        cases hfa : addSlice IsIPv6String e serviceNN s a with
        | none => simp [hfa] at hh
        | some s₁ =>
          simp only [hfa, Option.bind_some] at hh
          have : addSlice IsIPv6String e serviceNN s (dropTargetless a) = some s₁ := by
            unfold addSlice at hfa ⊢
            exact foldlM_imp _ _ (fun s p s' hp => addPort_dropTargetless hp) a.Ports s s₁ hfa
          rw [this]
          exact ih s₁ s' hh
    rw [key slices [] m hm]
    simp [h]

/-! ## The claims -/

/-- C1 (Union). For every cache built by `Update` calls with no extension hook
and no address-family filter, every service key `k`, port name `n`, address
`A` and every enumeration of the shards stored under `k`: the call returns
exactly when no stored shard makes it dereference an unset port field, and in
every returned view `A` occurs in the sequence of `(k, n)` iff some shard
stored under `k` declares a port named `n` (unset counting as empty) with a
non-zero number and retains an endpoint whose first target is `A`. -/
theorem GetEndpointsMap_union (IsIPv6String : String → Bool) (hostname : String)
    (updates : List discovery.EndpointSlice) (k : types.NamespacedName) (n A : String)
    (order : List EndpointSliceInfo)
    (hperm : order.Perm ((cacheOf hostname none none updates).slicesOf k)) :
    ((GetEndpointsMapOver IsIPv6String (cacheOf hostname none none updates) k order).isSome ↔
        ∀ info ∈ (cacheOf hostname none none updates).slicesOf k, derefSafe info) ∧
    ∀ view, GetEndpointsMapOver IsIPv6String (cacheOf hostname none none updates) k order
        = some view →
      ((∃ ep ∈ (GoMap.get view ⟨k, n⟩).getD [], ep.IP = A) ↔
        Contribution (cacheOf hostname none none updates) k n A (fun _ => True)) := by
  refine ⟨?_, ?_⟩
  · rw [GetEndpointsMapOver_isSome]
    exact ⟨fun h info hi => h info (hperm.mem_iff.2 hi), fun h info hi => h info (hperm.mem_iff.1 hi)⟩
  · intro view hv
    have hIP : HookPreservesIP (cacheOf hostname none none updates) := by
      intro f hf
      rw [cacheOf_makeEndpointInfo] at hf
      cases hf
    rw [GetEndpointsMapOver_union hperm hIP hv n A,
      admits_of_no_mode (cacheOf_isIPv6Mode hostname none none updates)]
    simp

/-- Witness of C1 on the cache holding `sliceA` and `sliceB`, enumerated with
`sliceB` first. -/
theorem GetEndpointsMap_union_witness :
    [esInfoOf sliceB, esInfoOf sliceA].Perm ((cacheOf "host1" none none [sliceA, sliceB]).slicesOf svc1) ∧
    GetEndpointsMapOver (fun _ => false) (cacheOf "host1" none none [sliceA, sliceB]) svc1
      [esInfoOf sliceB, esInfoOf sliceA] = some viewAB ∧
    ((∃ ep ∈ (GoMap.get viewAB ⟨svc1, "port-0"⟩).getD [], ep.IP = "10.0.1.3") ↔
      Contribution (cacheOf "host1" none none [sliceA, sliceB]) svc1 "port-0" "10.0.1.3"
        (fun _ => True)) :=
  ⟨by decide, by decide,
    (GetEndpointsMap_union (fun _ => false) "host1" [sliceA, sliceB] svc1 "port-0" "10.0.1.3"
      [esInfoOf sliceB, esInfoOf sliceA] (by decide)).2 viewAB (by decide)⟩

/-- C3 (Sorted output). For every cache state, whatever its hook, every service
key and every enumeration of the stored shards, each sequence of a returned
view is sorted ascending by the lexicographic string order of the addresses of
its entries. -/
theorem GetEndpointsMap_sorted (IsIPv6String : String → Bool) (e : EndpointSliceCache)
    (k : types.NamespacedName) (order : List EndpointSliceInfo)
    (hperm : order.Perm (e.slicesOf k)) (view : EndpointsMap)
    (hv : GetEndpointsMapOver IsIPv6String e k order = some view)
    (key : ServicePortName) (l : List Endpoint) (hl : GoMap.get view key = some l) :
    List.Sorted (fun a b => a.IP ≤ b.IP) l := by
  have _ := hperm
  obtain ⟨m, -, rfl, -⟩ := GetEndpointsMapOver_eq_some hv
  obtain ⟨byIP, -, -, hsort⟩ := mem_materialize m (key, l) (GoMap.mem_of_get hl)
  simp only at hsort
  subst hsort
  exact (sortByIP_sorted _).imp (fun h => (byIP_le_iff _ _).1 h)

/-- Witness of C3: the sequence of `port-0` has `10.0.1.10` before `10.0.1.2`. -/
theorem GetEndpointsMap_sorted_witness :
    GetEndpointsMapOver (fun _ => false) cacheAB svc1 (cacheAB.slicesOf svc1) = some viewAB ∧
    List.Sorted (fun a b : Endpoint => a.IP ≤ b.IP)
      [⟨"10.0.1.1:80", false, "10.0.1.1"⟩, ⟨"10.0.1.10:80", false, "10.0.1.10"⟩,
       ⟨"10.0.1.2:80", true, "10.0.1.2"⟩, ⟨"10.0.1.3:80", false, "10.0.1.3"⟩] :=
  ⟨by decide,
    GetEndpointsMap_sorted (fun _ => false) cacheAB svc1 (cacheAB.slicesOf svc1)
      (List.Perm.refl _) viewAB (by decide) ⟨svc1, "port-0"⟩ _ (by decide)⟩

/-- C4 (Deduplication). For every cache state, service key and enumeration of
the stored shards, every sequence of a returned view lists, up to order, the
entries of a map with pairwise distinct address keys, each entry being the
stored form of a base record built for its key; hence, when the cache has no
hook or a hook that keeps the address, no two entries of the sequence have the
same address. -/
theorem GetEndpointsMap_dedup (IsIPv6String : String → Bool) (e : EndpointSliceCache)
    (k : types.NamespacedName) (order : List EndpointSliceInfo)
    (hperm : order.Perm (e.slicesOf k)) (view : EndpointsMap)
    (hv : GetEndpointsMapOver IsIPv6String e k order = some view)
    (key : ServicePortName) (l : List Endpoint) (hl : GoMap.get view key = some l) :
    (∃ byIP : GoMap String Endpoint, GoMap.WF byIP ∧ l.Perm (GoMap.values byIP) ∧
      ∀ A ep, (A, ep) ∈ byIP →
        ∃ portNum isLocal, ep = applyHook e (newBaseEndpointInfo A portNum isLocal)) ∧
    (HookPreservesIP e → (l.map (fun ep => ep.IP)).Nodup) := by
  have _ := hperm
  obtain ⟨m, hm, rfl, hWF⟩ := GetEndpointsMapOver_eq_some hv
  rw [get_materialize m hWF.1 key] at hl
  cases hg : GoMap.get m key with
  | none => simp [hg] at hl
  | some byIP =>
    simp only [hg] at hl
    split at hl
    · simp only [Option.some.injEq] at hl
      subst hl
      have hbuilt : ∀ A ep, (A, ep) ∈ byIP →
          ∃ portNum isLocal, ep = applyHook e (newBaseEndpointInfo A portNum isLocal) := by
        intro A ep hmem
        apply entry_loops IsIPv6String e k order m hm key A ep
        unfold entry
        rw [hg]
        exact GoMap.get_of_mem (hWF.2 key byIP hg) hmem
      refine ⟨⟨byIP, hWF.2 key byIP hg, sortByIP_perm _, hbuilt⟩, ?_⟩
      intro hIP
      have hkeys : (GoMap.values byIP).map (fun ep => ep.IP) = GoMap.keys byIP := by
        unfold GoMap.values GoMap.keys
        rw [List.map_map]
        apply List.map_congr_left
        rintro ⟨A, ep⟩ hmem
        obtain ⟨portNum, isLocal, hep⟩ := hbuilt A ep hmem
        simp only [Function.comp]
        rw [hep, applyHook_IP hIP]
        rfl
      have hp : (List.map (fun ep => ep.IP) (sortByIP (GoMap.values byIP))).Perm
          (GoMap.keys byIP) := hkeys ▸ (sortByIP_perm _).map _
      exact hp.nodup_iff.2 (hWF.2 key byIP hg)
    · simp at hl

/-- Witness of C4: `10.0.1.2` is carried by both slices and occurs once. -/
theorem GetEndpointsMap_dedup_witness :
    GetEndpointsMapOver (fun _ => false) cacheAB svc1 (cacheAB.slicesOf svc1) = some viewAB ∧
    (List.map (fun ep : Endpoint => ep.IP)
      [⟨"10.0.1.1:80", false, "10.0.1.1"⟩, ⟨"10.0.1.10:80", false, "10.0.1.10"⟩,
       ⟨"10.0.1.2:80", true, "10.0.1.2"⟩, ⟨"10.0.1.3:80", false, "10.0.1.3"⟩]).Nodup :=
  ⟨by decide,
    (GetEndpointsMap_dedup (fun _ => false) cacheAB svc1 (cacheAB.slicesOf svc1)
      (List.Perm.refl _) viewAB (by decide) ⟨svc1, "port-0"⟩ _ (by decide)).2
      (fun f hf => by rw [show cacheAB.makeEndpointInfo = none from rfl] at hf; cases hf)⟩

/-- C7 (No empty sequences). For every cache state, service key and enumeration
of the stored shards, every port identity bound in a returned view is bound to
a non-empty sequence, and a port identity of the service is bound iff some
stored shard declares a port of that name with a non-zero number and retains an
endpoint with a first target that the family filter admits. -/
theorem GetEndpointsMap_nonempty (IsIPv6String : String → Bool) (e : EndpointSliceCache)
    (k : types.NamespacedName) (order : List EndpointSliceInfo)
    (hperm : order.Perm (e.slicesOf k)) (view : EndpointsMap)
    (hv : GetEndpointsMapOver IsIPv6String e k order = some view) :
    (∀ key l, (key, l) ∈ view → l ≠ []) ∧
    ∀ n, ((GoMap.get view ⟨k, n⟩).isSome = true ↔
      ∃ A, admits IsIPv6String e A = true ∧ Contribution e k n A (fun _ => True)) := by
  obtain ⟨m, hm, rfl, hWF⟩ := GetEndpointsMapOver_eq_some hv
  refine ⟨?_, ?_⟩
  · intro key l hmem
    obtain ⟨byIP, -, hlen, hsort⟩ := mem_materialize m (key, l) hmem
    simp only at hsort
    intro hnil
    have := sortByIP_length (GoMap.values byIP)
    rw [← hsort, hnil] at this
    simp [GoMap.values] at this
    simp [this] at hlen
  · intro n
    have hiff : (GoMap.get (materialize m) ⟨k, n⟩).isSome = true ↔
        ∃ A, (entry m ⟨k, n⟩ A).isSome = true := by
      rw [get_materialize m hWF.1]
      unfold entry
      cases hg : GoMap.get m ⟨k, n⟩ with
      | none => simp [GoMap.get]
      | some byIP =>
        cases byIP with
        | nil => simp [GoMap.get]
        | cons p rest =>
          simp only [List.length_cons, Nat.zero_lt_succ, if_true, Option.isSome_some,
            Option.getD_some, true_iff]
          exact ⟨p.1, by simp [GoMap.get]⟩
    rw [hiff]
    constructor
    · rintro ⟨A, hA⟩
      rw [entry_isSome_iff IsIPv6String e k order m hm] at hA
      have := (contributes_iff hperm n A (admits IsIPv6String e A = true) (fun _ => True)).1
        (by unfold Contributes at hA ⊢; simpa using hA)
      exact ⟨A, this⟩
    · rintro ⟨A, hA⟩
      refine ⟨A, ?_⟩
      rw [entry_isSome_iff IsIPv6String e k order m hm]
      have := (contributes_iff hperm n A (admits IsIPv6String e A = true) (fun _ => True)).2 hA
      unfold Contributes at this ⊢
      simpa using this

/-- Witness of C7 on the cache holding `sliceA` and `sliceB`. -/
theorem GetEndpointsMap_nonempty_witness :
    GetEndpointsMapOver (fun _ => false) cacheAB svc1 (cacheAB.slicesOf svc1) = some viewAB ∧
    (∀ key l, (key, l) ∈ viewAB → l ≠ []) :=
  ⟨by decide,
    (GetEndpointsMap_nonempty (fun _ => false) cacheAB svc1 (cacheAB.slicesOf svc1)
      (List.Perm.refl _) viewAB (by decide)).1⟩

/-- C9 (Unknown service). For every cache state and every service key under
which no shard is stored, `GetEndpointsMap` returns the empty view, for the
only enumeration there is. -/
theorem GetEndpointsMap_unknown_service (IsIPv6String : String → Bool)
    (e : EndpointSliceCache) (k : types.NamespacedName) (h : e.slicesOf k = [])
    (order : List EndpointSliceInfo) (hperm : order.Perm (e.slicesOf k)) :
    GetEndpointsMapOver IsIPv6String e k order = some [] ∧
      e.GetEndpointsMap IsIPv6String k = some [] := by
  rw [h] at hperm
  have : order = [] := List.Perm.eq_nil hperm
  subst this
  refine ⟨rfl, ?_⟩
  unfold EndpointSliceCache.GetEndpointsMap
  rw [h]
  rfl

/-- Witness of C9: after `Update` and `Delete` of the only slice of `svc1` no
shard is stored under `svc1` and the view is empty. -/
theorem GetEndpointsMap_unknown_service_witness :
    (((NewEndpointSliceCache "host1" none none).Update sliceA).Delete sliceA).slicesOf svc1 = [] ∧
    (((NewEndpointSliceCache "host1" none none).Update sliceA).Delete sliceA).GetEndpointsMap
      (fun _ => false) svc1 = some [] :=
  ⟨by decide,
    (GetEndpointsMap_unknown_service (fun _ => false)
      (((NewEndpointSliceCache "host1" none none).Update sliceA).Delete sliceA) svc1
      (by decide) [] (by decide)).2⟩

/-- C5 (Locality precedence). For every cache state with no family filter and
no hook (or a hook that keeps the locality flag), every service key `k`, port
name `n`, address `A` and enumeration of the stored shards, a returned view is
the materialization of a map `m` of entries per address such that the sequence
of `(k, n)` consists of the entries of `m` under `(k, n)`, the entry kept for
`A` is marked local iff some contributing endpoint is local, and (when the
hook also keeps the address) an entry of the sequence whose address is `A` is
marked local iff some contributing endpoint is local.  The enumeration is
arbitrary, so the shard processed first does not matter. -/
theorem GetEndpointsMap_locality (IsIPv6String : String → Bool) (e : EndpointSliceCache)
    (hmode : e.isIPv6Mode = none) (hloc : HookPreservesIsLocal e)
    (k : types.NamespacedName) (n A : String) (order : List EndpointSliceInfo)
    (hperm : order.Perm (e.slicesOf k)) (view : EndpointsMap)
    (hv : GetEndpointsMapOver IsIPv6String e k order = some view) :
    ∃ m, endpointInfoByServicePortOver IsIPv6String e k order = some m ∧
      view = materialize m ∧
      (∀ ep, ep ∈ (GoMap.get view ⟨k, n⟩).getD [] ↔ ∃ A', entry m ⟨k, n⟩ A' = some ep) ∧
      (∀ v, entry m ⟨k, n⟩ A = some v →
        (v.IsLocal = true ↔
          Contribution e k n A (fun endpoint => isLocalEndpoint e endpoint = true))) ∧
      (HookPreservesIP e → ∀ ep ∈ (GoMap.get view ⟨k, n⟩).getD [], ep.IP = A →
        (ep.IsLocal = true ↔
          Contribution e k n A (fun endpoint => isLocalEndpoint e endpoint = true))) := by
  obtain ⟨m, hm, rfl, hWF⟩ := GetEndpointsMapOver_eq_some hv
  have hkeyed : ∀ v, entry m ⟨k, n⟩ A = some v →
      (v.IsLocal = true ↔
        Contribution e k n A (fun endpoint => isLocalEndpoint e endpoint = true)) := by
    intro v hentry
    have h1 := entry_isLocal_iff IsIPv6String e hloc k order m hm ⟨k, n⟩ A
    have h2 := contributes_iff hperm n A (admits IsIPv6String e A = true)
      (fun endpoint => isLocalEndpoint e endpoint = true)
    rw [h2, admits_of_no_mode hmode] at h1
    simp only [true_and] at h1
    rw [← h1]
    constructor
    · intro hl; exact ⟨v, hentry, hl⟩
    · rintro ⟨v', hv', hl⟩
      rw [hentry] at hv'
      cases hv'
      exact hl
  refine ⟨m, hm, rfl, ?_, hkeyed, ?_⟩
  · intro ep
    rw [mem_getD_iff]
    exact mem_view_iff hWF ⟨k, n⟩ ep
  · intro hIP ep hep hA
    obtain ⟨A', hA'⟩ := (mem_view_iff hWF ⟨k, n⟩ ep).1 (mem_getD_iff.1 hep)
    obtain ⟨portNum, isLocal, hbuilt⟩ :=
      entry_loops IsIPv6String e k order m hm ⟨k, n⟩ A' ep hA'
    have : ep.IP = A' := by rw [hbuilt, applyHook_IP hIP]; rfl
    rw [hA] at this
    subst this
    exact hkeyed ep hA'

/-- Witness of C5: `10.0.1.2` is local in `sliceA` and not in `sliceB`; with
`sliceB` processed first its entry is local, and a local endpoint contributes. -/
theorem GetEndpointsMap_locality_witness :
    [esInfoOf sliceB, esInfoOf sliceA].Perm (cacheAB.slicesOf svc1) ∧
    GetEndpointsMapOver (fun _ => false) cacheAB svc1 [esInfoOf sliceB, esInfoOf sliceA]
      = some viewAB ∧
    Contribution cacheAB svc1 "port-0" "10.0.1.2"
      (fun endpoint => isLocalEndpoint cacheAB endpoint = true) := by
  refine ⟨by decide, by decide, ?_⟩
  obtain ⟨m, -, -, -, -, hobs⟩ :=
    GetEndpointsMap_locality (fun _ => false) cacheAB rfl
      (fun f hf => by rw [show cacheAB.makeEndpointInfo = none from rfl] at hf; cases hf)
      svc1 "port-0" "10.0.1.2" [esInfoOf sliceB, esInfoOf sliceA] (by decide) viewAB (by decide)
  exact (hobs (fun f hf => by rw [show cacheAB.makeEndpointInfo = none from rfl] at hf; cases hf)
    ⟨"10.0.1.2:80", true, "10.0.1.2"⟩ (by decide) rfl).1 rfl

/-- C6 (Readiness filter). For every cache built by `Update` calls, every
service key `k` and address `A`: if every endpoint with first target `A` in the
slices last stored under `k` is not ready, then in every returned view no entry
is kept for `A` under any port identity and, when the cache has no hook or a
hook that keeps the address, `A` occurs in no sequence of the view. -/
theorem GetEndpointsMap_readiness (IsIPv6String : String → Bool) (hostname : String)
    (isIPv6Mode : Option Bool) (makeEndpointInfo : Option makeEndpointFunc)
    (updates : List discovery.EndpointSlice) (k : types.NamespacedName) (A : String)
    (hunready : ∀ s ∈ updates, (EndpointSliceCacheKeys s).1 = k →
      lastUpdate updates (EndpointSliceCacheKeys s) = some s →
      ∀ endpoint ∈ s.Endpoints, endpoint.Targets.head? = some A →
        endpoint.Conditions.Ready = false)
    (order : List EndpointSliceInfo)
    (hperm : order.Perm ((cacheOf hostname isIPv6Mode makeEndpointInfo updates).slicesOf k))
    (view : EndpointsMap)
    (hv : GetEndpointsMapOver IsIPv6String
      (cacheOf hostname isIPv6Mode makeEndpointInfo updates) k order = some view) :
    ∃ m, endpointInfoByServicePortOver IsIPv6String
        (cacheOf hostname isIPv6Mode makeEndpointInfo updates) k order = some m ∧
      view = materialize m ∧
      (∀ key, entry m key A = none) ∧
      (HookPreservesIP (cacheOf hostname isIPv6Mode makeEndpointInfo updates) →
        ∀ key l, GoMap.get view key = some l → ∀ ep ∈ l, ep.IP ≠ A) := by
  obtain ⟨m, hm, rfl, hWF⟩ := GetEndpointsMapOver_eq_some hv
  have hnone : ∀ key, entry m key A = none := by
    intro key
    cases hentry : entry m key A with
    | none => rfl
    | some v =>
      exfalso
      have hsome : (entry m key A).isSome = true := by simp [hentry]
      rw [entry_isSome_iff IsIPv6String _ k order m hm] at hsome
      obtain ⟨info, hinfo, port, -, portNum, -, -, -, ep, hep, hA, -⟩ := hsome
      obtain ⟨s, hs, hk, hlast, hproj⟩ := mem_slicesOf_cacheOf (hperm.mem_iff.1 hinfo)
      subst hproj
      simp only [esInfoOf, List.mem_map, List.mem_filter] at hep
      obtain ⟨endpoint, ⟨hmem, hready⟩, hep⟩ := hep
      subst hep
      have := hunready s hs hk hlast endpoint hmem hA
      rw [this] at hready
      exact absurd hready (by simp)
  refine ⟨m, hm, rfl, hnone, ?_⟩
  intro hIP key l hl ep hep hA
  have := (occurs_iff_entry hm hIP key A).1
    ⟨ep, mem_getD_iff.2 ⟨l, hl, hep⟩, hA⟩
  rw [hnone key] at this
  exact absurd this (by simp)

/-- Witness of C6: `10.0.1.4` was ready in the slice first stored and is not
ready in the slice last stored under the same keys; it occurs in no sequence. -/
theorem GetEndpointsMap_readiness_witness :
    GetEndpointsMapOver (fun _ => false) (cacheOf "host1" none none [sliceA0, sliceA, sliceB])
      svc1 ((cacheOf "host1" none none [sliceA0, sliceA, sliceB]).slicesOf svc1) = some viewAB ∧
    ∀ key l, GoMap.get viewAB key = some l → ∀ ep ∈ l, ep.IP ≠ "10.0.1.4" := by
  refine ⟨by decide, ?_⟩
  obtain ⟨m, -, -, -, hobs⟩ :=
    GetEndpointsMap_readiness (fun _ => false) "host1" none none [sliceA0, sliceA, sliceB] svc1
      "10.0.1.4" (by decide) _ (List.Perm.refl _) viewAB (by decide)
  exact hobs (fun f hf => by
    rw [cacheOf_makeEndpointInfo] at hf; cases hf)

/-- C2 (Determinism) fails on the code: the cache holding `sliceP1` and
`sliceP2` yields `10.0.0.1:80` when the shard of `sliceP1` is enumerated first
and `10.0.0.1:8080` when the shard of `sliceP2` is enumerated first. -/
theorem GetEndpointsMap_order_dependent :
    [esInfoOf sliceP1, esInfoOf sliceP2].Perm
      ((cacheOf "" none none [sliceP1, sliceP2]).slicesOf svc1) ∧
    [esInfoOf sliceP2, esInfoOf sliceP1].Perm
      ((cacheOf "" none none [sliceP1, sliceP2]).slicesOf svc1) ∧
    GetEndpointsMapOver (fun _ => false) (cacheOf "" none none [sliceP1, sliceP2]) svc1
      [esInfoOf sliceP1, esInfoOf sliceP2] =
        some [(⟨svc1, "http"⟩, [⟨"10.0.0.1:80", false, "10.0.0.1"⟩])] ∧
    GetEndpointsMapOver (fun _ => false) (cacheOf "" none none [sliceP1, sliceP2]) svc1
      [esInfoOf sliceP2, esInfoOf sliceP1] =
        some [(⟨svc1, "http"⟩, [⟨"10.0.0.1:8080", false, "10.0.0.1"⟩])] := by
  decide

/-- C8 (never fails) fails on the code: `GetEndpointsMap` panics on a stored
slice with a port whose number is unset, with an unnamed port of number 0, and
with an unnamed port when an endpoint has no targets. -/
theorem GetEndpointsMap_panics :
    (cacheOf "" none none [sliceNoNumber]).GetEndpointsMap (fun _ => false) svc1 = none ∧
    (cacheOf "" none none [sliceZeroNoName]).GetEndpointsMap (fun _ => false) svc1 = none ∧
    (cacheOf "" none none [sliceTargetless]).GetEndpointsMap (fun _ => false) svc1 = none := by
  decide

/-- C10 (Zero-target exclusion) fails on the code: with the endpoint without
targets stored the call panics, with that endpoint removed from the stored
shard it returns `10.0.0.1:80`. -/
theorem GetEndpointsMap_targetless_changes_result :
    (esInfoOf sliceTargetlessRemoved).Ports = (esInfoOf sliceTargetless).Ports ∧
    (esInfoOf sliceTargetlessRemoved).Endpoints =
      (esInfoOf sliceTargetless).Endpoints.filter (fun endpoint => !endpoint.Targets.isEmpty) ∧
    (cacheOf "" none none [sliceTargetless]).GetEndpointsMap (fun _ => false) svc1 = none ∧
    (cacheOf "" none none [sliceTargetlessRemoved]).GetEndpointsMap (fun _ => false) svc1 =
      some [(⟨svc1, ""⟩, [⟨"10.0.0.1:80", false, "10.0.0.1"⟩])] := by
  decide

end proxy

/-! ## More facts about Go maps -/

namespace GoMap

theorem nodup_of_WF {κ ν : Type} {m : GoMap κ ν} (hm : WF m) : List.Nodup m :=
  List.Nodup.of_map Prod.fst hm

variable {κ ν ν' : Type} [DecidableEq κ]

theorem set_set (m : GoMap κ ν) (k : κ) (v w : ν) : set (set m k v) k w = set m k w := by
  induction m with
  | nil => simp [set]
  | cons p m ih =>
    obtain ⟨k₀, v₀⟩ := p
    by_cases h : k₀ = k
    · simp [set, h]
    · simp [set, h, ih]

theorem set_of_get {m : GoMap κ ν} {k : κ} {v : ν} (h : get m k = some v) : set m k v = m := by
  induction m with
  | nil => simp [get] at h
  | cons p m ih =>
    obtain ⟨k₀, v₀⟩ := p
    by_cases hk : k₀ = k
    · subst hk
      simp only [get, if_true, Option.some.injEq] at h
      simp [set, h]
    · simp only [get, hk, if_false] at h
      simp [set, hk, ih h]

theorem delete_of_get_none {m : GoMap κ ν} {k : κ} (h : get m k = none) : delete m k = m := by
  induction m with
  | nil => rfl
  | cons p m ih =>
    obtain ⟨k₀, v₀⟩ := p
    by_cases hk : k₀ = k
    · simp [get, hk] at h
    · simp only [get, hk, if_false] at h
      simp [delete, hk, ih h]

/-- Two well-formed maps with the same bindings enumerate the same pairs. -/
theorem perm_of_get_eq {m₁ m₂ : GoMap κ ν} (h₁ : WF m₁) (h₂ : WF m₂)
    (h : ∀ k, get m₁ k = get m₂ k) : List.Perm m₁ m₂ := by
  rw [List.perm_ext_iff_of_nodup (nodup_of_WF h₁) (nodup_of_WF h₂)]
  rintro ⟨k, v⟩
  rw [mem_iff_get h₁, mem_iff_get h₂, h k]

theorem set_of_get_none {m : GoMap κ ν} {k : κ} (v : ν) (h : get m k = none) :
    set m k v = m ++ [(k, v)] := by
  induction m with
  | nil => rfl
  | cons p m ih =>
    obtain ⟨k₀, v₀⟩ := p
    by_cases hk : k₀ = k
    · simp [get, hk] at h
    · simp only [get, hk, if_false] at h
      simp [set, hk, ih h]

theorem delete_append (m₁ m₂ : GoMap κ ν) (k : κ) :
    delete (m₁ ++ m₂) k = delete m₁ k ++ delete m₂ k := by
  induction m₁ with
  | nil => rfl
  | cons p m ih =>
    obtain ⟨k₀, v₀⟩ := p
    by_cases hk : k₀ = k
    · simp [delete, hk, ih]
    · simp [delete, hk, ih]

theorem delete_cons (p : κ × ν) (m : GoMap κ ν) (k : κ) :
    delete (p :: m) k = if p.1 = k then delete m k else p :: delete m k := by
  obtain ⟨k₀, v₀⟩ := p
  rfl

theorem delete_map {α : Type} (f : α → κ × ν) (l : List α) (k : κ) :
    delete (l.map f) k = (l.filter (fun a => decide ((f a).1 ≠ k))).map f := by
  induction l with
  | nil => rfl
  | cons a l ih =>
    rw [List.map_cons, delete_cons, ih]
    by_cases hk : (f a).1 = k
    · simp [hk]
    · simp [hk]

theorem get_mapValues (g : ν → ν') (m : GoMap κ ν) (k : κ) :
    get (mapValues g m) k = (get m k).map g := by
  induction m with
  | nil => rfl
  | cons p m ih =>
    obtain ⟨k₀, v₀⟩ := p
    by_cases hk : k₀ = k
    · simp [mapValues, get, hk]
    · have := ih
      simp only [mapValues] at this
      simp [mapValues, get, hk, this]

theorem set_mapValues (g : ν → ν') (m : GoMap κ ν) (k : κ) (v : ν) :
    set (mapValues g m) k (g v) = mapValues g (set m k v) := by
  induction m with
  | nil => rfl
  | cons p m ih =>
    obtain ⟨k₀, v₀⟩ := p
    by_cases hk : k₀ = k
    · simp [mapValues, set, hk]
    · have := ih
      simp only [mapValues] at this
      simp [mapValues, set, hk, this]

end GoMap

namespace proxy

/-! ## Deleting from the shard store -/

theorem storedUnder_Delete (e : EndpointSliceCache) (s : discovery.EndpointSlice)
    (k : types.NamespacedName) :
    (e.Delete s).storedUnder k =
      if (EndpointSliceCacheKeys s).1 = k then
        GoMap.delete (e.storedUnder k) (EndpointSliceCacheKeys s).2
      else e.storedUnder k := by
  unfold EndpointSliceCache.Delete EndpointSliceCache.storedUnder
  simp only
  cases hg : GoMap.get e.slicesByService (EndpointSliceCacheKeys s).1 with
  | none =>
    by_cases hk : (EndpointSliceCacheKeys s).1 = k
    · subst hk
      simp [hg, GoMap.delete]
    · simp [hk]
  | some slices =>
    simp only
    rw [GoMap.get_set]
    by_cases hk : (EndpointSliceCacheKeys s).1 = k
    · subst hk
      simp [hg]
    · simp [hk]

theorem Delete_config (e : EndpointSliceCache) (s : discovery.EndpointSlice) :
    (e.Delete s).makeEndpointInfo = e.makeEndpointInfo ∧
    (e.Delete s).hostname = e.hostname ∧ (e.Delete s).isIPv6Mode = e.isIPv6Mode := by
  unfold EndpointSliceCache.Delete
  simp only
  cases GoMap.get e.slicesByService (EndpointSliceCacheKeys s).1 <;> exact ⟨rfl, rfl, rfl⟩

/-- The construction of the view reads the cache only through its hook, its
host name and its address-family mode. -/
theorem GetEndpointsMapOver_congr (IsIPv6String : String → Bool) {e e' : EndpointSliceCache}
    (hhook : e'.makeEndpointInfo = e.makeEndpointInfo) (hhost : e'.hostname = e.hostname)
    (hmode : e'.isIPv6Mode = e.isIPv6Mode) (k : types.NamespacedName)
    (order : List EndpointSliceInfo) :
    GetEndpointsMapOver IsIPv6String e' k order = GetEndpointsMapOver IsIPv6String e k order := by
  have hadd : addEndpoint IsIPv6String e' = addEndpoint IsIPv6String e := by
    funext port portNum key m ep
    unfold addEndpoint admits isLocalEndpoint
    rw [hhook, hhost, hmode]
  have hport : addPort IsIPv6String e' = addPort IsIPv6String e := by
    funext serviceNN info m port
    unfold addPort
    rw [hadd]
  have hslice : addSlice IsIPv6String e' = addSlice IsIPv6String e := by
    funext serviceNN m info
    unfold addSlice
    rw [hport]
  unfold GetEndpointsMapOver endpointInfoByServicePortOver
  rw [hslice]

/-! ## Update and Delete on the whole store -/

theorem Update_eq (e : EndpointSliceCache) (s : discovery.EndpointSlice) :
    e.Update s =
      { e with
        slicesByService := GoMap.set e.slicesByService (EndpointSliceCacheKeys s).1
          (GoMap.set (e.storedUnder (EndpointSliceCacheKeys s).1) (EndpointSliceCacheKeys s).2
            (esInfoOf s)) } := by
  unfold EndpointSliceCache.Update EndpointSliceCache.storedUnder
  simp only
  cases hg : GoMap.get e.slicesByService (EndpointSliceCacheKeys s).1 with
  | none => simp [GoMap.set_set, GoMap.get_set_self]
  | some b => simp [hg]

theorem Update_Update_same_keys (e : EndpointSliceCache) (s₁ s₂ : discovery.EndpointSlice)
    (hkeys : EndpointSliceCacheKeys s₁ = EndpointSliceCacheKeys s₂) :
    (e.Update s₁).Update s₂ = e.Update s₂ := by
  rw [Update_eq (e.Update s₁) s₂, Update_eq e s₂, storedUnder_Update, ← hkeys]
  simp only [if_true]
  rw [Update_eq e s₁]
  simp only [GoMap.set_set]

/-- C12 (Last write wins). For every cache state and all slices `s₁`, `s₂` with
the same derived keys, `Update s₁` followed by `Update s₂` gives the same state
as `Update s₂` alone, `Update s₂` twice equals `Update s₂` once, and the record
stored under the keys is the projection of `s₂`. -/
theorem Update_last_write_wins (e : EndpointSliceCache) (s₁ s₂ : discovery.EndpointSlice)
    (hkeys : EndpointSliceCacheKeys s₁ = EndpointSliceCacheKeys s₂) :
    (e.Update s₁).Update s₂ = e.Update s₂ ∧
    (e.Update s₂).Update s₂ = e.Update s₂ ∧
    GoMap.get (((e.Update s₁).Update s₂).storedUnder (EndpointSliceCacheKeys s₂).1)
      (EndpointSliceCacheKeys s₂).2 = some (esInfoOf s₂) := by
  refine ⟨Update_Update_same_keys e s₁ s₂ hkeys, Update_Update_same_keys e s₂ s₂ rfl, ?_⟩
  rw [storedUnder_Update, if_pos rfl, GoMap.get_set_self]

/-- Witness of C12: `sliceA0` and `sliceA` have the same keys. -/
theorem Update_last_write_wins_witness :
    EndpointSliceCacheKeys sliceA0 = EndpointSliceCacheKeys sliceA ∧
    ((cacheOf "host1" none none [sliceB]).Update sliceA0).Update sliceA =
      (cacheOf "host1" none none [sliceB]).Update sliceA :=
  ⟨by decide, (Update_last_write_wins (cacheOf "host1" none none [sliceB]) sliceA0 sliceA
    (by decide)).1⟩

theorem Delete_of_absent (e : EndpointSliceCache) (s : discovery.EndpointSlice)
    (h : GoMap.get (e.storedUnder (EndpointSliceCacheKeys s).1) (EndpointSliceCacheKeys s).2
      = none) : e.Delete s = e := by
  unfold EndpointSliceCache.Delete
  simp only
  unfold EndpointSliceCache.storedUnder at h
  cases hg : GoMap.get e.slicesByService (EndpointSliceCacheKeys s).1 with
  | none => rfl
  | some slices =>
    simp only [hg, Option.getD_some] at h
    simp only
    rw [GoMap.delete_of_get_none h, GoMap.set_of_get hg]

/-- C14 (Delete of an absent key). For every cache state and every slice whose
pair of keys is not stored (the service may have no sub-map at all), `Delete`
returns and leaves the cache state unchanged. -/
theorem Delete_absent_noop (e : EndpointSliceCache) (s : discovery.EndpointSlice)
    (h : GoMap.get (e.storedUnder (EndpointSliceCacheKeys s).1) (EndpointSliceCacheKeys s).2
      = none) : e.Delete s = e :=
  Delete_of_absent e s h

/-- Witness of C14: `sliceB` is not stored in the cache holding `sliceA`. -/
theorem Delete_absent_noop_witness :
    GoMap.get ((cacheOf "host1" none none [sliceA]).storedUnder (EndpointSliceCacheKeys sliceB).1)
      (EndpointSliceCacheKeys sliceB).2 = none ∧
    (cacheOf "host1" none none [sliceA]).Delete sliceB = cacheOf "host1" none none [sliceA] :=
  ⟨by decide, Delete_absent_noop (cacheOf "host1" none none [sliceA]) sliceB (by decide)⟩

theorem slicesOf_Update_of_ne (e : EndpointSliceCache) (s : discovery.EndpointSlice)
    {k : types.NamespacedName} (hk : k ≠ (EndpointSliceCacheKeys s).1) :
    (e.Update s).slicesOf k = e.slicesOf k := by
  unfold EndpointSliceCache.slicesOf
  rw [storedUnder_Update, if_neg (fun h => hk h.symm)]

theorem slicesOf_Delete_of_ne (e : EndpointSliceCache) (s : discovery.EndpointSlice)
    {k : types.NamespacedName} (hk : k ≠ (EndpointSliceCacheKeys s).1) :
    (e.Delete s).slicesOf k = e.slicesOf k := by
  unfold EndpointSliceCache.slicesOf
  rw [storedUnder_Delete, if_neg (fun h => hk h.symm)]

theorem GetEndpointsMapOver_Update (IsIPv6String : String → Bool) (e : EndpointSliceCache)
    (s : discovery.EndpointSlice) (k : types.NamespacedName) (order : List EndpointSliceInfo) :
    GetEndpointsMapOver IsIPv6String (e.Update s) k order =
      GetEndpointsMapOver IsIPv6String e k order :=
  GetEndpointsMapOver_congr IsIPv6String rfl rfl rfl k order

theorem GetEndpointsMapOver_Delete (IsIPv6String : String → Bool) (e : EndpointSliceCache)
    (s : discovery.EndpointSlice) (k : types.NamespacedName) (order : List EndpointSliceInfo) :
    GetEndpointsMapOver IsIPv6String (e.Delete s) k order =
      GetEndpointsMapOver IsIPv6String e k order :=
  GetEndpointsMapOver_congr IsIPv6String (Delete_config e s).1 (Delete_config e s).2.1
    (Delete_config e s).2.2 k order

theorem get_storedUnder_Update (e : EndpointSliceCache) (s : discovery.EndpointSlice)
    (k : types.NamespacedName) (name : String) :
    GoMap.get ((e.Update s).storedUnder k) name =
      if EndpointSliceCacheKeys s = (k, name) then some (esInfoOf s)
      else GoMap.get (e.storedUnder k) name := by
  rw [storedUnder_Update]
  by_cases h1 : (EndpointSliceCacheKeys s).1 = k
  · rw [if_pos h1, GoMap.get_set]
    by_cases h2 : (EndpointSliceCacheKeys s).2 = name
    · rw [if_pos h2, if_pos (Prod.ext h1 h2)]
    · rw [if_neg h2, if_neg (fun h => h2 (by rw [h]))]
  · rw [if_neg h1, if_neg (fun h => h1 (by rw [h]))]

theorem get_storedUnder_Delete (e : EndpointSliceCache) (s : discovery.EndpointSlice)
    (k : types.NamespacedName) (name : String) :
    GoMap.get ((e.Delete s).storedUnder k) name =
      if EndpointSliceCacheKeys s = (k, name) then none
      else GoMap.get (e.storedUnder k) name := by
  rw [storedUnder_Delete]
  by_cases h1 : (EndpointSliceCacheKeys s).1 = k
  · rw [if_pos h1, GoMap.get_delete]
    by_cases h2 : (EndpointSliceCacheKeys s).2 = name
    · rw [if_pos h2, if_pos (Prod.ext h1 h2)]
    · rw [if_neg h2, if_neg (fun h => h2 (by rw [h]))]
  · rw [if_neg h1, if_neg (fun h => h1 (by rw [h]))]

/-- C15 (Service isolation). For every cache state and slice `s`: after
`Update s` the record at the keys of `s` is the projection of `s`, after
`Delete s` there is none, and every other record is the one stored before
(also one with the same shard name under another service key); for every
service key `k` other than the service key of `s`, the shards stored under `k`
and the result of `GetEndpointsMap` for `k`, on every enumeration, are
unchanged by `Update s` and by `Delete s`. -/
theorem Update_Delete_isolation (IsIPv6String : String → Bool) (e : EndpointSliceCache)
    (s : discovery.EndpointSlice) (k : types.NamespacedName)
    (hk : k ≠ (EndpointSliceCacheKeys s).1) :
    (∀ k' name, GoMap.get ((e.Update s).storedUnder k') name =
        (if EndpointSliceCacheKeys s = (k', name) then some (esInfoOf s)
         else GoMap.get (e.storedUnder k') name) ∧
      GoMap.get ((e.Delete s).storedUnder k') name =
        (if EndpointSliceCacheKeys s = (k', name) then none
         else GoMap.get (e.storedUnder k') name)) ∧
    (e.Update s).slicesOf k = e.slicesOf k ∧ (e.Delete s).slicesOf k = e.slicesOf k ∧
    (∀ order, GetEndpointsMapOver IsIPv6String (e.Update s) k order =
        GetEndpointsMapOver IsIPv6String e k order ∧
      GetEndpointsMapOver IsIPv6String (e.Delete s) k order =
        GetEndpointsMapOver IsIPv6String e k order) ∧
    (e.Update s).GetEndpointsMap IsIPv6String k = e.GetEndpointsMap IsIPv6String k ∧
    (e.Delete s).GetEndpointsMap IsIPv6String k = e.GetEndpointsMap IsIPv6String k := by
  refine ⟨fun k' name => ⟨get_storedUnder_Update e s k' name, get_storedUnder_Delete e s k' name⟩,
    slicesOf_Update_of_ne e s hk, slicesOf_Delete_of_ne e s hk,
    fun order => ⟨GetEndpointsMapOver_Update IsIPv6String e s k order,
      GetEndpointsMapOver_Delete IsIPv6String e s k order⟩, ?_, ?_⟩
  · unfold EndpointSliceCache.GetEndpointsMap
    rw [slicesOf_Update_of_ne e s hk, GetEndpointsMapOver_Update]
  · unfold EndpointSliceCache.GetEndpointsMap
    rw [slicesOf_Delete_of_ne e s hk, GetEndpointsMapOver_Delete]

/-- Witness of C15: `sliceOther` has the shard name of `sliceA` under another
service key; its `Update` and `Delete` leave the shards of `svc1` unchanged. -/
theorem Update_Delete_isolation_witness :
    svc1 ≠ (EndpointSliceCacheKeys sliceOther).1 ∧
    (EndpointSliceCacheKeys sliceOther).2 = (EndpointSliceCacheKeys sliceA).2 ∧
    ((cacheOf "host1" none none [sliceA]).Update sliceOther).slicesOf svc1 =
      (cacheOf "host1" none none [sliceA]).slicesOf svc1 ∧
    ((cacheOf "host1" none none [sliceA]).Delete sliceOther).slicesOf svc1 =
      (cacheOf "host1" none none [sliceA]).slicesOf svc1 :=
  ⟨by decide, by decide,
    (Update_Delete_isolation (fun _ => false) (cacheOf "host1" none none [sliceA]) sliceOther
      svc1 (by decide)).2.1,
    (Update_Delete_isolation (fun _ => false) (cacheOf "host1" none none [sliceA]) sliceOther
      svc1 (by decide)).2.2.1⟩

/-- C16 (Identity derivation). For every slice with at least one owner
reference `EndpointSliceCacheKeys` returns the slice namespace with the name
of the first owner reference, and the slice name; for every slice with no
owner reference it returns the zero `NamespacedName` and the slice name. -/
theorem EndpointSliceCacheKeys_derivation (s : discovery.EndpointSlice) :
    (∀ ownerRef rest, s.OwnerReferences = ownerRef :: rest →
      EndpointSliceCacheKeys s =
        ({ Namespace := s.Namespace, Name := ownerRef.Name }, s.Name)) ∧
    (s.OwnerReferences = [] →
      EndpointSliceCacheKeys s = ({ Namespace := "", Name := "" }, s.Name)) := by
  unfold EndpointSliceCacheKeys
  constructor
  · intro ownerRef rest h
    rw [h]
  · intro h
    rw [h]

/-- Witness of C16 on a slice with an owner reference and on one without. -/
theorem EndpointSliceCacheKeys_derivation_witness :
    EndpointSliceCacheKeys sliceA = ({ Namespace := "ns1", Name := "svc1" }, "svc1-1") ∧
    EndpointSliceCacheKeys sliceOwnerless = ({ Namespace := "", Name := "" }, "svc1-1") :=
  ⟨(EndpointSliceCacheKeys_derivation sliceA).1 { Kind := "Service", Name := "svc1" } [] rfl,
    (EndpointSliceCacheKeys_derivation sliceOwnerless).2 rfl⟩

/-- C17 (Ownerless shards are unreachable). For every cache state, every slice
`s` without owner reference and every service key `k` other than the zero key,
the shards stored under `k` and the result of `GetEndpointsMap` for `k` are the
same after `Update s` as before, while the projection of `s` is stored under
the zero key and the name of `s`. -/
theorem Update_ownerless_unreachable (IsIPv6String : String → Bool) (e : EndpointSliceCache)
    (s : discovery.EndpointSlice) (hs : s.OwnerReferences = [])
    (k : types.NamespacedName) (hk : k ≠ { Namespace := "", Name := "" }) :
    (e.Update s).slicesOf k = e.slicesOf k ∧
    (∀ order, GetEndpointsMapOver IsIPv6String (e.Update s) k order =
      GetEndpointsMapOver IsIPv6String e k order) ∧
    (e.Update s).GetEndpointsMap IsIPv6String k = e.GetEndpointsMap IsIPv6String k ∧
    GoMap.get ((e.Update s).storedUnder { Namespace := "", Name := "" }) s.Name =
      some (esInfoOf s) := by
  have hkeys : EndpointSliceCacheKeys s = ({ Namespace := "", Name := "" }, s.Name) := by
    unfold EndpointSliceCacheKeys
    rw [hs]
  have hk' : k ≠ (EndpointSliceCacheKeys s).1 := by rw [hkeys]; exact hk
  refine ⟨slicesOf_Update_of_ne e s hk',
    fun order => GetEndpointsMapOver_Update IsIPv6String e s k order, ?_, ?_⟩
  · unfold EndpointSliceCache.GetEndpointsMap
    rw [slicesOf_Update_of_ne e s hk', GetEndpointsMapOver_Update]
  · rw [get_storedUnder_Update, if_pos hkeys]

/-- Witness of C17: the ownerless slice is stored under the zero key and the
view of `svc1` is unchanged. -/
theorem Update_ownerless_unreachable_witness :
    sliceOwnerless.OwnerReferences = [] ∧ svc1 ≠ { Namespace := "", Name := "" } ∧
    ((cacheOf "host1" none none [sliceB]).Update sliceOwnerless).GetEndpointsMap
        (fun _ => false) svc1 =
      (cacheOf "host1" none none [sliceB]).GetEndpointsMap (fun _ => false) svc1 ∧
    GoMap.get (((cacheOf "host1" none none [sliceB]).Update sliceOwnerless).storedUnder
      { Namespace := "", Name := "" }) sliceOwnerless.Name = some (esInfoOf sliceOwnerless) :=
  ⟨rfl, by decide,
    (Update_ownerless_unreachable (fun _ => false) (cacheOf "host1" none none [sliceB])
      sliceOwnerless rfl svc1 (by decide)).2.2.1,
    (Update_ownerless_unreachable (fun _ => false) (cacheOf "host1" none none [sliceB])
      sliceOwnerless rfl svc1 (by decide)).2.2.2⟩

/-- After `Update` calls on slices with pairwise distinct keys, none of them
stored before, the shards of a service are those stored before followed by the
projections of the slices of that service, in the order of the calls. -/
theorem storedUnder_foldl_Update_of_nodup (updates : List discovery.EndpointSlice) :
    ∀ (e : EndpointSliceCache) (k : types.NamespacedName),
      (∀ s ∈ updates, GoMap.get (e.storedUnder (EndpointSliceCacheKeys s).1)
        (EndpointSliceCacheKeys s).2 = none) →
      (updates.map EndpointSliceCacheKeys).Nodup →
      (updates.foldl EndpointSliceCache.Update e).storedUnder k =
        e.storedUnder k ++
          (updates.filter (fun s => decide ((EndpointSliceCacheKeys s).1 = k))).map
            storedBinding := by
  induction updates with
  | nil => intro e k _ _; simp
  | cons s rest ih =>
    intro e k habs hnd
    rw [List.map_cons, List.nodup_cons] at hnd
    rw [List.foldl_cons, ih (e.Update s) k ?_ hnd.2]
    · rw [storedUnder_Update]
      by_cases hk : (EndpointSliceCacheKeys s).1 = k
      · subst hk
        rw [if_pos rfl, GoMap.set_of_get_none _ (habs s (List.mem_cons_self _ _))]
        simp [storedBinding]
      · rw [if_neg hk]
        simp [hk]
    · intro s' hs'
      rw [get_storedUnder_Update]
      have hne : EndpointSliceCacheKeys s ≠ EndpointSliceCacheKeys s' := by
        intro h
        exact hnd.1 (h ▸ List.mem_map_of_mem _ hs')
      rw [if_neg (by simpa using hne)]
      exact habs s' (List.mem_cons_of_mem _ hs')

theorem storedUnder_cacheOf_of_nodup (hostname : String) (mode : Option Bool)
    (hook : Option makeEndpointFunc) (updates : List discovery.EndpointSlice)
    (hnd : (updates.map EndpointSliceCacheKeys).Nodup) (k : types.NamespacedName) :
    (cacheOf hostname mode hook updates).storedUnder k =
      (updates.filter (fun s => decide ((EndpointSliceCacheKeys s).1 = k))).map storedBinding := by
  unfold cacheOf
  rw [storedUnder_foldl_Update_of_nodup updates
    (NewEndpointSliceCache hostname mode hook) k (fun _ _ => rfl) hnd]
  rfl

theorem erase_eq_filter_keys {updates : List discovery.EndpointSlice}
    (hnd : (updates.map EndpointSliceCacheKeys).Nodup) {s : discovery.EndpointSlice}
    (hs : s ∈ updates) :
    updates.erase s =
      updates.filter (fun s' => decide (EndpointSliceCacheKeys s' ≠ EndpointSliceCacheKeys s)) := by
  rw [List.Nodup.erase_eq_filter (List.Nodup.of_map _ hnd)]
  apply List.filter_congr
  intro s' hs'
  have hinj := List.inj_on_of_nodup_map hnd
  by_cases h : s' = s
  · simp [h]
  · have : EndpointSliceCacheKeys s' ≠ EndpointSliceCacheKeys s := fun hk => h (hinj hs' hs hk)
    simp [h, this]

/-- After `Update` calls on slices with pairwise distinct keys and `Delete` of
one of them, the shards stored under every service key are those of the cache
built from the same calls without that slice, in the same order. -/
theorem storedUnder_Delete_cacheOf (hostname : String) (mode : Option Bool)
    (hook : Option makeEndpointFunc) (updates : List discovery.EndpointSlice)
    (hnd : (updates.map EndpointSliceCacheKeys).Nodup) (s : discovery.EndpointSlice)
    (hs : s ∈ updates) (k : types.NamespacedName) :
    ((cacheOf hostname mode hook updates).Delete s).storedUnder k =
      (cacheOf hostname mode hook (updates.erase s)).storedUnder k := by
  have hnd' : ((updates.erase s).map EndpointSliceCacheKeys).Nodup :=
    (List.Nodup.sublist ((List.erase_sublist s updates).map _) hnd)
  rw [storedUnder_Delete, storedUnder_cacheOf_of_nodup _ _ _ _ hnd,
    storedUnder_cacheOf_of_nodup _ _ _ _ hnd', erase_eq_filter_keys hnd hs]
  by_cases hk : (EndpointSliceCacheKeys s).1 = k
  · rw [if_pos hk, GoMap.delete_map, List.filter_filter, List.filter_filter]
    congr 1
    apply List.filter_congr
    intro s' hs'
    by_cases h1 : (EndpointSliceCacheKeys s').1 = k
    · have : (EndpointSliceCacheKeys s' ≠ EndpointSliceCacheKeys s) ↔
          (storedBinding s').1 ≠ (EndpointSliceCacheKeys s).2 := by
        unfold storedBinding
        constructor
        · intro hne h2
          exact hne (Prod.ext (h1.trans hk.symm) h2)
        · intro hne h2
          exact hne (by rw [h2])
      simp [h1, this]
    · simp [h1]
  · rw [if_neg hk, List.filter_filter]
    congr 1
    apply List.filter_congr
    intro s' hs'
    by_cases h1 : (EndpointSliceCacheKeys s').1 = k
    · have : EndpointSliceCacheKeys s' ≠ EndpointSliceCacheKeys s := by
        intro h2
        exact hk (by rw [← h2]; exact h1)
      simp [h1, this]
    · simp [h1]

/-! ## More facts about loops that may panic -/

theorem foldlM_filter_eq {σ α : Type} (f g : σ → α → Option σ) (p : α → Bool)
    (hkeep : ∀ s a, p a = true → f s a = g s a)
    (hskip : ∀ s a, p a = false → f s a = some s) :
    ∀ (l : List α) (s : σ), List.foldlM f s l = List.foldlM g s (l.filter p) := by
  intro l
  induction l with
  | nil => intro s; rfl
  | cons a l ih =>
    intro s
    cases hp : p a with
    | true =>
      rw [List.filter_cons_of_pos (by simpa using hp), foldlM_cons_eq, foldlM_cons_eq,
        hkeep s a hp]
      cases g s a with
      | none => rfl
      | some s₁ => exact ih s₁
    | false =>
      rw [List.filter_cons_of_neg (by simp [hp]), foldlM_cons_eq, hskip s a hp]
      exact ih s

theorem foldlM_map_eq {σ α β : Type} (f : σ → α → Option σ) (g : σ → β → Option σ)
    (h : α → β) (hfg : ∀ s a, f s a = g s (h a)) :
    ∀ (l : List α) (s : σ), List.foldlM f s l = List.foldlM g s (l.map h) := by
  intro l
  induction l with
  | nil => intro s; rfl
  | cons a l ih =>
    intro s
    rw [List.map_cons, foldlM_cons_eq, foldlM_cons_eq, hfg s a]
    cases g s (h a) with
    | none => rfl
    | some s₁ => exact ih s₁

/-! ## Ports of number 0, when the call returns -/

theorem addSlice_dropZeroPorts {IsIPv6String : String → Bool} {e : EndpointSliceCache}
    {serviceNN : types.NamespacedName} {info : EndpointSliceInfo}
    {m m' : EndpointInfoByServicePort}
    (h : addSlice IsIPv6String e serviceNN m info = some m') :
    addSlice IsIPv6String e serviceNN m (dropZeroPorts info) = some m' := by
  unfold addSlice at h ⊢
  have : addPort IsIPv6String e serviceNN (dropZeroPorts info) =
      addPort IsIPv6String e serviceNN info := rfl
  rw [this]
  refine foldlM_filter _ _ ?_ info.Ports m m' h
  intro s port s' hp hstep
  have hport : port.Port = some 0 := by simpa using hp
  rw [addPort_eq, hport] at hstep
  simp only [if_true] at hstep
  cases hN : port.Name with
  | none => simp [hN] at hstep
  | some nm =>
    simp only [hN, Option.map_some', Option.some.injEq] at hstep
    exact hstep.symm

/-- When `GetEndpointsMap` returns, it returns the same view after the declared
ports of number 0 are removed from the enumerated shards. -/
theorem GetEndpointsMapOver_dropZeroPorts {IsIPv6String : String → Bool}
    {e : EndpointSliceCache} {serviceNN : types.NamespacedName}
    {slices : List EndpointSliceInfo} {view : EndpointsMap}
    (h : GetEndpointsMapOver IsIPv6String e serviceNN slices = some view) :
    GetEndpointsMapOver IsIPv6String e serviceNN (slices.map dropZeroPorts) = some view := by
  unfold GetEndpointsMapOver endpointInfoByServicePortOver at h ⊢
  cases hm : List.foldlM (addSlice IsIPv6String e serviceNN) [] slices with
  | none => simp [hm] at h
  | some m =>
    simp only [hm, Option.map_some', Option.some.injEq] at h
    have key : ∀ (l : List EndpointSliceInfo) (s s' : EndpointInfoByServicePort),
        List.foldlM (addSlice IsIPv6String e serviceNN) s l = some s' →
        List.foldlM (addSlice IsIPv6String e serviceNN) s (l.map dropZeroPorts) = some s' := by
      intro l
      induction l with
      | nil => intro s s' hh; exact hh
      | cons a l ih =>
        intro s s' hh
        rw [foldlM_cons_eq] at hh
        rw [List.map_cons, foldlM_cons_eq]
        cases hfa : addSlice IsIPv6String e serviceNN s a with
        | none => simp [hfa] at hh
        | some s₁ =>
          simp only [hfa, Option.bind_some] at hh
          rw [addSlice_dropZeroPorts hfa]
          exact ih s₁ s' hh
    rw [key slices [] m hm]
    simp [h]

/-! ## The address-family filter as a removal of endpoints -/

theorem addEndpoint_keepFamily (IsIPv6String : String → Bool) (e : EndpointSliceCache)
    (mode : Bool) (hmode : e.isIPv6Mode = some mode) (port : discovery.EndpointPort)
    (portNum : Int) (key : ServicePortName) (info : EndpointSliceInfo)
    (m : EndpointInfoByServicePort) :
    List.foldlM (addEndpoint IsIPv6String e port portNum key) m info.Endpoints =
      List.foldlM (addEndpoint IsIPv6String { e with isIPv6Mode := none } port portNum key) m
        (keepFamily IsIPv6String mode info).Endpoints := by
  unfold keepFamily
  refine foldlM_filter_eq _ _ _ ?_ ?_ info.Endpoints m
  · intro s ep hp
    cases hT : ep.Targets with
    | nil => rw [addEndpoint_nil hT, addEndpoint_nil hT]
    | cons target rest =>
      simp only [hT, beq_iff_eq] at hp
      rw [addEndpoint_cons hT, addEndpoint_cons hT]
      have h1 : admits IsIPv6String e target = true := by simp [admits, hmode, hp]
      have h2 : admits IsIPv6String { e with isIPv6Mode := none } target = true := by
        simp [admits]
      rw [h1, h2]
      rfl
  · intro s ep hp
    cases hT : ep.Targets with
    | nil => simp [hT] at hp
    | cons target rest =>
      simp only [hT, beq_eq_false_iff_ne, ne_eq] at hp
      rw [addEndpoint_cons hT]
      have h1 : admits IsIPv6String e target = false := by simp [admits, hmode, hp]
      simp [h1]

theorem addSlice_keepFamily (IsIPv6String : String → Bool) (e : EndpointSliceCache)
    (mode : Bool) (hmode : e.isIPv6Mode = some mode) (serviceNN : types.NamespacedName)
    (m : EndpointInfoByServicePort) (info : EndpointSliceInfo) :
    addSlice IsIPv6String e serviceNN m info =
      addSlice IsIPv6String { e with isIPv6Mode := none } serviceNN m
        (keepFamily IsIPv6String mode info) := by
  unfold addSlice
  have hports : (keepFamily IsIPv6String mode info).Ports = info.Ports := rfl
  rw [hports]
  congr 1
  funext s port
  rw [addPort_eq, addPort_eq]
  cases port.Port with
  | none => rfl
  | some portNum =>
    simp only
    split
    · rfl
    · exact addEndpoint_keepFamily IsIPv6String e mode hmode port portNum _ info _

/-- C18 (Address-family filter). For every cache state with a configured mode,
every service key and every enumeration of the stored shards, the result of
`GetEndpointsMap` is the result computed by the same cache without a mode on
the shards from which the endpoints whose first target is not of the configured
family are removed; a cache without a mode admits every target. -/
theorem GetEndpointsMap_family_filter (IsIPv6String : String → Bool)
    (e : EndpointSliceCache) (mode : Bool) (hmode : e.isIPv6Mode = some mode)
    (k : types.NamespacedName) (order : List EndpointSliceInfo) :
    GetEndpointsMapOver IsIPv6String e k order =
      GetEndpointsMapOver IsIPv6String { e with isIPv6Mode := none } k
        (order.map (keepFamily IsIPv6String mode)) ∧
    ∀ target, admits IsIPv6String { e with isIPv6Mode := none } target = true := by
  refine ⟨?_, fun target => by simp [admits]⟩
  unfold GetEndpointsMapOver endpointInfoByServicePortOver
  rw [foldlM_map_eq _ _ (keepFamily IsIPv6String mode)
    (addSlice_keepFamily IsIPv6String e mode hmode k) order []]

/-- Witness of C18: in IPv4 mode the IPv6 endpoint of `sliceMixed` is skipped. -/
theorem GetEndpointsMap_family_filter_witness :
    (cacheOf "" (some false) none [sliceMixed]).isIPv6Mode = some false ∧
    GetEndpointsMapOver isV6Example (cacheOf "" (some false) none [sliceMixed]) svc1
      [esInfoOf sliceMixed] =
        some [(⟨svc1, "http"⟩, [⟨"10.0.0.1:80", false, "10.0.0.1"⟩])] ∧
    GetEndpointsMapOver isV6Example (cacheOf "" (some false) none [sliceMixed]) svc1
      [esInfoOf sliceMixed] =
      GetEndpointsMapOver isV6Example
        { cacheOf "" (some false) none [sliceMixed] with isIPv6Mode := none } svc1
        ([esInfoOf sliceMixed].map (keepFamily isV6Example false)) :=
  ⟨by decide, by decide,
    (GetEndpointsMap_family_filter isV6Example (cacheOf "" (some false) none [sliceMixed]) false
      (by decide) svc1 [esInfoOf sliceMixed]).1⟩

/-- C13 (Deletion). For every sequence of `Update` calls on slices with
pairwise distinct keys and every slice `s` among them, after `Delete s` the
shards stored under every service key, and the result of `GetEndpointsMap` for
it on every enumeration, are those of the cache built from the same calls with
`s` left out; the only record removed is the one at the keys of `s`. -/
theorem Delete_view (IsIPv6String : String → Bool) (hostname : String)
    (isIPv6Mode : Option Bool) (makeEndpointInfo : Option makeEndpointFunc)
    (updates : List discovery.EndpointSlice)
    (hnd : (updates.map EndpointSliceCacheKeys).Nodup) (s : discovery.EndpointSlice)
    (hs : s ∈ updates) (k : types.NamespacedName) :
    ((cacheOf hostname isIPv6Mode makeEndpointInfo updates).Delete s).slicesOf k =
      (cacheOf hostname isIPv6Mode makeEndpointInfo (updates.erase s)).slicesOf k ∧
    (∀ order,
      GetEndpointsMapOver IsIPv6String
          ((cacheOf hostname isIPv6Mode makeEndpointInfo updates).Delete s) k order =
        GetEndpointsMapOver IsIPv6String
          (cacheOf hostname isIPv6Mode makeEndpointInfo (updates.erase s)) k order) ∧
    ((cacheOf hostname isIPv6Mode makeEndpointInfo updates).Delete s).GetEndpointsMap
        IsIPv6String k =
      (cacheOf hostname isIPv6Mode makeEndpointInfo (updates.erase s)).GetEndpointsMap
        IsIPv6String k ∧
    ∀ k' name,
      GoMap.get (((cacheOf hostname isIPv6Mode makeEndpointInfo updates).Delete s).storedUnder k')
          name =
        if EndpointSliceCacheKeys s = (k', name) then none
        else GoMap.get ((cacheOf hostname isIPv6Mode makeEndpointInfo updates).storedUnder k')
          name := by
  have hsl : ((cacheOf hostname isIPv6Mode makeEndpointInfo updates).Delete s).slicesOf k =
      (cacheOf hostname isIPv6Mode makeEndpointInfo (updates.erase s)).slicesOf k := by
    unfold EndpointSliceCache.slicesOf
    rw [storedUnder_Delete_cacheOf hostname isIPv6Mode makeEndpointInfo updates hnd s hs k]
  have hG : ∀ order,
      GetEndpointsMapOver IsIPv6String
          ((cacheOf hostname isIPv6Mode makeEndpointInfo updates).Delete s) k order =
        GetEndpointsMapOver IsIPv6String
          (cacheOf hostname isIPv6Mode makeEndpointInfo (updates.erase s)) k order := by
    intro order
    apply GetEndpointsMapOver_congr
    · rw [(Delete_config _ s).1, cacheOf_makeEndpointInfo, cacheOf_makeEndpointInfo]
    · rw [(Delete_config _ s).2.1, cacheOf_hostname, cacheOf_hostname]
    · rw [(Delete_config _ s).2.2, cacheOf_isIPv6Mode, cacheOf_isIPv6Mode]
  refine ⟨hsl, hG, ?_, fun k' name => get_storedUnder_Delete _ s k' name⟩
  unfold EndpointSliceCache.GetEndpointsMap
  rw [hsl, hG]

/-- Witness of C13: deleting `sliceA` from the cache holding `sliceA` and
`sliceB` gives the view of the cache holding `sliceB` only. -/
theorem Delete_view_witness :
    ([sliceA, sliceB].map EndpointSliceCacheKeys).Nodup ∧ sliceA ∈ [sliceA, sliceB] ∧
    [sliceA, sliceB].erase sliceA = [sliceB] ∧
    ((cacheOf "host1" none none [sliceA, sliceB]).Delete sliceA).GetEndpointsMap
        (fun _ => false) svc1 =
      (cacheOf "host1" none none ([sliceA, sliceB].erase sliceA)).GetEndpointsMap
        (fun _ => false) svc1 :=
  ⟨by decide, by decide, by decide,
    (Delete_view (fun _ => false) "host1" none none [sliceA, sliceB] (by decide) sliceA
      (by decide) svc1).2.2.1⟩

/-- C11 (Invalid-port exclusion) fails on the code: with the unnamed port of
number 0 stored the call panics, with that port removed from the stored shard
it returns `10.0.0.1:443` for the other port. -/
theorem GetEndpointsMap_zero_port_changes_result :
    (esInfoOf sliceZeroRemoved).Endpoints = (esInfoOf sliceZeroNoName).Endpoints ∧
    (esInfoOf sliceZeroRemoved).Ports =
      (esInfoOf sliceZeroNoName).Ports.filter (fun port => decide (port.Port ≠ some 0)) ∧
    (cacheOf "" none none [sliceZeroNoName]).GetEndpointsMap (fun _ => false) svc1 = none ∧
    (cacheOf "" none none [sliceZeroRemoved]).GetEndpointsMap (fun _ => false) svc1 =
      some [(⟨svc1, "https"⟩, [⟨"10.0.0.1:443", false, "10.0.0.1"⟩])] := by
  decide

/-! ## The hook as a transform of the result -/

theorem foldlM_comm {σ α : Type} (f f' : σ → α → Option σ) (h : σ → σ)
    (hcomm : ∀ s a, f' (h s) a = (f s a).map h) :
    ∀ (l : List α) (s : σ), List.foldlM f' (h s) l = (List.foldlM f s l).map h := by
  intro l
  induction l with
  | nil => intro s; rfl
  | cons a l ih =>
    intro s
    rw [foldlM_cons_eq, foldlM_cons_eq, hcomm s a]
    cases f s a with
    | none => rfl
    | some s₁ => exact ih s₁

theorem entry_mapState (f : Endpoint → Endpoint) (m : EndpointInfoByServicePort)
    (key : ServicePortName) (A : String) :
    entry (mapState f m) key A = (entry m key A).map f := by
  unfold entry mapState
  rw [GoMap.get_mapValues]
  cases GoMap.get m key with
  | none => rfl
  | some b => exact GoMap.get_mapValues f b A

theorem getD_mapState (f : Endpoint → Endpoint) (m : EndpointInfoByServicePort)
    (key : ServicePortName) :
    (GoMap.get (mapState f m) key).getD [] = GoMap.mapValues f ((GoMap.get m key).getD []) := by
  unfold mapState
  rw [GoMap.get_mapValues]
  cases GoMap.get m key <;> rfl

theorem addEndpoint_hook (IsIPv6String : String → Bool) (e : EndpointSliceCache)
    (f : Endpoint → Endpoint) (port : discovery.EndpointPort) (portNum : Int)
    (key : ServicePortName) (m : EndpointInfoByServicePort) (ep : EndpointInfo) :
    addEndpoint IsIPv6String { e with makeEndpointInfo := some f } port portNum key
        (mapState f m) ep =
      (addEndpoint IsIPv6String { e with makeEndpointInfo := none } port portNum key m ep).map
        (mapState f) := by
  cases hT : ep.Targets with
  | nil =>
    rw [addEndpoint_nil hT, addEndpoint_nil hT]
    cases port.Name <;> rfl
  | cons target rest =>
    rw [addEndpoint_cons hT, addEndpoint_cons hT, Option.map_some', entry_mapState]
    have hadm : admits IsIPv6String { e with makeEndpointInfo := some f } target =
        admits IsIPv6String { e with makeEndpointInfo := none } target := rfl
    have hloc : isLocalEndpoint { e with makeEndpointInfo := some f } ep =
        isLocalEndpoint { e with makeEndpointInfo := none } ep := rfl
    have hnone : ((entry m key target).map f).isNone = (entry m key target).isNone := by
      cases entry m key target <;> rfl
    rw [hadm, hloc, hnone]
    congr 1
    split
    · rw [getD_mapState]
      have h1 : applyHook { e with makeEndpointInfo := some f }
          (newBaseEndpointInfo target portNum (isLocalEndpoint { e with makeEndpointInfo := none } ep))
          = f (applyHook { e with makeEndpointInfo := none }
            (newBaseEndpointInfo target portNum
              (isLocalEndpoint { e with makeEndpointInfo := none } ep))) := rfl
      rw [h1, GoMap.set_mapValues]
      unfold mapState
      rw [GoMap.set_mapValues]
    · rfl

theorem ensure_mapState (f : Endpoint → Endpoint) (m : EndpointInfoByServicePort)
    (key : ServicePortName) :
    (if (GoMap.get (mapState f m) key).isSome then mapState f m
      else GoMap.set (mapState f m) key []) =
      mapState f (if (GoMap.get m key).isSome then m else GoMap.set m key []) := by
  unfold mapState
  rw [GoMap.get_mapValues]
  cases hg : GoMap.get m key with
  | some b => simp
  | none =>
    simp only [Option.map_none', Option.isSome_none, Bool.false_eq_true, if_false]
    exact GoMap.set_mapValues (GoMap.mapValues f) m key []

theorem addSlice_hook (IsIPv6String : String → Bool) (e : EndpointSliceCache)
    (f : Endpoint → Endpoint) (serviceNN : types.NamespacedName)
    (m : EndpointInfoByServicePort) (info : EndpointSliceInfo) :
    addSlice IsIPv6String { e with makeEndpointInfo := some f } serviceNN (mapState f m) info =
      (addSlice IsIPv6String { e with makeEndpointInfo := none } serviceNN m info).map
        (mapState f) := by
  unfold addSlice
  refine foldlM_comm _ _ (mapState f) ?_ info.Ports m
  intro s port
  rw [addPort_eq, addPort_eq]
  cases port.Port with
  | none => rfl
  | some portNum =>
    simp only
    split
    · cases port.Name <;> rfl
    · rw [ensure_mapState]
      exact foldlM_comm _ _ (mapState f)
        (fun s a => addEndpoint_hook IsIPv6String e f port portNum _ s a) info.Endpoints _

theorem sortByIP_map (f : Endpoint → Endpoint) (hf : ∀ x, (f x).IP = x.IP) (l : List Endpoint) :
    sortByIP (l.map f) = (sortByIP l).map f := by
  unfold sortByIP
  rw [List.map_insertionSort byIP.le byIP.le f l]
  intro a _ b _
  unfold byIP.le byIP.Less
  rw [hf a, hf b]

theorem materialize_mapState (f : Endpoint → Endpoint) (hf : ∀ x, (f x).IP = x.IP)
    (m : EndpointInfoByServicePort) :
    materialize (mapState f m) = mapView f (materialize m) := by
  unfold materialize
  have key : ∀ (l : EndpointInfoByServicePort) (acc : EndpointsMap),
      List.foldl materializeStep (mapView f acc) (mapState f l) =
        mapView f (List.foldl materializeStep acc l) := by
    intro l
    induction l with
    | nil => intro acc; rfl
    | cons p l ih =>
      intro acc
      have hcons : mapState f (p :: l) = (p.1, GoMap.mapValues f p.2) :: mapState f l := rfl
      rw [hcons, List.foldl_cons, List.foldl_cons, ← ih]
      congr 1
      unfold materializeStep
      have hlen : (GoMap.mapValues f p.2).length = p.2.length := by
        simp [GoMap.mapValues]
      have hvals : GoMap.values (GoMap.mapValues f p.2) = (GoMap.values p.2).map f := by
        simp [GoMap.values, GoMap.mapValues, List.map_map, Function.comp]
      simp only [hlen, hvals]
      split
      · rw [sortByIP_map f hf]
        exact GoMap.set_mapValues (List.map f) acc p.1 _
      · rfl
  exact key m []

/-- C19 (Extension hook). For every cache state, service key, enumeration of
the stored shards and transform `f` that returns a record with the address it
was given, the result of `GetEndpointsMap` with hook `f` is the result of the
same cache without a hook with `f` applied to every entry (same port
identities, same order); without a hook every entry of a returned view is a
base record. -/
theorem GetEndpointsMap_hook (IsIPv6String : String → Bool) (e : EndpointSliceCache)
    (f : Endpoint → Endpoint) (hf : ∀ x, (f x).IP = x.IP) (k : types.NamespacedName)
    (order : List EndpointSliceInfo) :
    GetEndpointsMapOver IsIPv6String { e with makeEndpointInfo := some f } k order =
      (GetEndpointsMapOver IsIPv6String { e with makeEndpointInfo := none } k order).map
        (mapView f) ∧
    ∀ view, GetEndpointsMapOver IsIPv6String { e with makeEndpointInfo := none } k order
        = some view →
      ∀ key l, GoMap.get view key = some l → ∀ ep ∈ l,
        ∃ A portNum isLocal, ep = newBaseEndpointInfo A portNum isLocal := by
  constructor
  · unfold GetEndpointsMapOver endpointInfoByServicePortOver
    have := foldlM_comm _ _ (mapState f)
      (fun s a => addSlice_hook IsIPv6String e f k s a) order []
    have hnil : mapState f [] = [] := rfl
    rw [hnil] at this
    rw [this]
    cases List.foldlM (addSlice IsIPv6String { e with makeEndpointInfo := none } k) [] order with
    | none => rfl
    | some m => simp [materialize_mapState f hf m]
  · intro view hv key l hl ep hep
    obtain ⟨m, hm, rfl, hWF⟩ := GetEndpointsMapOver_eq_some hv
    obtain ⟨A, hA⟩ := (mem_view_iff hWF key ep).1 ⟨l, hl, hep⟩
    obtain ⟨portNum, isLocal, hbuilt⟩ := entry_loops IsIPv6String _ k order m hm key A ep hA
    exact ⟨A, portNum, isLocal, hbuilt⟩

/-- Witness of C19 with the transform `markLocal`. -/
theorem GetEndpointsMap_hook_witness :
    (∀ x, (markLocal x).IP = x.IP) ∧
    GetEndpointsMapOver (fun _ => false) { cacheAB with makeEndpointInfo := some markLocal } svc1
        (cacheAB.slicesOf svc1) =
      (GetEndpointsMapOver (fun _ => false) { cacheAB with makeEndpointInfo := none } svc1
        (cacheAB.slicesOf svc1)).map (mapView markLocal) :=
  ⟨fun _ => rfl,
    (GetEndpointsMap_hook (fun _ => false) cacheAB markLocal (fun _ => rfl) svc1
      (cacheAB.slicesOf svc1)).1⟩

end proxy

/-! ## Validation of the declared ports -/

namespace validation

/-- One pass of the loop on a port with name and protocol set: it returns, the
name joins the names seen, and no error has been found so far iff none had
been found before and the port has a new name, valid when non-empty, and a
supported protocol. -/
theorem validatePort_set (IsValidPortName : String → List String) (fldPath : field.Path)
    (i : Nat) (st : PortsState) (port : discovery.EndpointPort) (name protocol : String)
    (hname : port.Name = some name) (hproto : port.Protocol = some protocol) :
    ∃ st', validatePort IsValidPortName fldPath i st port = some st' ∧
      (∀ x, x ∈ st'.2 ↔ x = name ∨ x ∈ st.2) ∧
      (st'.1 = [] ↔ st.1 = [] ∧ (name ≠ "" → IsValidPortName name = []) ∧ name ∉ st.2 ∧
        protocol ∈ supportedPortProtocols) := by
  unfold validatePort
  simp only [hname, hproto]
  by_cases hseen : name ∈ st.2
  · simp only [hseen, if_true]
    by_cases hp : protocol = ""
    · simp only [hp, if_true]
      refine ⟨_, rfl, ?_, ?_⟩
      · intro x; constructor
        · exact Or.inr
        · rintro (h | h)
          · exact h ▸ hseen
          · exact h
      · simp
    · simp only [hp, if_false]
      by_cases hs : protocol ∈ supportedPortProtocols
      · simp only [hs, not_true_eq_false, if_false]
        refine ⟨_, rfl, ?_, ?_⟩
        · intro x; constructor
          · exact Or.inr
          · rintro (h | h)
            · exact h ▸ hseen
            · exact h
        · simp
      · simp only [hs, not_false_eq_true, if_true]
        refine ⟨_, rfl, ?_, ?_⟩
        · intro x; constructor
          · exact Or.inr
          · rintro (h | h)
            · exact h ▸ hseen
            · exact h
        · simp
  · simp only [hseen, if_false]
    have hvalid : (if name ≠ "" then
          st.1 ++ (IsValidPortName name).map
            (fun msg => field.Invalid ((fldPath.Index i).Child "name") name msg)
        else st.1) = [] ↔ st.1 = [] ∧ (name ≠ "" → IsValidPortName name = []) := by
      by_cases hn : name = ""
      · simp [hn]
      · simp [hn]
    by_cases hp : protocol = ""
    · simp only [hp, if_true]
      refine ⟨_, rfl, fun x => List.mem_cons, ?_⟩
      have : ("" : String) ∉ supportedPortProtocols := by decide
      simp [this]
    · simp only [hp, if_false]
      by_cases hs : protocol ∈ supportedPortProtocols
      · simp only [hs, not_true_eq_false, if_false]
        refine ⟨_, rfl, fun x => List.mem_cons, ?_⟩
        rw [hvalid]
        simp [hseen, hs]
      · simp only [hs, not_false_eq_true, if_true]
        refine ⟨_, rfl, fun x => List.mem_cons, ?_⟩
        simp [hs]

/-- The loop on ports with name and protocol set: it returns, and no error has
been found at the end iff none had been found before, the names are pairwise
distinct and not among those seen before, every non-empty name is valid and
every protocol is supported. -/
theorem validatePortsFrom_set (IsValidPortName : String → List String)
    (fldPath : field.Path) (ports : List discovery.EndpointPort) :
    ∀ (i : Nat) (st : PortsState), portsSet ports →
      ∃ st', validatePortsFrom IsValidPortName fldPath i ports st = some st' ∧
        (st'.1 = [] ↔ st.1 = [] ∧
          (∀ port ∈ ports, ∀ name, port.Name = some name → name ∉ st.2) ∧
          portsAccepted IsValidPortName ports) := by
  induction ports with
  | nil =>
    intro i st _
    refine ⟨st, rfl, ?_⟩
    simp [portsAccepted]
  | cons port rest ih =>
    intro i st hset
    have hport := hset port (List.mem_cons_self _ _)
    have hrest : portsSet rest := fun p hp => hset p (List.mem_cons_of_mem _ hp)
    obtain ⟨name, hname⟩ := Option.ne_none_iff_exists'.1 hport.1
    obtain ⟨protocol, hproto⟩ := Option.ne_none_iff_exists'.1 hport.2
    obtain ⟨st₁, hst₁, hmem, hempty⟩ :=
      validatePort_set IsValidPortName fldPath i st port name protocol hname hproto
    obtain ⟨st₂, hst₂, hfinal⟩ := ih (i + 1) st₁ hrest
    refine ⟨st₂, ?_, ?_⟩
    · simp only [validatePortsFrom, hst₁]
      exact hst₂
    · rw [hfinal, hempty]
      unfold portsAccepted
      simp only [List.forall_mem_cons, List.map_cons, List.nodup_cons, List.mem_map, hname,
        hproto, Option.some.injEq, forall_eq', hmem, not_or, not_exists, not_and]
      constructor
      · rintro ⟨⟨h1, h2, h3, h4⟩, h5, h6, h7, h8⟩
        refine ⟨h1, ⟨h3, fun p hp n hn => (h5 p hp n hn).2⟩,
          ⟨fun p hp hpn => (h5 p hp name hpn).1 rfl, h6⟩, ⟨h2, h7⟩, h4, h8⟩
      · rintro ⟨h1, ⟨h3, h5⟩, ⟨h9, h6⟩, ⟨h2, h7⟩, h4, h8⟩
        refine ⟨⟨h1, h2, h3, h4⟩, fun p hp n hn => ⟨?_, h5 p hp n hn⟩, h6, h7, h8⟩
        intro hnn
        exact h9 p hp (hnn ▸ hn)

/-- C20 (Port validation). For every list of ports whose name and protocol are
set, `ValidateEndpointSlicePorts` returns, and its error list is empty iff the
port names are pairwise distinct, every non-empty name is a valid port name and
every protocol is one of TCP, UDP and SCTP. -/
theorem ValidateEndpointSlicePorts_accepts_iff (IsValidPortName : String → List String)
    (endpointPorts : List discovery.EndpointPort) (fldPath : field.Path)
    (hset : portsSet endpointPorts) :
    ∃ allErrs, ValidateEndpointSlicePorts IsValidPortName endpointPorts fldPath = some allErrs ∧
      (allErrs = [] ↔ portsAccepted IsValidPortName endpointPorts) := by
  obtain ⟨st', hst', hfinal⟩ :=
    validatePortsFrom_set IsValidPortName fldPath endpointPorts 0 ([], []) hset
  refine ⟨st'.1, ?_, ?_⟩
  · unfold ValidateEndpointSlicePorts
    rw [hst']
    rfl
  · rw [hfinal]
    simp

/-- Witness of C20: an empty name next to `http` is accepted, a duplicated
empty name is rejected. -/
theorem ValidateEndpointSlicePorts_accepts_iff_witness :
    portsSet [examplePort "" "TCP", examplePort "http" "TCP"] ∧
    ValidateEndpointSlicePorts (fun _ => []) [examplePort "" "TCP", examplePort "http" "TCP"]
      [field.PathElement.child "ports"] = some [] ∧
    ValidateEndpointSlicePorts (fun _ => []) [examplePort "" "TCP", examplePort "" "TCP"]
      [field.PathElement.child "ports"] =
        some [field.Duplicate [field.PathElement.child "ports", field.PathElement.index 1,
          field.PathElement.child "name"] ""] ∧
    ∃ allErrs,
      ValidateEndpointSlicePorts (fun _ => []) [examplePort "" "TCP", examplePort "http" "TCP"]
        [field.PathElement.child "ports"] = some allErrs ∧
      (allErrs = [] ↔ portsAccepted (fun _ => [])
        [examplePort "" "TCP", examplePort "http" "TCP"]) :=
  ⟨by intro port hport; simp only [List.mem_cons, List.mem_singleton, List.not_mem_nil,
      or_false] at hport; rcases hport with h | h <;> subst h <;> exact ⟨by decide, by decide⟩,
    by decide, by decide,
    ValidateEndpointSlicePorts_accepts_iff (fun _ => [])
      [examplePort "" "TCP", examplePort "http" "TCP"] [field.PathElement.child "ports"]
      (by intro port hport; simp only [List.mem_cons, List.mem_singleton, List.not_mem_nil,
        or_false] at hport; rcases hport with h | h <;> subst h <;> exact ⟨by decide, by decide⟩)⟩

end validation

/-! ## Validation of a slice, generations, provenance, order and tie-break -/

namespace validation

theorem validateEndpointsFrom_eq (fldPath : field.Path) (endpoints : List discovery.Endpoint) :
    ∀ (i : Nat) (allErrs : field.ErrorList),
      validateEndpointsFrom fldPath i endpoints allErrs =
        allErrs ++ ((endpoints.enumFrom i).filter (fun p => p.2.Targets.isEmpty)).map
          (fun p => targetsRequired fldPath p.1) := by
  induction endpoints with
  | nil => intro i allErrs; simp [validateEndpointsFrom]
  | cons endpoint rest ih =>
    intro i allErrs
    rw [validateEndpointsFrom, ih, List.enumFrom_cons]
    cases hT : endpoint.Targets with
    | nil => simp [hT, targetsRequired]
    | cons t ts => simp [hT]

theorem length_filter_enumFrom {α : Type} (q : α → Bool) (l : List α) :
    ∀ i : Nat, ((l.enumFrom i).filter (fun p => q p.2)).length = l.countP q := by
  induction l with
  | nil => intro i; rfl
  | cons a l ih =>
    intro i
    rw [List.enumFrom_cons, List.countP_cons]
    cases hq : q a with
    | true => simp [hq, ih]
    | false => simp [hq, ih]

theorem filter_enumFrom_eq_nil {α : Type} (q : α → Bool) (l : List α) :
    ∀ i : Nat, (l.enumFrom i).filter (fun p => q p.2) = [] ↔ ∀ a ∈ l, q a = false := by
  induction l with
  | nil => intro i; simp
  | cons a l ih =>
    intro i
    rw [List.enumFrom_cons]
    cases hq : q a with
    | true => simp [hq]
    | false => simp [hq, ih]

/-- C21 (Endpoint validation). For every list of endpoints the result of
`ValidateEndpointSliceEndpoints` is, in the order of the endpoints, one
`Required` error at the index of each endpoint without targets and nothing
else; it is empty iff every endpoint has at least one target. -/
theorem ValidateEndpointSliceEndpoints_eq (endpoints : List discovery.Endpoint)
    (fldPath : field.Path) :
    ValidateEndpointSliceEndpoints endpoints fldPath =
      ((endpoints.enum.filter (fun p => p.2.Targets.isEmpty)).map
        (fun p => field.Required ((fldPath.Index p.1).Child "targets")
          "At least 1 target required")) ∧
    (ValidateEndpointSliceEndpoints endpoints fldPath).length =
      endpoints.countP (fun endpoint => endpoint.Targets.isEmpty) ∧
    (ValidateEndpointSliceEndpoints endpoints fldPath = [] ↔
      ∀ endpoint ∈ endpoints, 1 ≤ endpoint.Targets.length) := by
  have h : ValidateEndpointSliceEndpoints endpoints fldPath =
      ((endpoints.enum.filter (fun p => p.2.Targets.isEmpty)).map
        (fun p => targetsRequired fldPath p.1)) := by
    unfold ValidateEndpointSliceEndpoints
    rw [validateEndpointsFrom_eq]
    rfl
  refine ⟨h, ?_, ?_⟩
  · rw [h, List.length_map]
    exact length_filter_enumFrom (fun endpoint => endpoint.Targets.isEmpty) endpoints 0
  · rw [h, List.map_eq_nil_iff]
    rw [show endpoints.enum = endpoints.enumFrom 0 from rfl,
      filter_enumFrom_eq_nil (fun endpoint => endpoint.Targets.isEmpty) endpoints 0]
    constructor
    · intro hall endpoint hmem
      have := hall endpoint hmem
      cases hT : endpoint.Targets with
      | nil => simp [hT] at this
      | cons t ts => simp
    · intro hall endpoint hmem
      have := hall endpoint hmem
      cases hT : endpoint.Targets with
      | nil => simp [hT] at this
      | cons t ts => rfl

theorem ValidateEndpointSlice_TargetType (ValidateObjectMeta : metav1.ObjectMeta → field.ErrorList)
    (IsValidPortName : String → List String) (endpointSlice : discovery.EndpointSlice)
    (targetType : Option String) :
    ValidateEndpointSlice ValidateObjectMeta IsValidPortName
        { endpointSlice with TargetType := targetType } =
      ValidateEndpointSlice ValidateObjectMeta IsValidPortName endpointSlice :=
  rfl

/-- C22 (Bad target type) fails on the code: for the slice of the test case
`good-slice` with the target type `Other`, `ValidateEndpointSlice` returns
what it returns for `good-slice` itself, whatever the validation of the
metadata and of the port names; it returns no error when these accept the
metadata and the port name of `good-slice`. -/
theorem ValidateEndpointSlice_accepts_bad_target_type :
    sliceBadTargetType.TargetType = some "Other" ∧
    (∀ (ValidateObjectMeta : metav1.ObjectMeta → field.ErrorList)
        (IsValidPortName : String → List String),
      ValidateEndpointSlice ValidateObjectMeta IsValidPortName sliceBadTargetType =
        ValidateEndpointSlice ValidateObjectMeta IsValidPortName sliceGood) ∧
    (∀ (ValidateObjectMeta : metav1.ObjectMeta → field.ErrorList)
        (IsValidPortName : String → List String),
      ValidateEndpointSlice ValidateObjectMeta IsValidPortName sliceBadTargetType =
        some (ValidateObjectMeta sliceGood.ObjectMeta ++
          (IsValidPortName "http").map (fun msg =>
            field.Invalid [field.PathElement.child "ports", field.PathElement.index 0,
              field.PathElement.child "name"] "http" msg))) ∧
    ValidateEndpointSlice (fun _ => []) (fun _ => []) sliceBadTargetType = some [] := by
  refine ⟨rfl, fun _ _ => rfl, fun V P => ?_, by decide⟩
  simp [ValidateEndpointSlice, ValidateEndpointSlicePorts, validatePortsFrom, validatePort,
    sliceBadTargetType, sliceGood, ValidateEndpointSliceEndpoints, validateEndpointsFrom,
    exampleEndpoint, supportedPortProtocols, field.NewPath, field.Path.Index, field.Path.Child,
    discovery.EndpointSlice.ObjectMeta, field.Invalid]

/-- Example for C21: the endpoints at index 0 and 2 have no targets. -/
theorem ValidateEndpointSliceEndpoints_example :
    ValidateEndpointSliceEndpoints
      [exampleEndpoint [], exampleEndpoint ["1.2.3.4"], exampleEndpoint []]
      (field.NewPath "endpoints") =
      [field.Required [field.PathElement.child "endpoints", field.PathElement.index 0,
          field.PathElement.child "targets"] "At least 1 target required",
       field.Required [field.PathElement.child "endpoints", field.PathElement.index 2,
          field.PathElement.child "targets"] "At least 1 target required"] := by
  decide

end validation

namespace endpointslice

theorem wrapInt64_of_lt {n : Int} (h₁ : -2 ^ 63 ≤ n) (h₂ : n < 2 ^ 63) : wrapInt64 n = n := by
  unfold wrapInt64
  rw [Int.emod_eq_of_lt (by omega) (by omega)]
  omega

/-- What `PrepareForUpdate` does with the generation: the successor of the old
one when the endpoints differ, the one supplied in the new object otherwise. -/
theorem PrepareForUpdate_Generation
    (DeepEqual : List discovery.Endpoint → List discovery.Endpoint → Bool)
    (newEndpointSlice oldEndpointSlice : discovery.EndpointSlice) :
    (PrepareForUpdate DeepEqual newEndpointSlice oldEndpointSlice).Generation =
      if DeepEqual oldEndpointSlice.Endpoints newEndpointSlice.Endpoints = true then
        newEndpointSlice.Generation
      else wrapInt64 (oldEndpointSlice.Generation + 1) := by
  unfold PrepareForUpdate
  cases DeepEqual oldEndpointSlice.Endpoints newEndpointSlice.Endpoints <;> simp

/-- C28 (Generation on update) does not hold as stated: when the endpoints are
unchanged, `PrepareForUpdate` leaves the generation that the new object was
passed with (42 against the old generation 5); a change of the endpoints gives
the old generation plus one and a change of the ports alone, with the old
generation passed, leaves it. -/
theorem PrepareForUpdate_keeps_supplied_generation :
    sliceSameEndpoints.Endpoints = sliceOld.Endpoints ∧
    sliceOld.Generation = 5 ∧ sliceSameEndpoints.Generation = 42 ∧
    (PrepareForUpdate endpointsEqual sliceSameEndpoints sliceOld).Generation = 42 ∧
    (PrepareForUpdate endpointsEqual sliceEndpointsChanged sliceOld).Generation = 6 ∧
    (PrepareForUpdate endpointsEqual slicePortsChanged sliceOld).Generation = 5 := by
  decide

/-- C28, amended. For every old and new slice, after `PrepareForUpdate` the
generation of the new object is the old generation plus one, in `int64`
arithmetic, when the two lists of endpoints differ semantically; otherwise the
new object is returned as it was passed, so its generation is the one it was
passed with, which is the old generation whenever the new object was passed
with it. The ports play no part, and no field other than the generation is
changed. -/
theorem PrepareForUpdate_generation_rule
    (DeepEqual : List discovery.Endpoint → List discovery.Endpoint → Bool)
    (newEndpointSlice oldEndpointSlice : discovery.EndpointSlice) :
    (DeepEqual oldEndpointSlice.Endpoints newEndpointSlice.Endpoints = false →
      (PrepareForUpdate DeepEqual newEndpointSlice oldEndpointSlice).Generation =
          wrapInt64 (oldEndpointSlice.Generation + 1) ∧
        (-2 ^ 63 ≤ oldEndpointSlice.Generation → oldEndpointSlice.Generation < 2 ^ 63 - 1 →
          (PrepareForUpdate DeepEqual newEndpointSlice oldEndpointSlice).Generation =
            oldEndpointSlice.Generation + 1)) ∧
    (DeepEqual oldEndpointSlice.Endpoints newEndpointSlice.Endpoints = true →
      PrepareForUpdate DeepEqual newEndpointSlice oldEndpointSlice = newEndpointSlice ∧
        (newEndpointSlice.Generation = oldEndpointSlice.Generation →
          (PrepareForUpdate DeepEqual newEndpointSlice oldEndpointSlice).Generation =
            oldEndpointSlice.Generation)) ∧
    (∀ ports oldPorts,
      (PrepareForUpdate DeepEqual { newEndpointSlice with Ports := ports }
          { oldEndpointSlice with Ports := oldPorts }).Generation =
        (PrepareForUpdate DeepEqual newEndpointSlice oldEndpointSlice).Generation) ∧
    (PrepareForUpdate DeepEqual newEndpointSlice oldEndpointSlice).Name =
      newEndpointSlice.Name ∧
    (PrepareForUpdate DeepEqual newEndpointSlice oldEndpointSlice).Namespace =
      newEndpointSlice.Namespace ∧
    (PrepareForUpdate DeepEqual newEndpointSlice oldEndpointSlice).OwnerReferences =
      newEndpointSlice.OwnerReferences ∧
    (PrepareForUpdate DeepEqual newEndpointSlice oldEndpointSlice).Ports =
      newEndpointSlice.Ports ∧
    (PrepareForUpdate DeepEqual newEndpointSlice oldEndpointSlice).TargetType =
      newEndpointSlice.TargetType ∧
    (PrepareForUpdate DeepEqual newEndpointSlice oldEndpointSlice).Endpoints =
      newEndpointSlice.Endpoints := by
  have hgen := PrepareForUpdate_Generation DeepEqual newEndpointSlice oldEndpointSlice
  have hfields : ∀ n o : discovery.EndpointSlice,
      PrepareForUpdate DeepEqual n o = n ∨
        PrepareForUpdate DeepEqual n o = { n with Generation := wrapInt64 (o.Generation + 1) } := by
    intro n o
    unfold PrepareForUpdate
    cases DeepEqual o.Endpoints n.Endpoints
    · right; rfl
    · left; rfl
  refine ⟨?_, ?_, ?_, ?_, ?_, ?_, ?_, ?_, ?_⟩
  · intro hd
    have h : (PrepareForUpdate DeepEqual newEndpointSlice oldEndpointSlice).Generation =
        wrapInt64 (oldEndpointSlice.Generation + 1) := by
      rw [hgen, hd]
      rfl
    refine ⟨h, fun h₁ h₂ => ?_⟩
    rw [h, wrapInt64_of_lt (by omega) (by omega)]
  · intro hd
    have h : PrepareForUpdate DeepEqual newEndpointSlice oldEndpointSlice = newEndpointSlice := by
      unfold PrepareForUpdate
      rw [hd]
      rfl
    refine ⟨h, fun hg => ?_⟩
    rw [h, hg]
  · intro ports oldPorts
    rw [hgen, PrepareForUpdate_Generation]
  · rcases hfields newEndpointSlice oldEndpointSlice with h | h <;> rw [h]
  · rcases hfields newEndpointSlice oldEndpointSlice with h | h <;> rw [h]
  · rcases hfields newEndpointSlice oldEndpointSlice with h | h <;> rw [h]
  · rcases hfields newEndpointSlice oldEndpointSlice with h | h <;> rw [h]
  · rcases hfields newEndpointSlice oldEndpointSlice with h | h <;> rw [h]
  · rcases hfields newEndpointSlice oldEndpointSlice with h | h <;> rw [h]

/-- Witness of C28, amended: a change of the `TargetRef` of the endpoints alone
gives the old generation plus one; a new object with unchanged endpoints that
was passed with the old generation keeps it. -/
theorem PrepareForUpdate_generation_rule_witness :
    endpointsEqual sliceOld.Endpoints sliceTargetRefChanged.Endpoints = false ∧
    (PrepareForUpdate endpointsEqual sliceTargetRefChanged sliceOld).Generation =
      sliceOld.Generation + 1 ∧
    endpointsEqual sliceOld.Endpoints slicePortsChanged.Endpoints = true ∧
    slicePortsChanged.Generation = sliceOld.Generation ∧
    (PrepareForUpdate endpointsEqual slicePortsChanged sliceOld).Generation =
      sliceOld.Generation :=
  ⟨by decide,
    ((PrepareForUpdate_generation_rule endpointsEqual sliceTargetRefChanged sliceOld).1
      (by decide)).2 (by decide) (by decide),
    by decide, by decide,
    ((PrepareForUpdate_generation_rule endpointsEqual slicePortsChanged sliceOld).2.1
      (by decide)).2 (by decide)⟩

/-- C29 (Generation on create). For every slice, `PrepareForCreate` sets the
generation to 1, whatever it was, and leaves every other field as it is. -/
theorem PrepareForCreate_Generation (endpointSlice : discovery.EndpointSlice) :
    (PrepareForCreate endpointSlice).Generation = 1 ∧
    (PrepareForCreate endpointSlice).Name = endpointSlice.Name ∧
    (PrepareForCreate endpointSlice).Namespace = endpointSlice.Namespace ∧
    (PrepareForCreate endpointSlice).OwnerReferences = endpointSlice.OwnerReferences ∧
    (PrepareForCreate endpointSlice).Ports = endpointSlice.Ports ∧
    (PrepareForCreate endpointSlice).TargetType = endpointSlice.TargetType ∧
    (PrepareForCreate endpointSlice).Endpoints = endpointSlice.Endpoints ∧
    ∀ generation, PrepareForCreate { endpointSlice with Generation := generation } =
      PrepareForCreate endpointSlice :=
  ⟨rfl, rfl, rfl, rfl, rfl, rfl, rfl, fun _ => rfl⟩

end endpointslice

namespace proxy

/-- C23 (Update projection). For every cache state and slice `s`, `Update s`
returns a cache in which the record stored under the keys of `s` has the ports
of `s` unchanged and, as endpoints, the endpoints of `s` with `Ready` set, in
their order, each reduced to its targets and topology. -/
theorem Update_projection (e : EndpointSliceCache) (s : discovery.EndpointSlice) :
    ∃ info, GoMap.get ((e.Update s).storedUnder (EndpointSliceCacheKeys s).1)
        (EndpointSliceCacheKeys s).2 = some info ∧
      info.Ports = s.Ports ∧
      info.Endpoints =
        (s.Endpoints.filter (fun endpoint => endpoint.Conditions.Ready)).map endpointInfoOf ∧
      (∀ x, x ∈ info.Endpoints ↔
        ∃ endpoint ∈ s.Endpoints, endpoint.Conditions.Ready = true ∧
          x = ⟨endpoint.Targets, endpoint.Topology⟩) ∧
      List.Sublist (info.Endpoints.map (fun x => x.Targets))
        (s.Endpoints.map (fun endpoint => endpoint.Targets)) := by
  refine ⟨esInfoOf s, ?_, rfl, rfl, ?_, ?_⟩
  · rw [get_storedUnder_Update, if_pos rfl]
  · intro x
    simp only [esInfoOf, List.mem_map, List.mem_filter]
    constructor
    · rintro ⟨endpoint, ⟨hmem, hready⟩, rfl⟩
      exact ⟨endpoint, hmem, hready, rfl⟩
    · rintro ⟨endpoint, hmem, hready, rfl⟩
      exact ⟨endpoint, ⟨hmem, hready⟩, rfl⟩
  · simp only [esInfoOf, List.map_map]
    exact (List.filter_sublist _).map _

theorem foldlM_inv_mem {σ α : Type} (f : σ → α → Option σ) (I : σ → Prop) :
    ∀ (l : List α), (∀ s a s', a ∈ l → I s → f s a = some s' → I s') →
      ∀ (s s' : σ), I s → List.foldlM f s l = some s' → I s' := by
  intro l
  induction l with
  | nil =>
    intro _ s s' hI h
    rw [foldlM_nil_eq, Option.some.injEq] at h
    exact h ▸ hI
  | cons a l ih =>
    intro hstep s s' hI h
    rw [foldlM_cons_eq] at h
    cases hfa : f s a with
    | none => simp [hfa] at h
    | some s₁ =>
      simp only [hfa, Option.bind_some] at h
      exact ih (fun s a' s' ha' => hstep s a' s' (List.mem_cons_of_mem _ ha')) s₁ s'
        (hstep s a s₁ (List.mem_cons_self _ _) hI hfa) h

/-- An invariant of the innermost loop body, which may refer to the slice, the
declared port and the endpoint being processed, is an invariant of all the
loops. -/
theorem loops_inv_mem (IsIPv6String : String → Bool) (e : EndpointSliceCache)
    (serviceNN : types.NamespacedName) (slices : List EndpointSliceInfo)
    (I : EndpointInfoByServicePort → Prop)
    (hens : ∀ m key₀, I m → GoMap.get m key₀ = none → I (GoMap.set m key₀ []))
    (hstep : ∀ info ∈ slices, ∀ port ∈ info.Ports, ∀ portNum, port.Port = some portNum →
      portNum ≠ 0 → ∀ ep ∈ info.Endpoints, ∀ (m m' : EndpointInfoByServicePort),
      I m → addEndpoint IsIPv6String e port portNum ⟨serviceNN, port.Name.getD ""⟩ m ep = some m' →
      I m')
    (m m' : EndpointInfoByServicePort) (hI : I m)
    (h : List.foldlM (addSlice IsIPv6String e serviceNN) m slices = some m') : I m' := by
  refine foldlM_inv_mem (addSlice IsIPv6String e serviceNN) I slices ?_ m m' hI h
  intro s info s' hinfo hs hsl
  refine foldlM_inv_mem (addPort IsIPv6String e serviceNN info) I info.Ports ?_ s s' hs hsl
  intro s port s' hport hs hp
  rw [addPort_eq] at hp
  cases hnum : port.Port with
  | none => simp [hnum] at hp
  | some portNum =>
    simp only [hnum] at hp
    by_cases h0 : portNum = 0
    · simp only [h0, if_true] at hp
      cases hN : port.Name with
      | none => simp [hN] at hp
      | some nm =>
        simp only [hN, Option.map_some', Option.some.injEq] at hp
        exact hp ▸ hs
    · simp only [h0, if_false] at hp
      refine foldlM_inv_mem _ I info.Endpoints
        (fun s a s' ha hIs hh => hstep info hinfo port hport portNum hnum h0 a ha s s' hIs hh)
        _ s' ?_ hp
      cases hg : GoMap.get s ⟨serviceNN, port.Name.getD ""⟩ with
      | none => simpa using hens s _ hs hg
      | some b => simpa using hs

/-- Provenance of the entries of the map built by the loops: the entry bound
to an address under a port identity is the stored form of the base record
built from a port declared for that identity, with a non-zero number, and an
endpoint of the same slice whose first target is the address. -/
theorem entry_provenance (IsIPv6String : String → Bool) (e : EndpointSliceCache)
    (serviceNN : types.NamespacedName) (slices : List EndpointSliceInfo)
    (m : EndpointInfoByServicePort)
    (h : endpointInfoByServicePortOver IsIPv6String e serviceNN slices = some m)
    (key : ServicePortName) (A : String) (v : Endpoint) (hv : entry m key A = some v) :
    Contributes serviceNN slices key (fun portNum ep =>
      ep.Targets.head? = some A ∧ admits IsIPv6String e A = true ∧
        v = applyHook e (newBaseEndpointInfo A portNum (isLocalEndpoint e ep))) := by
  refine loops_inv_mem IsIPv6String e serviceNN slices
    (fun m => ∀ key A v, entry m key A = some v →
      Contributes serviceNN slices key (fun portNum ep =>
        ep.Targets.head? = some A ∧ admits IsIPv6String e A = true ∧
          v = applyHook e (newBaseEndpointInfo A portNum (isLocalEndpoint e ep))))
    ?_ ?_ [] m ?_ h key A v hv
  · intro m key₀ hm hg key A v hv
    have := entry_ensure m key₀ key A
    simp only [hg, Option.isSome_none, Bool.false_eq_true, if_false] at this
    rw [this] at hv
    exact hm key A v hv
  · intro info hinfo port hport portNum hnum h0 ep hep m m' hm hstep key A v hv
    rw [entry_addEndpoint hstep key A] at hv
    split at hv
    · rename_i hc
      exact ⟨info, hinfo, port, hport, portNum, hnum, h0, hc.1, ep, hep, hc.2.1, hc.2.2.1,
        (Option.some.inj hv).symm⟩
    · exact hm key A v hv
  · intro key A v hv
    simp [entry, GoMap.get] at hv

/-- C24 (Provenance of address:port). For every cache state without hook, every
service key `k` and every enumeration of the shards stored under `k`, every
entry of every sequence of a returned view is the base record of an address `A`
and a number `p`, its string being `A`, a colon and `p`, such that one shard
stored under `k` both declares a port with the name of the port identity
(unset counting as empty) and the non-zero number `p` and retains an endpoint
whose first target is `A`. -/
theorem GetEndpointsMap_provenance (IsIPv6String : String → Bool) (e : EndpointSliceCache)
    (hhook : e.makeEndpointInfo = none) (k : types.NamespacedName)
    (order : List EndpointSliceInfo) (hperm : order.Perm (e.slicesOf k)) (view : EndpointsMap)
    (hv : GetEndpointsMapOver IsIPv6String e k order = some view)
    (key : ServicePortName) (l : List Endpoint) (hl : GoMap.get view key = some l)
    (x : Endpoint) (hx : x ∈ l) :
    ∃ info ∈ e.slicesOf k, ∃ port ∈ info.Ports, ∃ p, port.Port = some p ∧ p ≠ 0 ∧
      key = ⟨k, port.Name.getD ""⟩ ∧
      ∃ ep ∈ info.Endpoints, ∃ A, ep.Targets.head? = some A ∧
        x = newBaseEndpointInfo A p (isLocalEndpoint e ep) ∧
        x.Endpoint = A ++ ":" ++ toString p ∧ x.IP = A := by
  obtain ⟨m, hm, rfl, hWF⟩ := GetEndpointsMapOver_eq_some hv
  obtain ⟨A, hA⟩ := (mem_view_iff hWF key x).1 ⟨l, hl, hx⟩
  obtain ⟨info, hinfo, port, hport, p, hnum, h0, hkey, ep, hep, hhead, -, hbuilt⟩ :=
    entry_provenance IsIPv6String e k order m hm key A x hA
  have hx' : x = newBaseEndpointInfo A p (isLocalEndpoint e ep) := by
    rw [hbuilt]
    unfold applyHook
    rw [hhook]
  refine ⟨info, hperm.mem_iff.1 hinfo, port, hport, p, hnum, h0, hkey, ep, hep, A, hhead, hx', ?_, ?_⟩
  · rw [hx']; rfl
  · rw [hx']; rfl

/-- Witness of C24 on the cache holding `sliceP1` and `sliceP2`, which declare
the port `http` with different numbers for the same address. -/
theorem GetEndpointsMap_provenance_witness :
    GetEndpointsMapOver (fun _ => false) (cacheOf "" none none [sliceP1, sliceP2]) svc1
      [esInfoOf sliceP2, esInfoOf sliceP1] =
        some [(⟨svc1, "http"⟩, [⟨"10.0.0.1:8080", false, "10.0.0.1"⟩])] ∧
    ∃ info ∈ (cacheOf "" none none [sliceP1, sliceP2]).slicesOf svc1,
      ∃ port ∈ info.Ports, ∃ p, port.Port = some p ∧ p ≠ 0 ∧
      (⟨svc1, "http"⟩ : ServicePortName) = ⟨svc1, port.Name.getD ""⟩ ∧
      ∃ ep ∈ info.Endpoints, ∃ A, ep.Targets.head? = some A ∧
        (⟨"10.0.0.1:8080", false, "10.0.0.1"⟩ : Endpoint) =
          newBaseEndpointInfo A p (isLocalEndpoint (cacheOf "" none none [sliceP1, sliceP2]) ep) ∧
        (⟨"10.0.0.1:8080", false, "10.0.0.1"⟩ : Endpoint).Endpoint = A ++ ":" ++ toString p ∧
        (⟨"10.0.0.1:8080", false, "10.0.0.1"⟩ : Endpoint).IP = A :=
  ⟨by decide,
    GetEndpointsMap_provenance (fun _ => false) (cacheOf "" none none [sliceP1, sliceP2]) rfl svc1
      [esInfoOf sliceP2, esInfoOf sliceP1] (by decide)
      [(⟨svc1, "http"⟩, [⟨"10.0.0.1:8080", false, "10.0.0.1"⟩])] (by decide) ⟨svc1, "http"⟩
      [⟨"10.0.0.1:8080", false, "10.0.0.1"⟩] (by decide)
      ⟨"10.0.0.1:8080", false, "10.0.0.1"⟩ (by decide)⟩

theorem isLocalEndpoint_of_no_hostname {e : EndpointSliceCache} (h : e.hostname = "")
    (ep : EndpointInfo) : isLocalEndpoint e ep = false := by
  unfold isLocalEndpoint
  rw [h]
  rfl

/-- C27 (No local node configured). For every cache state with an empty
hostname, no endpoint passes the locality test, also one whose topology has no
hostname attribute or an empty one; every entry of every sequence of a returned
view is the stored form of a base record that is not local, and with no hook,
or a hook that keeps the locality flag, no entry is marked local. -/
theorem GetEndpointsMap_no_local_node (IsIPv6String : String → Bool) (e : EndpointSliceCache)
    (hhost : e.hostname = "") (k : types.NamespacedName) (order : List EndpointSliceInfo)
    (hperm : order.Perm (e.slicesOf k)) (view : EndpointsMap)
    (hv : GetEndpointsMapOver IsIPv6String e k order = some view) :
    (∀ ep, isLocalEndpoint e ep = false) ∧
    (∀ key l, GoMap.get view key = some l → ∀ x ∈ l,
      ∃ A p, x = applyHook e (newBaseEndpointInfo A p false)) ∧
    (HookPreservesIsLocal e →
      ∀ key l, GoMap.get view key = some l → ∀ x ∈ l, x.IsLocal = false) := by
  have _ := hperm
  obtain ⟨m, hm, rfl, hWF⟩ := GetEndpointsMapOver_eq_some hv
  have hbuilt : ∀ key l, GoMap.get (materialize m) key = some l → ∀ x ∈ l,
      ∃ A p, x = applyHook e (newBaseEndpointInfo A p false) := by
    intro key l hl x hx
    obtain ⟨A, hA⟩ := (mem_view_iff hWF key x).1 ⟨l, hl, hx⟩
    obtain ⟨info, -, port, -, p, -, -, -, ep, -, -, -, hb⟩ :=
      entry_provenance IsIPv6String e k order m hm key A x hA
    rw [isLocalEndpoint_of_no_hostname hhost] at hb
    exact ⟨A, p, hb⟩
  refine ⟨isLocalEndpoint_of_no_hostname hhost, hbuilt, ?_⟩
  intro hloc key l hl x hx
  obtain ⟨A, p, hb⟩ := hbuilt key l hl x hx
  rw [hb, applyHook_IsLocal hloc]
  rfl

/-- Witness of C27: with an empty hostname the endpoints with an empty hostname
attribute and with none are not local. -/
theorem GetEndpointsMap_no_local_node_witness :
    (cacheOf "" none none [sliceNoNode]).hostname = "" ∧
    GetEndpointsMapOver (fun _ => false) (cacheOf "" none none [sliceNoNode]) svc1
      ((cacheOf "" none none [sliceNoNode]).slicesOf svc1) =
        some [(⟨svc1, "http"⟩,
          [⟨"10.0.0.1:80", false, "10.0.0.1"⟩, ⟨"10.0.0.2:80", false, "10.0.0.2"⟩])] ∧
    ∀ key l, GoMap.get ([(⟨svc1, "http"⟩,
          [⟨"10.0.0.1:80", false, "10.0.0.1"⟩, ⟨"10.0.0.2:80", false, "10.0.0.2"⟩])] :
          EndpointsMap) key = some l → ∀ x ∈ l, x.IsLocal = false :=
  ⟨by decide, by decide,
    (GetEndpointsMap_no_local_node (fun _ => false) (cacheOf "" none none [sliceNoNode])
      (by decide) svc1 _ (List.Perm.refl _)
      [(⟨svc1, "http"⟩,
        [⟨"10.0.0.1:80", false, "10.0.0.1"⟩, ⟨"10.0.0.2:80", false, "10.0.0.2"⟩])]
      (by decide)).2.2
      (fun f hf => by rw [cacheOf_makeEndpointInfo] at hf; cases hf)⟩

/-- C25 (Sort key is the full endpoint string) fails on the code: the view of
the cache holding `sliceA` and `sliceB` lists `10.0.1.1:80` before
`10.0.1.10:80` (the order the test of the repository expects), although
`10.0.1.10:80` is the smaller string. -/
theorem GetEndpointsMap_not_sorted_by_endpoint_string :
    GetEndpointsMapOver (fun _ => false) cacheAB svc1 (cacheAB.slicesOf svc1) = some viewAB ∧
    GoMap.get viewAB ⟨svc1, "port-0"⟩ =
      some [⟨"10.0.1.1:80", false, "10.0.1.1"⟩, ⟨"10.0.1.10:80", false, "10.0.1.10"⟩,
        ⟨"10.0.1.2:80", true, "10.0.1.2"⟩, ⟨"10.0.1.3:80", false, "10.0.1.3"⟩] ∧
    stringLess "10.0.1.10:80" "10.0.1.1:80" ∧
    ¬ List.Pairwise (fun a b : Endpoint => ¬ stringLess b.Endpoint a.Endpoint)
      [⟨"10.0.1.1:80", false, "10.0.1.1"⟩, ⟨"10.0.1.10:80", false, "10.0.1.10"⟩,
        ⟨"10.0.1.2:80", true, "10.0.1.2"⟩, ⟨"10.0.1.3:80", false, "10.0.1.3"⟩] := by
  decide

/-- C25, amended. For every cache state, service key and enumeration of the
stored shards, each sequence of a returned view is in ascending lexicographic
order of the addresses of its entries: no entry has an address smaller, as a
string, than the address of an entry before it. -/
theorem GetEndpointsMap_sorted_by_address (IsIPv6String : String → Bool)
    (e : EndpointSliceCache) (k : types.NamespacedName) (order : List EndpointSliceInfo)
    (hperm : order.Perm (e.slicesOf k)) (view : EndpointsMap)
    (hv : GetEndpointsMapOver IsIPv6String e k order = some view)
    (key : ServicePortName) (l : List Endpoint) (hl : GoMap.get view key = some l) :
    List.Pairwise (fun a b => ¬ stringLess b.IP a.IP) l := by
  have _ := hperm
  obtain ⟨m, -, rfl, -⟩ := GetEndpointsMapOver_eq_some hv
  obtain ⟨tbl, -, -, hsort⟩ := mem_materialize m (key, l) (GoMap.mem_of_get hl)
  simp only at hsort
  subst hsort
  refine (sortByIP_sorted _).imp ?_
  intro a b hab
  unfold byIP.le byIP.Less at hab
  exact of_decide_eq_false hab

/-- Witness of C25, amended, on the cache holding `sliceA` and `sliceB`. -/
theorem GetEndpointsMap_sorted_by_address_witness :
    GetEndpointsMapOver (fun _ => false) cacheAB svc1 (cacheAB.slicesOf svc1) = some viewAB ∧
    List.Pairwise (fun a b : Endpoint => ¬ stringLess b.IP a.IP)
      [⟨"10.0.1.1:443", false, "10.0.1.1"⟩, ⟨"10.0.1.10:443", false, "10.0.1.10"⟩,
       ⟨"10.0.1.2:443", true, "10.0.1.2"⟩] :=
  ⟨by decide,
    GetEndpointsMap_sorted_by_address (fun _ => false) cacheAB svc1 (cacheAB.slicesOf svc1)
      (List.Perm.refl _) viewAB (by decide) ⟨svc1, "port-1"⟩ _ (by decide)⟩

/-- C26 (Dedup tie-break) fails on the code: on node `host1`, with `10.0.0.1`
bound to a local entry with port 80, processing a local endpoint `10.0.0.1` of
a port declared with number 8080 replaces the entry, port number included;
accordingly the view of the two shards enumerated in this order has
`10.0.0.1:8080`. -/
theorem addEndpoint_replaces_local_entry :
    endpointInfoByServicePortOver (fun _ => false) (NewEndpointSliceCache "host1" none none) svc1
      [esInfoOf sliceP1] = some stateP1 ∧
    entry stateP1 ⟨svc1, "http"⟩ "10.0.0.1" = some ⟨"10.0.0.1:80", true, "10.0.0.1"⟩ ∧
    isLocalEndpoint (NewEndpointSliceCache "host1" none none) endpointP2 = true ∧
    (addEndpoint (fun _ => false) (NewEndpointSliceCache "host1" none none)
        (namedPort "http" 8080) 8080 ⟨svc1, "http"⟩ stateP1 endpointP2).map
      (fun m => entry m ⟨svc1, "http"⟩ "10.0.0.1") =
        some (some ⟨"10.0.0.1:8080", true, "10.0.0.1"⟩) ∧
    GetEndpointsMapOver (fun _ => false) (cacheOf "host1" none none [sliceP1, sliceP2]) svc1
      [esInfoOf sliceP1, esInfoOf sliceP2] =
        some [(⟨svc1, "http"⟩, [⟨"10.0.0.1:8080", true, "10.0.0.1"⟩])] := by
  decide

/-- C26, amended. While `GetEndpointsMap` processes an endpoint whose first
target `A` the filter admits and which is already bound under the port
identity, the pass returns; the existing entry is kept, port number included,
when the new endpoint is not local, and is replaced by the stored form of the
new local record when the new endpoint is local, whether or not the existing
entry is local; no other binding changes. -/
theorem addEndpoint_tie_break (IsIPv6String : String → Bool) (e : EndpointSliceCache)
    (port : discovery.EndpointPort) (portNum : Int) (key₀ : ServicePortName)
    (m : EndpointInfoByServicePort) (ep : EndpointInfo) (A : String) (old : Endpoint)
    (hA : ep.Targets.head? = some A) (hadm : admits IsIPv6String e A = true)
    (hold : entry m key₀ A = some old) :
    ∃ m', addEndpoint IsIPv6String e port portNum key₀ m ep = some m' ∧
      entry m' key₀ A =
        (if isLocalEndpoint e ep = true then
          some (applyHook e (newBaseEndpointInfo A portNum true))
        else some old) ∧
      ∀ key A', (key, A') ≠ (key₀, A) → entry m' key A' = entry m key A' := by
  cases hT : ep.Targets with
  | nil => simp [hT] at hA
  | cons target rest =>
    have htarget : target = A := by simpa [hT] using hA
    subst htarget
    have hstep : addEndpoint IsIPv6String e port portNum key₀ m ep = some _ :=
      addEndpoint_cons hT
    refine ⟨_, hstep, ?_, ?_⟩
    · rw [entry_addEndpoint hstep key₀ target]
      by_cases hloc : isLocalEndpoint e ep = true
      · rw [if_pos ⟨rfl, hA, hadm, Or.inr hloc⟩, if_pos hloc, hloc]
      · rw [if_neg, if_neg hloc, hold]
        rintro ⟨-, -, -, h | h⟩
        · simp [hold] at h
        · exact hloc h
    · intro key A' hne
      rw [entry_addEndpoint hstep key A', if_neg]
      rintro ⟨rfl, h, -, -⟩
      rw [hA, Option.some.injEq] at h
      exact hne (by rw [h])

/-- Witness of C26, amended: the local endpoint of `sliceP2` replaces the local
entry of `stateP1`. -/
theorem addEndpoint_tie_break_witness :
    endpointP2.Targets.head? = some "10.0.0.1" ∧
    entry stateP1 ⟨svc1, "http"⟩ "10.0.0.1" = some ⟨"10.0.0.1:80", true, "10.0.0.1"⟩ ∧
    ∃ m', addEndpoint (fun _ => false) (NewEndpointSliceCache "host1" none none)
        (namedPort "http" 8080) 8080 ⟨svc1, "http"⟩ stateP1 endpointP2 = some m' ∧
      entry m' ⟨svc1, "http"⟩ "10.0.0.1" =
        (if isLocalEndpoint (NewEndpointSliceCache "host1" none none) endpointP2 = true then
          some (applyHook (NewEndpointSliceCache "host1" none none)
            (newBaseEndpointInfo "10.0.0.1" 8080 true))
        else some ⟨"10.0.0.1:80", true, "10.0.0.1"⟩) ∧
      ∀ key A', (key, A') ≠ ((⟨svc1, "http"⟩ : ServicePortName), "10.0.0.1") →
        entry m' key A' = entry stateP1 key A' :=
  ⟨rfl, by decide,
    addEndpoint_tie_break (fun _ => false) (NewEndpointSliceCache "host1" none none)
      (namedPort "http" 8080) 8080 ⟨svc1, "http"⟩ stateP1 endpointP2 "10.0.0.1"
      ⟨"10.0.0.1:80", true, "10.0.0.1"⟩ rfl (by decide) (by decide)⟩

theorem WF_storedUnder_Update {e : EndpointSliceCache} (s : discovery.EndpointSlice)
    (h : ∀ k, GoMap.WF (e.storedUnder k)) (k : types.NamespacedName) :
    GoMap.WF ((e.Update s).storedUnder k) := by
  rw [storedUnder_Update]
  split
  · exact GoMap.WF_set (h _) _ _
  · exact h k

theorem get_storedUnder_Update_comm (e : EndpointSliceCache) (s₁ s₂ : discovery.EndpointSlice)
    (hne : EndpointSliceCacheKeys s₁ ≠ EndpointSliceCacheKeys s₂)
    (k : types.NamespacedName) (name : String) :
    GoMap.get (((e.Update s₁).Update s₂).storedUnder k) name =
      GoMap.get (((e.Update s₂).Update s₁).storedUnder k) name := by
  simp only [get_storedUnder_Update]
  by_cases h₁ : EndpointSliceCacheKeys s₁ = (k, name)
  · have h₂ : EndpointSliceCacheKeys s₂ ≠ (k, name) := fun h => hne (h₁.trans h.symm)
    simp only [if_neg h₂, if_pos h₁]
  · simp only [if_neg h₁]

/-- C30 (Updates on different keys commute). For every cache state and slices
`s₁`, `s₂` with different pairs of keys, the caches after `Update s₁; Update s₂`
and after `Update s₂; Update s₁` hold the same record under every pair of
keys, enumerate the same shards under every service key (up to order, in a
state whose maps have no key twice), and `GetEndpointsMap` gives the same
result in both on every enumeration of the shards. -/
theorem Update_commute (IsIPv6String : String → Bool) (e : EndpointSliceCache)
    (s₁ s₂ : discovery.EndpointSlice)
    (hne : EndpointSliceCacheKeys s₁ ≠ EndpointSliceCacheKeys s₂) :
    (∀ k name, GoMap.get (((e.Update s₁).Update s₂).storedUnder k) name =
      GoMap.get (((e.Update s₂).Update s₁).storedUnder k) name) ∧
    (∀ k order, GetEndpointsMapOver IsIPv6String ((e.Update s₁).Update s₂) k order =
      GetEndpointsMapOver IsIPv6String ((e.Update s₂).Update s₁) k order) ∧
    ((∀ k, GoMap.WF (e.storedUnder k)) →
      ∀ k, (((e.Update s₁).Update s₂).slicesOf k).Perm (((e.Update s₂).Update s₁).slicesOf k)) := by
  refine ⟨get_storedUnder_Update_comm e s₁ s₂ hne, ?_, ?_⟩
  · intro k order
    rw [GetEndpointsMapOver_Update, GetEndpointsMapOver_Update, GetEndpointsMapOver_Update,
      GetEndpointsMapOver_Update]
  · intro hWF k
    unfold EndpointSliceCache.slicesOf GoMap.values
    exact (GoMap.perm_of_get_eq
      (WF_storedUnder_Update s₂ (WF_storedUnder_Update s₁ hWF) k)
      (WF_storedUnder_Update s₁ (WF_storedUnder_Update s₂ hWF) k)
      (get_storedUnder_Update_comm e s₁ s₂ hne k)).map _

/-- Witness of C30: `sliceA` and `sliceB` stored in either order in a new
cache. -/
theorem Update_commute_witness :
    EndpointSliceCacheKeys sliceA ≠ EndpointSliceCacheKeys sliceB ∧
    (∀ k name,
      GoMap.get ((((NewEndpointSliceCache "host1" none none).Update sliceA).Update
        sliceB).storedUnder k) name =
      GoMap.get ((((NewEndpointSliceCache "host1" none none).Update sliceB).Update
        sliceA).storedUnder k) name) ∧
    ∀ k, ((((NewEndpointSliceCache "host1" none none).Update sliceA).Update sliceB).slicesOf
        k).Perm
      ((((NewEndpointSliceCache "host1" none none).Update sliceB).Update sliceA).slicesOf k) :=
  ⟨by decide,
    (Update_commute (fun _ => false) (NewEndpointSliceCache "host1" none none) sliceA sliceB
      (by decide)).1,
    (Update_commute (fun _ => false) (NewEndpointSliceCache "host1" none none) sliceA sliceB
      (by decide)).2.2 (fun _ => GoMap.WF_nil)⟩

end proxy

/-! ## Colliding keys, first targets, keys of the view, when the validation returns -/

namespace proxy

/-- C31 (Ownerless shards collide across namespaces). For all slices `s₁`, `s₂`
without owner reference and with the same name, whatever their namespaces,
`EndpointSliceCacheKeys` returns the same pair, the zero key and the name; in
every cache state `Update s₁` followed by `Update s₂` is `Update s₂` alone and
leaves the projection of `s₂` under that pair, and `Delete s₂` after
`Update s₁` leaves no record under it. -/
theorem ownerless_collide (e : EndpointSliceCache) (s₁ s₂ : discovery.EndpointSlice)
    (h₁ : s₁.OwnerReferences = []) (h₂ : s₂.OwnerReferences = []) (hname : s₁.Name = s₂.Name) :
    EndpointSliceCacheKeys s₁ = EndpointSliceCacheKeys s₂ ∧
    EndpointSliceCacheKeys s₂ = ({ Namespace := "", Name := "" }, s₂.Name) ∧
    (e.Update s₁).Update s₂ = e.Update s₂ ∧
    GoMap.get (((e.Update s₁).Update s₂).storedUnder { Namespace := "", Name := "" }) s₁.Name =
      some (esInfoOf s₂) ∧
    GoMap.get ((e.Update s₁).storedUnder { Namespace := "", Name := "" }) s₁.Name =
      some (esInfoOf s₁) ∧
    GoMap.get (((e.Update s₁).Delete s₂).storedUnder { Namespace := "", Name := "" }) s₁.Name =
      none := by
  have hk₁ : EndpointSliceCacheKeys s₁ = ({ Namespace := "", Name := "" }, s₁.Name) := by
    unfold EndpointSliceCacheKeys
    rw [h₁]
  have hk₂ : EndpointSliceCacheKeys s₂ = ({ Namespace := "", Name := "" }, s₂.Name) := by
    unfold EndpointSliceCacheKeys
    rw [h₂]
  have hkeys : EndpointSliceCacheKeys s₁ = EndpointSliceCacheKeys s₂ := by rw [hk₁, hk₂, hname]
  refine ⟨hkeys, hk₂, Update_Update_same_keys e s₁ s₂ hkeys, ?_, ?_, ?_⟩
  · rw [get_storedUnder_Update, if_pos (by rw [hk₂, hname])]
  · rw [get_storedUnder_Update, if_pos hk₁]
  · rw [get_storedUnder_Delete, if_pos (by rw [hk₂, hname])]

/-- Witness of C31: `sliceOwnerless` of namespace `ns1` and `sliceOwnerlessOther`
of namespace `ns2`. -/
theorem ownerless_collide_witness :
    sliceOwnerless.Namespace ≠ sliceOwnerlessOther.Namespace ∧
    esInfoOf sliceOwnerless ≠ esInfoOf sliceOwnerlessOther ∧
    EndpointSliceCacheKeys sliceOwnerless = EndpointSliceCacheKeys sliceOwnerlessOther ∧
    GoMap.get ((((NewEndpointSliceCache "host1" none none).Update sliceOwnerless).Update
        sliceOwnerlessOther).storedUnder { Namespace := "", Name := "" }) sliceOwnerless.Name =
      some (esInfoOf sliceOwnerlessOther) ∧
    GoMap.get ((((NewEndpointSliceCache "host1" none none).Update sliceOwnerless).Delete
        sliceOwnerlessOther).storedUnder { Namespace := "", Name := "" }) sliceOwnerless.Name =
      none :=
  ⟨by decide, by decide,
    (ownerless_collide (NewEndpointSliceCache "host1" none none) sliceOwnerless
      sliceOwnerlessOther rfl rfl rfl).1,
    (ownerless_collide (NewEndpointSliceCache "host1" none none) sliceOwnerless
      sliceOwnerlessOther rfl rfl rfl).2.2.2.1,
    (ownerless_collide (NewEndpointSliceCache "host1" none none) sliceOwnerless
      sliceOwnerlessOther rfl rfl rfl).2.2.2.2.2⟩

theorem foldlM_forall₂ {σ α β : Type} (f : σ → α → Option σ) (g : σ → β → Option σ)
    (R : α → β → Prop) (hfg : ∀ s a b, R a b → f s a = g s b) :
    ∀ (l : List α) (l' : List β), List.Forall₂ R l l' →
      ∀ s : σ, List.foldlM f s l = List.foldlM g s l' := by
  intro l l' hR
  induction hR with
  | nil => intro s; rfl
  | cons hab _ ih =>
    intro s
    rw [foldlM_cons_eq, foldlM_cons_eq, hfg s _ _ hab]
    cases g s _ with
    | none => rfl
    | some s₁ => exact ih s₁

theorem addEndpoint_truncated (IsIPv6String : String → Bool) (e : EndpointSliceCache)
    (port : discovery.EndpointPort) (portNum : Int) (key₀ : ServicePortName)
    (m : EndpointInfoByServicePort) (ep ep' : EndpointInfo) (h : TruncatedEndpoint ep ep') :
    addEndpoint IsIPv6String e port portNum key₀ m ep =
      addEndpoint IsIPv6String e port portNum key₀ m ep' := by
  rcases h with rfl | ⟨target, rest, hT, rfl⟩
  · rfl
  · unfold addEndpoint isLocalEndpoint
    simp only [hT]

theorem addSlice_truncated (IsIPv6String : String → Bool) (e : EndpointSliceCache)
    (serviceNN : types.NamespacedName) (m : EndpointInfoByServicePort)
    (info info' : EndpointSliceInfo) (h : TruncatedShard info info') :
    addSlice IsIPv6String e serviceNN m info = addSlice IsIPv6String e serviceNN m info' := by
  unfold addSlice
  rw [h.1]
  have hport : ∀ s port, addPort IsIPv6String e serviceNN info s port =
      addPort IsIPv6String e serviceNN info' s port := by
    intro s port
    rw [addPort_eq, addPort_eq]
    cases port.Port with
    | none => rfl
    | some portNum =>
      simp only
      split
      · rfl
      · exact foldlM_forall₂ _ _ TruncatedEndpoint
          (fun s a b hab => addEndpoint_truncated IsIPv6String e port portNum _ s a b hab)
          info.Endpoints info'.Endpoints h.2 _
  have : addPort IsIPv6String e serviceNN info = addPort IsIPv6String e serviceNN info' := by
    funext s port
    exact hport s port
  rw [this]

theorem TruncatedShard_firstTargetOnly (info : EndpointSliceInfo) :
    TruncatedShard info (firstTargetOnly info) := by
  refine ⟨rfl, ?_⟩
  unfold firstTargetOnly
  simp only
  rw [List.forall₂_map_right_iff]
  apply List.forall₂_same.2
  intro ep _
  cases hT : ep.Targets with
  | nil =>
    left
    cases ep
    simp only at hT
    simp [hT]
  | cons target rest =>
    right
    exact ⟨target, rest, hT, by simp [hT]⟩

/-- C32 (Only the first target counts). For every cache state, service key and
enumeration of the stored shards, replacing in the shards the targets of any
of the endpoints that have a target by the one-element list of the first
target leaves the result of `GetEndpointsMap` unchanged, a panic included; in
particular cutting the targets of every endpoint after the first does. -/
theorem GetEndpointsMap_first_target_only (IsIPv6String : String → Bool)
    (e : EndpointSliceCache) (k : types.NamespacedName) (order order' : List EndpointSliceInfo)
    (h : List.Forall₂ TruncatedShard order order') :
    GetEndpointsMapOver IsIPv6String e k order' = GetEndpointsMapOver IsIPv6String e k order ∧
    GetEndpointsMapOver IsIPv6String e k (order.map firstTargetOnly) =
      GetEndpointsMapOver IsIPv6String e k order := by
  have key : ∀ l l', List.Forall₂ TruncatedShard l l' →
      GetEndpointsMapOver IsIPv6String e k l' = GetEndpointsMapOver IsIPv6String e k l := by
    intro l l' hl
    unfold GetEndpointsMapOver endpointInfoByServicePortOver
    rw [foldlM_forall₂ _ _ TruncatedShard
      (fun s a b hab => addSlice_truncated IsIPv6String e k s a b hab) l l' hl []]
  refine ⟨key order order' h, key order _ ?_⟩
  rw [List.forall₂_map_right_iff]
  exact List.forall₂_same.2 (fun info _ => TruncatedShard_firstTargetOnly info)

/-- Witness of C32 on a slice whose endpoints have several targets: the second
target `10.0.0.1` of the second endpoint does not take part in the
deduplication. -/
theorem GetEndpointsMap_first_target_only_witness :
    List.Forall₂ TruncatedShard [esInfoOf sliceManyTargets]
      [firstTargetOnly (esInfoOf sliceManyTargets)] ∧
    GetEndpointsMapOver (fun _ => false) (cacheOf "host1" none none [sliceManyTargets]) svc1
      [esInfoOf sliceManyTargets] =
        some [(⟨svc1, "http"⟩,
          [⟨"10.0.0.1:80", true, "10.0.0.1"⟩, ⟨"10.0.0.2:80", false, "10.0.0.2"⟩])] ∧
    GetEndpointsMapOver (fun _ => false) (cacheOf "host1" none none [sliceManyTargets]) svc1
      [firstTargetOnly (esInfoOf sliceManyTargets)] =
    GetEndpointsMapOver (fun _ => false) (cacheOf "host1" none none [sliceManyTargets]) svc1
      [esInfoOf sliceManyTargets] :=
  ⟨List.Forall₂.cons (TruncatedShard_firstTargetOnly _) List.Forall₂.nil, by decide,
    (GetEndpointsMap_first_target_only (fun _ => false)
      (cacheOf "host1" none none [sliceManyTargets]) svc1 [esInfoOf sliceManyTargets]
      [firstTargetOnly (esInfoOf sliceManyTargets)]
      (List.Forall₂.cons (TruncatedShard_firstTargetOnly _) List.Forall₂.nil)).1⟩

/-- C33 (Keys of the view belong to the queried service). For every cache
state, service key `k` and enumeration of the stored shards, every port
identity that is a key of a returned view has the service component `k` and,
as port name, the name of a port that a shard stored under `k` declares with a
non-zero number, an unset name counting as the empty name. -/
theorem GetEndpointsMap_keys (IsIPv6String : String → Bool) (e : EndpointSliceCache)
    (k : types.NamespacedName) (order : List EndpointSliceInfo)
    (hperm : order.Perm (e.slicesOf k)) (view : EndpointsMap)
    (hv : GetEndpointsMapOver IsIPv6String e k order = some view)
    (key : ServicePortName) (hkey : key ∈ GoMap.keys view) :
    key.NamespacedName = k ∧
    ∃ info ∈ e.slicesOf k, ∃ port ∈ info.Ports, ∃ p, port.Port = some p ∧ p ≠ 0 ∧
      key.Port = port.Name.getD "" := by
  obtain ⟨m, hm, rfl, hWF⟩ := GetEndpointsMapOver_eq_some hv
  unfold GoMap.keys at hkey
  obtain ⟨⟨key', l⟩, hmem, rfl⟩ := List.mem_map.1 hkey
  obtain ⟨tbl, htbl, hlen, -⟩ := mem_materialize m (key', l) hmem
  simp only at htbl hlen
  have hget : GoMap.get m key' = some tbl := GoMap.get_of_mem hWF.1 htbl
  cases tbl with
  | nil => simp at hlen
  | cons b rest =>
    obtain ⟨A, v⟩ := b
    have hentry : entry m key' A = some v := by
      unfold entry
      rw [hget]
      simp [GoMap.get]
    obtain ⟨info, hinfo, port, hport, p, hnum, h0, hk, -⟩ :=
      entry_provenance IsIPv6String e k order m hm key' A v hentry
    subst hk
    exact ⟨rfl, info, hperm.mem_iff.1 hinfo, port, hport, p, hnum, h0, rfl⟩

/-- Witness of C33 on the cache holding `sliceA` and `sliceB`. -/
theorem GetEndpointsMap_keys_witness :
    GetEndpointsMapOver (fun _ => false) cacheAB svc1 (cacheAB.slicesOf svc1) = some viewAB ∧
    (⟨svc1, "port-1"⟩ : ServicePortName) ∈ GoMap.keys viewAB ∧
    ∃ info ∈ cacheAB.slicesOf svc1, ∃ port ∈ info.Ports, ∃ p, port.Port = some p ∧ p ≠ 0 ∧
      (⟨svc1, "port-1"⟩ : ServicePortName).Port = port.Name.getD "" :=
  ⟨by decide, by decide,
    (GetEndpointsMap_keys (fun _ => false) cacheAB svc1 (cacheAB.slicesOf svc1)
      (List.Perm.refl _) viewAB (by decide) ⟨svc1, "port-1"⟩ (by decide)).2⟩

end proxy

namespace validation

theorem validatePort_isSome (IsValidPortName : String → List String) (fldPath : field.Path)
    (i : Nat) (st : PortsState) (port : discovery.EndpointPort) :
    (validatePort IsValidPortName fldPath i st port).isSome ↔
      port.Name ≠ none ∧ port.Protocol ≠ none := by
  unfold validatePort
  cases port.Name with
  | none => simp
  | some name =>
    cases port.Protocol with
    | none => simp
    | some protocol =>
      simp only
      split
      · simp
      · split <;> simp

/-- The validation of the ports returns iff every port has its name and its
protocol set. -/
theorem validatePortsFrom_isSome (IsValidPortName : String → List String)
    (fldPath : field.Path) (ports : List discovery.EndpointPort) :
    ∀ (i : Nat) (st : PortsState),
      (validatePortsFrom IsValidPortName fldPath i ports st).isSome ↔ portsSet ports := by
  induction ports with
  | nil => intro i st; simp [validatePortsFrom, portsSet]
  | cons port rest ih =>
    intro i st
    have hp := validatePort_isSome IsValidPortName fldPath i st port
    unfold validatePortsFrom
    cases hstep : validatePort IsValidPortName fldPath i st port with
    | none =>
      rw [hstep] at hp
      simp only [Option.isSome_none, Bool.false_eq_true, false_iff] at hp ⊢
      intro hset
      exact hp (hset port (List.mem_cons_self _ _))
    | some st' =>
      rw [hstep] at hp
      simp only [Option.isSome_some, true_iff] at hp
      simp only
      rw [ih (i + 1) st']
      unfold portsSet
      simp only [List.forall_mem_cons]
      exact ⟨fun h => ⟨hp, h⟩, fun h => h.2⟩

theorem ValidateEndpointSlicePorts_isSome (IsValidPortName : String → List String)
    (endpointPorts : List discovery.EndpointPort) (fldPath : field.Path) :
    (ValidateEndpointSlicePorts IsValidPortName endpointPorts fldPath).isSome ↔
      portsSet endpointPorts := by
  unfold ValidateEndpointSlicePorts
  rw [Option.isSome_map']
  exact validatePortsFrom_isSome IsValidPortName fldPath endpointPorts 0 ([], [])

/-- C34 (Port validation is total) fails on the code: on a port whose name is
unset, and on a port whose protocol is unset, `ValidateEndpointSlicePorts`
panics, whatever the validation of port names. -/
theorem ValidateEndpointSlicePorts_panics :
    (∀ IsValidPortName : String → List String,
      ValidateEndpointSlicePorts IsValidPortName
        [{ Name := none, Protocol := some "TCP", Port := some 80 }] (field.NewPath "ports") =
          none) ∧
    (∀ IsValidPortName : String → List String,
      ValidateEndpointSlicePorts IsValidPortName
        [{ Name := some "http", Protocol := none, Port := some 80 }] (field.NewPath "ports") =
          none) :=
  ⟨fun _ => rfl, fun _ => rfl⟩

end validation
